import Mathlib

/-! # UEViewer skeletal animation: keyframe sampler, skeleton builder, channel blender, skinning

A shallow embedding of `MeshInstance/SkelMeshInstance.cpp`.

Conventions of the embedding.
* C `float` is the field `ℚ` of exact rationals: comparisons and arithmetic are exact, there is
  no rounding, no NaN and no infinity; a quotient by `0` (infinite or NaN in C) is `0`.
  Where a statement depends on the rounding, the block of code concerned is also given with
  the rounding explicit (the normalisation pass of `SetMesh` and the definitions named
  `...Rounded`): `fl : ℚ → ℚ` is applied to the exact result of every `float` operation, with
  `fl = id` for the exact reading and `fl = binary32` for IEEE 754 single precision.
* C `int` is `Int`; the arrays handled are far below `2^30` elements, so no sum of two indices
  wraps. The conversion of a `float` to `int` is defined inside the 32-bit range only
  (`toInt32`).
* `TArray<T>` and raw arrays are lists; reading or writing outside the array, and a failed
  `assert`, make the enclosing function return `none`.
* A `while`/`for` loop is a structurally recursive function on a fuel counter; running out of
  fuel returns `none`, so a theorem stating `= some r` also states that the loop terminated.
-/

namespace UEViewer

/-! ## Arrays -/

/-- Read of `a[i]` for a C `int` index: defined inside the array only. -/
def TArray.get {α : Type} (a : List α) (i : Int) : Option α :=
  if 0 ≤ i then a[i.toNat]? else none

/-! ## Machine arithmetic: 32-bit `int` and single-precision `float` -/

/-- The value `x` as a 32-bit `int`: defined for `-2^31 ≤ x < 2^31` only (a conversion or a
product of `int`s outside this range has no defined result in C). -/
def toInt32 (x : Int) : Option Int :=
  if -2147483648 ≤ x ∧ x < 2147483648 then some x else none

/-- The power `2 ^ k` for an integer exponent `k`. -/
def pow2 (k : Int) : ℚ :=
  if 0 ≤ k then ((2 ^ k.toNat : Nat) : ℚ) else 1 / ((2 ^ (-k).toNat : Nat) : ℚ)

/-- The integer part of the binary logarithm of `n` (`0` for `n ≤ 1`); the first argument
bounds the number of halvings. -/
def log2Floor : Nat → Nat → Nat
  | 0, _ => 0
  | fuel + 1, n => if 2 ≤ n then log2Floor fuel (n / 2) + 1 else 0

/-- Rounding of a non-negative rational to the nearest integer, a tie to the even one. -/
def roundHalfEven (m : ℚ) : Int :=
  let f : Int := Int.floor m
  if m - f < 1 / 2 then f
  else if m - f > 1 / 2 then f + 1
  else if f % 2 = 0 then f else f + 1

/-- The rounding of a real result to C `float` (IEEE 754 binary32, round to nearest, ties to
even): 24 significant bits for `|x| ≥ 2^-126`, multiples of `2^-149` below. Results beyond
the largest finite `float` (about `3.4e38`, where C gives infinity) are outside the model. -/
def binary32 (x : ℚ) : ℚ :=
  if x = 0 then 0
  else
    let a : ℚ := |x|
    let e0 : Int := (log2Floor a.num.natAbs a.num.natAbs : Int) - (log2Floor a.den a.den : Int)
    -- 2 ^ e ≤ a < 2 ^ (e + 1)
    let e : Int := if a < pow2 e0 then e0 - 1 else e0
    let e : Int := if e < -126 then -126 else e
    let q : ℚ := pow2 (e - 23)
    let r : ℚ := (roundHalfEven (a / q) : ℚ) * q
    if x < 0 then -r else r

/-! ## Keyframe sampler: `FindTimeKey` -/

/-- The constant `#define MAX_LINEAR_KEYS 4`. -/
def MAX_LINEAR_KEYS : Int := 4

/-- The binary-search loop of `FindTimeKey`:
`while (Low + MAX_LINEAR_KEYS < High) { Mid = (Low + High) / 2; if (Frame < KeyTime[Mid])
High = Mid-1; else Low = Mid; }`. Returns the final `(Low, High)`. -/
def FindTimeKey.binarySearch (KeyTime : List ℚ) (Frame : ℚ) :
    Nat → Int → Int → Option (Int × Int)
  | 0, Low, High => if Low + MAX_LINEAR_KEYS < High then none else some (Low, High)
  | fuel + 1, Low, High =>
    if Low + MAX_LINEAR_KEYS < High then
      let Mid := Int.tdiv (Low + High) 2
      match TArray.get KeyTime Mid with
      | none => none
      | some t =>
        if Frame < t then FindTimeKey.binarySearch KeyTime Frame fuel Low (Mid - 1)
        else FindTimeKey.binarySearch KeyTime Frame fuel Mid High
    else some (Low, High)

/-- The linear-search loop of `FindTimeKey`, `for (i = Low; i <= High; i++)`, together with the
statements after it (`if (i > High) i = High; return i;`). -/
def FindTimeKey.linearSearch (KeyTime : List ℚ) (Frame : ℚ) (High : Int) :
    Nat → Int → Option Int
  | 0, i => if i ≤ High then none else some (if i > High then High else i)
  | fuel + 1, i =>
    if i ≤ High then
      match TArray.get KeyTime i with
      | none => none
      | some CurrKeyTime =>
        if Frame = CurrKeyTime then some i
        else if Frame < CurrKeyTime then some (if i > 0 then i - 1 else 0)
        else FindTimeKey.linearSearch KeyTime Frame High fuel (i + 1)
    else some (if i > High then High else i)

/-- The function `FindTimeKey(KeyTime, Frame)`. -/
def FindTimeKey (KeyTime : List ℚ) (Frame : ℚ) : Option Int :=
  let NumKeys : Int := KeyTime.length
  match FindTimeKey.binarySearch KeyTime Frame KeyTime.length 0 (NumKeys - 1) with
  | none => none
  | some (Low, High) =>
    FindTimeKey.linearSearch KeyTime Frame High (High + 1 - Low).toNat Low

/-- A plain left-to-right linear scan for the key at or immediately before `Frame`: walk the
timestamps from the left while they are `≤ Frame` and return the index of the last one
accepted. -/
def plainLinearScan (KeyTime : List ℚ) (Frame : ℚ) : Nat :=
  (KeyTime.takeWhile (fun t => decide (t ≤ Frame))).length - 1


/-! ## Keyframe sampler: `GetKeyParams` and `GetBonePosition` -/

/-- The function `GetKeyParams(KeyTime, Frame, NumFrames, Loop, X, Y, F)`; the result is the
triple of outputs `(X, Y, F)`. The `assert(X == Y)` of the clamp branch fails to `none`. -/
def GetKeyParams (KeyTime : List ℚ) (Frame NumFrames : ℚ) (Loop : Bool) :
    Option (Int × Int × ℚ) :=
  match FindTimeKey KeyTime Frame with
  | none => none
  | some X =>
    let Y := X + 1
    let NumTimeKeys : Int := KeyTime.length
    if Y ≥ NumTimeKeys then
      if !Loop then
        -- clamp animation
        let Y := NumTimeKeys - 1
        if X = Y then some (X, Y, 0) else none
      else
        -- loop animation
        match TArray.get KeyTime X with
        | none => none
        | some tX => some (X, 0, (Frame - tX) / (NumFrames - tX))
    else
      match TArray.get KeyTime X, TArray.get KeyTime Y with
      | some tX, some tY => some (X, Y, (Frame - tX) / (tY - tX))
      | _, _ => none

/-- The structure `AnalogTrack`: orientation keys, position keys and timestamps of one bone in
one sequence; `KeyPosTime` and `KeyQuatTime` are the per-property timestamps of the `UNREAL3`
build (empty otherwise). `V` is `CVec3`/`FVector`, `Q` is `CQuat`/`FQuat`. -/
structure AnalogTrack (V Q : Type) where
  KeyQuat : List Q
  KeyPos : List V
  KeyTime : List ℚ
  KeyPosTime : List ℚ
  KeyQuatTime : List ℚ
deriving DecidableEq

/-- The block of `GetBonePosition` for evenly spaced keys (written twice in the source, once
for `NumPosKeys` and once for `NumRotKeys`): `Position = Frame / NumFrames * NumKeys;
X = appFloor(Position); F = Position - X; Y = X + 1;` with wrap or clamp of `Y`. -/
def GetBonePosition.evenKeys (Frame NumFrames : ℚ) (Loop : Bool) (NumKeys : Int) :
    Int × Int × ℚ :=
  if NumKeys > 1 then
    let Position : ℚ := Frame / NumFrames * NumKeys
    let X : Int := Int.floor Position
    let F : ℚ := Position - X
    let Y := X + 1
    if Y ≥ NumKeys then
      if !Loop then (X, NumKeys - 1, 0) else (X, 0, F)
    else (X, Y, F)
  else (0, 0, 0)

/-- The function `GetBonePosition(A, Frame, NumFrames, Loop, DstPos, DstQuat)`; the result is
the pair `(DstPos, DstQuat)`. `Lerp` and `Slerp` are the interpolation routines of the math
library, taken as parameters. -/
def GetBonePosition {V Q : Type} (Lerp : V → V → ℚ → V) (Slerp : Q → Q → ℚ → Q)
    (A : AnalogTrack V Q) (Frame NumFrames : ℚ) (Loop : Bool) : Option (V × Q) :=
  -- fast case: 1 frame only
  if A.KeyTime.length = 1 ∨ NumFrames = 1 ∨ Frame = 0 then
    match TArray.get A.KeyPos 0, TArray.get A.KeyQuat 0 with
    | some p, some q => some (p, q)
    | _, _ => none
  else
    let NumTimeKeys : Int := A.KeyTime.length
    let NumPosKeys : Int := A.KeyPos.length
    let NumRotKeys : Int := A.KeyQuat.length
    let params : Option ((Int × Int × ℚ) × (Int × Int × ℚ)) :=
      if NumTimeKeys ≠ 0 then
        -- here: KeyPos and KeyQuat sizes either equals to 1 or equals to KeyTime size
        if ¬ (NumPosKeys = 1 ∨ NumPosKeys = NumTimeKeys) then none
        else if ¬ (NumRotKeys = 1 ∨ NumRotKeys = NumTimeKeys) then none
        else
          match GetKeyParams A.KeyTime Frame NumFrames Loop with
          | none => none
          | some pos =>
            some (if NumPosKeys = 1 then (0, 0, 0) else pos,
                  if NumRotKeys = 1 then (0, 0, 0) else pos)
      else
        -- empty KeyTime array - keys are evenly spaced on a time line
        let pos : Option (Int × Int × ℚ) :=
          if A.KeyPosTime.length ≠ 0 then GetKeyParams A.KeyPosTime Frame NumFrames Loop
          else some (GetBonePosition.evenKeys Frame NumFrames Loop NumPosKeys)
        let rot : Option (Int × Int × ℚ) :=
          if A.KeyQuatTime.length ≠ 0 then GetKeyParams A.KeyQuatTime Frame NumFrames Loop
          else some (GetBonePosition.evenKeys Frame NumFrames Loop NumRotKeys)
        match pos, rot with
        | some pos, some rot => some (pos, rot)
        | _, _ => none
    match params with
    | none => none
    | some ((posX, posY, posF), (rotX, rotY, rotF)) =>
      -- get position
      let DstPos : Option V :=
        if posF > 0 then
          match TArray.get A.KeyPos posX, TArray.get A.KeyPos posY with
          | some a, some b => some (Lerp a b posF)
          | _, _ => none
        else TArray.get A.KeyPos posX
      -- get orientation
      let DstQuat : Option Q :=
        if rotF > 0 then
          match TArray.get A.KeyQuat rotX, TArray.get A.KeyQuat rotY with
          | some a, some b => some (Slerp a b rotF)
          | _, _ => none
        else TArray.get A.KeyQuat rotX
      match DstPos, DstQuat with
      | some p, some q => some (p, q)
      | _, _ => none

/-! ## Skeleton builder: `CheckBoneTree` -/

/-- The structure `FMeshBone`: name, parent index and reference pose (`BonePos.Position`,
`BonePos.Orientation`). `ParentIndex` is an index into the bone array (`SetMesh` reads
`BoneData[B.ParentIndex]` for every bone but the root), hence a natural number. -/
structure FMeshBone (V Q : Type) where
  Name : String
  ParentIndex : Nat
  Position : V
  Orientation : Q
deriving DecidableEq

/-- The constant `#define MAX_MESHBONES 512`. -/
def MAX_MESHBONES : Nat := 512

/-- The body of the loop `for (i = Index + 1; i < Bones.Num(); i++)` of `CheckBoneTree`:
`if (Bones[i].ParentIndex == Index) treeSize += CheckBoneTree(Bones, i, ...)`. The accumulator
is `treeSize` with the state `(Sizes, numIndices)`; `recurse` is the recursive call. -/
def CheckBoneTree.loopBody {V Q : Type} (Bones : List (FMeshBone V Q)) (Index : Nat)
    (recurse : Nat → List Int × Nat → Option (Int × (List Int × Nat)))
    (acc : Int × (List Int × Nat)) (i : Nat) : Option (Int × (List Int × Nat)) :=
  match Bones[i]? with
  | none => none
  | some B =>
    if B.ParentIndex = Index then
      match recurse i acc.2 with
      | none => none
      | some (r, st) => some (acc.1 + r, st)
    else some acc

/-- The function `CheckBoneTree(Bones, Index, Sizes, Depth, numIndices, maxIndices)`.
The state threaded through the recursion is the pair `(Sizes, numIndices)`; the result is the
returned value `treeSize + 1` with the final state. The `Depth` array and the static `depth`
counter only feed the debug dump and are left out, as is the `appNotify` warning, which
changes no state. The first `Nat` argument bounds the recursion depth. -/
def CheckBoneTree {V Q : Type} (Bones : List (FMeshBone V Q)) (maxIndices : Nat) :
    Nat → Nat → List Int × Nat → Option (Int × (List Int × Nat))
  | 0, _, _ => none
  | fuel + 1, Index, (Sizes, numIndices) =>
    -- assert(numIndices < maxIndices)
    if numIndices < maxIndices then
      -- remember current index, increment for recursion
      let currIndex := numIndices
      -- find children of Bone[Index]
      match (List.range' (Index + 1) (Bones.length - (Index + 1))).foldlM
          (CheckBoneTree.loopBody Bones Index (CheckBoneTree Bones maxIndices fuel))
          ((0 : Int), (Sizes, numIndices + 1)) with
      | none => none
      | some (treeSize, (Sizes, numIndices)) =>
        -- store gathered information
        some (treeSize + 1, (Sizes.set currIndex treeSize, numIndices))
    else none

/-- The `VerifySkeleton` block of `SetMesh`: runs `CheckBoneTree` from bone 0 on the local
array `int treeSizes[MAX_MESHBONES]` (not initialised: `garbage k` is the starting content of
element `k`), asserts `numIndices == NumBones` and copies `treeSizes[i]` to
`BoneData[i].SubtreeSize` for `i < numIndices`. The result is the list of the stored
`SubtreeSize`. -/
def SetMesh.VerifySkeleton {V Q : Type} (Bones : List (FMeshBone V Q)) (garbage : Nat → Int) :
    Option (List Int) :=
  if Bones.length ≠ 0 then
    let treeSizes : List Int := (List.range MAX_MESHBONES).map garbage
    match CheckBoneTree Bones MAX_MESHBONES Bones.length 0 (treeSizes, 0) with
    | none => none
    | some (_, (treeSizes, numIndices)) =>
      if numIndices = Bones.length then some (treeSizes.take numIndices) else none
  else some []

/-- The body of the child loop of `CheckBoneTree`,
`if (Bones[i].ParentIndex == Index) treeSize += CheckBoneTree(Bones, i, ...)`, on the list
`ParentIndex` of the fields `Bones[i].ParentIndex` as the code declares them: C `int`s, which
may be negative. -/
def CheckBoneTree.loopBodySigned (ParentIndex : List Int) (Index : Nat)
    (recurse : Nat → List Int × Nat → Option (Int × (List Int × Nat)))
    (acc : Int × (List Int × Nat)) (i : Nat) : Option (Int × (List Int × Nat)) :=
  match ParentIndex[i]? with
  | none => none
  | some p =>
    if p = (Index : Int) then
      match recurse i acc.2 with
      | none => none
      | some (r, st) => some (acc.1 + r, st)
    else some acc

/-- The function `CheckBoneTree` on the list of the signed fields `Bones[i].ParentIndex`, the
only field of the bones that it reads. The first `Nat` argument bounds the recursion
depth. -/
def CheckBoneTreeSigned (ParentIndex : List Int) (maxIndices : Nat) :
    Nat → Nat → List Int × Nat → Option (Int × (List Int × Nat))
  | 0, _, _ => none
  | fuel + 1, Index, (Sizes, numIndices) =>
    -- assert(numIndices < maxIndices)
    if numIndices < maxIndices then
      -- remember current index, increment for recursion
      let currIndex := numIndices
      -- find children of Bone[Index]
      match (List.range' (Index + 1) (ParentIndex.length - (Index + 1))).foldlM
          (CheckBoneTree.loopBodySigned ParentIndex Index
            (CheckBoneTreeSigned ParentIndex maxIndices fuel))
          ((0 : Int), (Sizes, numIndices + 1)) with
      | none => none
      | some (treeSize, (Sizes, numIndices)) =>
        -- store gathered information
        some (treeSize + 1, (Sizes.set currIndex treeSize, numIndices))
    else none

/-- The `VerifySkeleton` block of `SetMesh` on the list of the signed fields
`Bones[i].ParentIndex`. -/
def SetMesh.VerifySkeletonSigned (ParentIndex : List Int) (garbage : Nat → Int) :
    Option (List Int) :=
  if ParentIndex.length ≠ 0 then
    let treeSizes : List Int := (List.range MAX_MESHBONES).map garbage
    match CheckBoneTreeSigned ParentIndex MAX_MESHBONES ParentIndex.length 0 (treeSizes, 0) with
    | none => none
    | some (_, (treeSizes, numIndices)) =>
      if numIndices = ParentIndex.length then some (treeSizes.take numIndices) else none
  else some []

/-- Bone `j` is a (proper) descendant of bone `i`: `j` is not the root and its parent is `i` or
a descendant of `i`. -/
inductive Descendant {V Q : Type} (Bones : List (FMeshBone V Q)) (i : Nat) : Nat → Prop
  | child (j : Nat) (B : FMeshBone V Q) :
      0 < j → Bones[j]? = some B → B.ParentIndex = i → Descendant Bones i j
  | step (j : Nat) (B : FMeshBone V Q) :
      0 < j → Bones[j]? = some B → Descendant Bones i B.ParentIndex → Descendant Bones i j

/-- Relation between the `Sizes` array before (`S`) and after (`S'`) a run that records the
subtree sizes `sz k` for the indices `lo ≤ k < hi` and writes nowhere else. -/
def SizesUpdated (sz : Nat → Nat) (lo hi : Nat) (S S' : List Int) : Prop :=
  S'.length = S.length ∧ (∀ k, lo ≤ k → k < hi → S'[k]? = some (sz k : Int))
    ∧ (∀ k, (k < lo ∨ hi ≤ k) → S'[k]? = S[k]?)

/-! ## Skeleton builder: normalisation of the vertex influences -/

/-- The structure `FVertInfluences`: one influence record (weight, vertex index, bone
index). -/
structure FVertInfluences where
  Weight : ℚ
  PointIndex : Nat
  BoneIndex : Nat
deriving DecidableEq

/-- Sum of the weights of the influence records of vertex `p`. -/
def weightSum (Infs : List FVertInfluences) (p : Nat) : ℚ :=
  ((Infs.filter (fun Infl => Infl.PointIndex = p)).map (fun Infl => Infl.Weight)).sum

/-- The constant `INDEX_NONE` (`-1`): the "not found" value of the lookups. -/
def INDEX_NONE : Int := -1

/-- The constant `#define ANIM_UNASSIGNED -2`. -/
def ANIM_UNASSIGNED : Int := -2

/-- The structure `CMeshBoneData`. `V` is `CVec3`, `Q` is `CQuat`, `C` is `CCoords`. -/
structure CMeshBoneData (V Q C : Type) where
  BoneMap : Int
  RefCoords : C
  RefCoordsInv : C
  SubtreeSize : Int
  Scale : ℚ
  FirstChannel : Int
  Coords : C
  Transform : C
  Pos : V
  Quat : Q
deriving DecidableEq

/-! ## Skinning engine: `TransformMesh` -/

/-- Modelled from the spec: `VectorMA(a, scale, b)` of the math library, which is not part of
the sources here, "accumulate `weight * transformedVertex` into the output position":
`a += scale * b`. -/
def VectorMA {V : Type} [AddCommMonoid V] [Module ℚ V] (a : V) (scale : ℚ) (b : V) : V :=
  a + scale • b

/-- The call `memset(arr, 0, sizeof(CVec3) * NumVerts)`: zero the first `NumVerts` elements. -/
def memsetZero {V : Type} [AddCommMonoid V] (arr : List V) (NumVerts : Nat) : Option (List V) :=
  if NumVerts ≤ arr.length then some (List.replicate NumVerts 0 ++ arr.drop NumVerts) else none

/-- The body of the influence loop of `TransformMesh` for one record `Infl`; the state is
`(MeshVerts, MeshNormals)`. `UnTransformPoint T v` and `UnTransformVector T n` stand for
`T.UnTransformPoint(v, tmp)` and `T.axis.UnTransformVector(n, tmp)` of the math library. -/
def TransformMesh.step {V Q C : Type} [AddCommMonoid V] [Module ℚ V]
    (UnTransformPoint UnTransformVector : C → V → V) (BoneData : List (CMeshBoneData V Q C))
    (Verts : List V) (Norms : Option (List V)) (st : List V × List V)
    (Infl : FVertInfluences) : Option (List V × List V) :=
  match BoneData[Infl.BoneIndex]?, Verts[Infl.PointIndex]?, st.1[Infl.PointIndex]? with
  | some data, some v, some out =>
    -- transform vertex
    let MeshVerts := st.1.set Infl.PointIndex
      (VectorMA out Infl.Weight (UnTransformPoint data.Transform v))
    -- transform normal
    match Norms with
    | none => some (MeshVerts, st.2)
    | some Norms =>
      match Norms[Infl.PointIndex]?, st.2[Infl.PointIndex]? with
      | some n, some outN =>
        some (MeshVerts, st.2.set Infl.PointIndex
          (VectorMA outN Infl.Weight (UnTransformVector data.Transform n)))
      | _, _ => none
  | _, _, _ => none

/-- The function `CSkelMeshInstance::TransformMesh(NumInfs, Infs, NumVerts, Verts, Norms)`;
`NumInfs` and `NumVerts` are the lengths of `Infs` and `Verts`, `Norms = none` is the null
pointer. The state is the pair of output arrays `(MeshVerts, MeshNormals)`. -/
def TransformMesh {V Q C : Type} [AddCommMonoid V] [Module ℚ V]
    (UnTransformPoint UnTransformVector : C → V → V) (BoneData : List (CMeshBoneData V Q C))
    (Infs : List FVertInfluences) (Verts : List V) (Norms : Option (List V))
    (MeshVerts MeshNormals : List V) : Option (List V × List V) :=
  match memsetZero MeshVerts Verts.length with
  | none => none
  | some MeshVerts =>
    let MeshNormals : Option (List V) :=
      match Norms with
      | none => some MeshNormals
      | some _ => memsetZero MeshNormals Verts.length
    match MeshNormals with
    | none => none
    | some MeshNormals =>
      Infs.foldlM (TransformMesh.step UnTransformPoint UnTransformVector BoneData Verts Norms)
        (MeshVerts, MeshNormals)

/-- The sum, over the influence records of vertex `p`, of `Weight` times the image of the
reference vertex `v` under the skin `Transform` of the record's bone. -/
def skinnedPosition {V Q C : Type} [AddCommMonoid V] [Module ℚ V]
    (UnTransformPoint : C → V → V) (BoneData : List (CMeshBoneData V Q C))
    (Infs : List FVertInfluences) (v : V) (p : Nat) : V :=
  ((Infs.filter (fun Infl => Infl.PointIndex = p)).map (fun Infl =>
    match BoneData[Infl.BoneIndex]? with
    | some data => Infl.Weight • UnTransformPoint data.Transform v
    | none => 0)).sum

/-! ## Animation data and channels -/

/-- The structure `FMeshAnimSeq`: one animation sequence (name, frame count, rate). -/
structure FMeshAnimSeq where
  Name : String
  NumFrames : ℚ
  Rate : ℚ
deriving DecidableEq

/-- The structure `MotionChunk`: the tracks of one sequence, one per reference bone, and
`BoneIndices` (an entry `INDEX_NONE` disables the bone for the sequence; may be empty). -/
structure MotionChunk (V Q : Type) where
  AnimTracks : List (AnalogTrack V Q)
  BoneIndices : List Int
deriving DecidableEq

/-- The class `UMeshAnimation`: names of the reference bones, motions and sequences. -/
structure UMeshAnimation (V Q : Type) where
  RefBones : List String
  Moves : List (MotionChunk V Q)
  AnimSeqs : List FMeshAnimSeq
deriving DecidableEq

/-- The structure `CAnimChan`: one animation channel. -/
structure CAnimChan where
  AnimIndex1 : Int
  AnimIndex2 : Int
  Time : ℚ
  SecondaryBlend : ℚ
  BlendAlpha : ℚ
  RootBone : Int
  Rate : ℚ
  TweenTime : ℚ
  TweenStep : ℚ
  Looped : Bool
deriving DecidableEq

/-- Modelled from the spec: the scalar `Lerp(A, B, Alpha)` of the math library, which is not
part of the sources here, "the weighted blend (by secondary-blend weight)" of `A` and `B`. -/
def Lerp (A B Alpha : ℚ) : ℚ := A + Alpha * (B - A)

/-! ## Channel blender: time advance (`UpdateAnimation`) -/

/-- The block "update tweening" of `UpdateAnimation` for one channel; the result is the pair
of the local `TimeDelta` and the channel. `assert(Chn->Time == 0)` fails to `none`. -/
def UpdateAnimation.tween (TimeDelta : ℚ) (Chn : CAnimChan) : Option (ℚ × CAnimChan) :=
  if Chn.TweenTime ≠ 0 then
    let Chn := { Chn with TweenStep := TimeDelta / Chn.TweenTime }
    let Chn := { Chn with TweenTime := Chn.TweenTime - TimeDelta }
    let r : ℚ × CAnimChan :=
      if Chn.TweenTime < 0 then
        -- stop tweening, start animation
        (-Chn.TweenTime, { Chn with TweenTime := 0 })
      else (TimeDelta, Chn)
    if r.2.Time = 0 then some r else none
  else some (TimeDelta, Chn)

/-- The playback rate `Rate1` computed by `UpdateAnimation` for a channel whose primary
sequence is `Seq1`: `Chn->Rate * Seq1->Rate`, or, when a secondary sequence is blended in, the
blend of the two sequences' `Rate / NumFrames` scaled by `Seq1->NumFrames`. -/
def UpdateAnimation.Rate1 (AnimSeqs : List FMeshAnimSeq) (Chn : CAnimChan)
    (Seq1 : FMeshAnimSeq) : Option ℚ :=
  if Chn.AnimIndex2 ≥ 0 ∧ Chn.SecondaryBlend ≠ 0 then
    match TArray.get AnimSeqs Chn.AnimIndex2 with
    | none => none
    | some Seq2 =>
      -- if blending 2 channels, should adjust animation rate
      some (Lerp (Seq1.Rate / Seq1.NumFrames) (Seq2.Rate / Seq2.NumFrames) Chn.SecondaryBlend
        * Seq1.NumFrames)
  else some (Chn.Rate * Seq1.Rate)

/-- The block "update animation time" of `UpdateAnimation` for one channel (entered when
`!Chn->TweenTime && Chn->AnimIndex1 >= 0`): advance `Time`, then wrap or clamp it. The wrap
count `int numSkip = appFloor(Chn->Time / Seq1->NumFrames)` and the product
`numSkip * Seq1->NumFrames` with the frame count are 32-bit `int`s: outside that range the
block has no defined result. -/
def UpdateAnimation.time (AnimSeqs : List FMeshAnimSeq) (TimeDelta : ℚ) (Chn : CAnimChan) :
    Option CAnimChan :=
  if Chn.TweenTime = 0 ∧ Chn.AnimIndex1 ≥ 0 then
    match TArray.get AnimSeqs Chn.AnimIndex1 with
    | none => none
    | some Seq1 =>
      match UpdateAnimation.Rate1 AnimSeqs Chn Seq1 with
      | none => none
      | some Rate1 =>
        let Time := Chn.Time + TimeDelta * Rate1
        if Chn.Looped then
          if Time ≥ Seq1.NumFrames then
            -- wrap time
            match toInt32 (Int.floor (Time / Seq1.NumFrames)) with
            | none => none
            | some numSkip =>
              if -2147483648 ≤ numSkip * Seq1.NumFrames ∧ numSkip * Seq1.NumFrames < 2147483648
              then some { Chn with Time := Time - numSkip * Seq1.NumFrames }
              else none
          else some { Chn with Time := Time }
        else
          if Time ≥ Seq1.NumFrames - 1 then
            -- clamp time
            let Time := Seq1.NumFrames - 1
            some { Chn with Time := if Time < 0 then 0 else Time }
          else some { Chn with Time := Time }
  else some Chn

/-- The part of the channel loop of `UpdateAnimation` that updates one channel (tweening,
then animation time); the result is the pair of the local `TimeDelta`, as the following
channels see it, and the updated channel. -/
def UpdateAnimation.channel (AnimSeqs : List FMeshAnimSeq) (TimeDelta : ℚ) (Chn : CAnimChan) :
    Option (ℚ × CAnimChan) :=
  match UpdateAnimation.tween TimeDelta Chn with
  | none => none
  | some (TimeDelta, Chn) =>
    match UpdateAnimation.time AnimSeqs TimeDelta Chn with
    | none => none
    | some Chn => some (TimeDelta, Chn)

/-! ## Channel blender: pose evaluation (`UpdateSkeleton`) -/

/-- The set-up of one stage in `UpdateSkeleton`: `Motion1`/`AnimSeq1` when
`Chn->AnimIndex1 >= 0`, and `Motion2`/`AnimSeq2` with the synchronised time
`Time2 = Chn->Time / AnimSeq1->NumFrames * AnimSeq2->NumFrames` when moreover
`Chn->AnimIndex2 >= 0 && Chn->SecondaryBlend`. A component `none` of the result is the null
pointer; the result is `none` when `Anim` is null or an index is outside its array. -/
def UpdateSkeleton.motions {V Q : Type} (Anim : Option (UMeshAnimation V Q)) (Chn : CAnimChan) :
    Option (Option (MotionChunk V Q × FMeshAnimSeq)
      × Option (MotionChunk V Q × FMeshAnimSeq × ℚ)) :=
  if Chn.AnimIndex1 ≥ 0 then
    match Anim with
    | none => none
    | some Anim =>
      match TArray.get Anim.Moves Chn.AnimIndex1, TArray.get Anim.AnimSeqs Chn.AnimIndex1 with
      | some Motion1, some AnimSeq1 =>
        if Chn.AnimIndex2 ≥ 0 ∧ Chn.SecondaryBlend ≠ 0 then
          match TArray.get Anim.Moves Chn.AnimIndex2,
            TArray.get Anim.AnimSeqs Chn.AnimIndex2 with
          | some Motion2, some AnimSeq2 =>
            -- compute time for secondary channel; always in sync with primary channel
            some (some (Motion1, AnimSeq1),
              some (Motion2, AnimSeq2, Chn.Time / AnimSeq1.NumFrames * AnimSeq2.NumFrames))
          | _, _ => none
        else some (some (Motion1, AnimSeq1), none)
      | _, _ => none
  else some (none, none)

/-- The pose `(BP, BO)` that `UpdateSkeleton` samples for bone `i` (with runtime data `data`)
in one stage, before root conjugation, tweening and blending: from the tracks when the bone
is mapped and not disabled, from `RefSkeleton` otherwise. `primary` is `(Motion1, AnimSeq1)`,
`secondary` is `(Motion2, AnimSeq2, Time2)`; `garbage` is the content of the locals `BP`, `BO`
before they are assigned. -/
def UpdateSkeleton.samplePose {V Q C : Type} (Lerp : V → V → ℚ → V) (Slerp : Q → Q → ℚ → Q)
    (RefSkeleton : List (FMeshBone V Q)) (Chn : CAnimChan)
    (primary : Option (MotionChunk V Q × FMeshAnimSeq))
    (secondary : Option (MotionChunk V Q × FMeshAnimSeq × ℚ))
    (i : Int) (data : CMeshBoneData V Q C) (garbage : V × Q) : Option (V × Q) :=
  -- get default bone position
  let reference : Option (V × Q) :=
    match TArray.get RefSkeleton i with
    | none => none
    | some B => some (B.Position, B.Orientation)
  -- check for disabled bone (required for Tribes3)
  let disabled : Option Bool :=
    match primary with
    | none => some false
    | some (Motion1, _) =>
      if Motion1.BoneIndices.length ≠ 0 ∧ data.BoneMap ≠ INDEX_NONE then
        match TArray.get Motion1.BoneIndices data.BoneMap with
        | none => none
        | some b => some (decide (b = INDEX_NONE))
      else some false
  match disabled with
  | none => none
  | some disabled =>
    let BoneIndex : Int := if disabled then INDEX_NONE else data.BoneMap
    -- compute bone orientation
    match primary with
    | none => reference
    | some (Motion1, AnimSeq1) =>
      if BoneIndex ≠ INDEX_NONE then
        -- get bone position from track
        let first : Option (V × Q) :=
          if secondary.isNone ∨ Chn.SecondaryBlend ≠ 1 then
            match TArray.get Motion1.AnimTracks BoneIndex with
            | none => none
            | some A => GetBonePosition Lerp Slerp A Chn.Time AnimSeq1.NumFrames Chn.Looped
          else some garbage
        match first with
        | none => none
        | some (BP, BO) =>
          -- blend secondary animation
          match secondary with
          | none => some (BP, BO)
          | some (Motion2, AnimSeq2, Time2) =>
            match TArray.get Motion2.AnimTracks BoneIndex with
            | none => none
            | some A2 =>
              match GetBonePosition Lerp Slerp A2 Time2 AnimSeq2.NumFrames Chn.Looped with
              | none => none
              | some (BP2, BO2) =>
                if Chn.SecondaryBlend = 1 then some (BP2, BO2)
                else some (Lerp BP BP2 Chn.SecondaryBlend, Slerp BO BO2 Chn.SecondaryBlend)
      else reference

/-- The pose stored for bone `i` by one stage of `UpdateSkeleton`: the sampled pose, the root
orientation conjugated, then tweened from and blended with the pose `data->Pos`, `data->Quat`
left in the bone. `Conjugate` is `CQuat::Conjugate` of the math library. -/
def UpdateSkeleton.bonePose {V Q C : Type} (Lerp : V → V → ℚ → V) (Slerp : Q → Q → ℚ → Q)
    (Conjugate : Q → Q) (RefSkeleton : List (FMeshBone V Q)) (Chn : CAnimChan)
    (primary : Option (MotionChunk V Q × FMeshAnimSeq))
    (secondary : Option (MotionChunk V Q × FMeshAnimSeq × ℚ))
    (i : Int) (data : CMeshBoneData V Q C) (garbage : V × Q) : Option (V × Q) :=
  match UpdateSkeleton.samplePose Lerp Slerp RefSkeleton Chn primary secondary i data garbage with
  | none => none
  | some (BP, BO) =>
    let BO := if i = 0 then Conjugate BO else BO
    -- tweening
    let tweened : V × Q :=
      if Chn.TweenTime > 0 then
        (Lerp data.Pos BP Chn.TweenStep, Slerp data.Quat BO Chn.TweenStep)
      else (BP, BO)
    -- blending with previous channels
    if Chn.BlendAlpha < 1 then
      some (Lerp data.Pos tweened.1 Chn.BlendAlpha, Slerp data.Quat tweened.2 Chn.BlendAlpha)
    else some tweened

/-- The bone loop of one stage of `UpdateSkeleton`,
`for (i = firstBone; i <= lastBone; i++)`: a bone owned by a later stage is skipped with its
subtree, every other bone gets its pose `Pos`, `Quat` overwritten. (The debug counters
`BoneUpdateCounts` are left out.) The first `Nat` argument bounds the number of iterations. -/
def UpdateSkeleton.bones {V Q C : Type} (Lerp : V → V → ℚ → V) (Slerp : Q → Q → ℚ → Q)
    (Conjugate : Q → Q) (RefSkeleton : List (FMeshBone V Q)) (Stage : Nat) (Chn : CAnimChan)
    (primary : Option (MotionChunk V Q × FMeshAnimSeq))
    (secondary : Option (MotionChunk V Q × FMeshAnimSeq × ℚ))
    (garbage : V × Q) (lastBone : Int) :
    Nat → Int → List (CMeshBoneData V Q C) → Option (List (CMeshBoneData V Q C))
  | 0, i, BoneData => if i ≤ lastBone then none else some BoneData
  | fuel + 1, i, BoneData =>
    if i ≤ lastBone then
      match TArray.get BoneData i with
      | none => none
      | some data =>
        if (Stage : Int) < data.FirstChannel then
          -- this bone position will be overrided in following channel(s); skip whole subtree
          UpdateSkeleton.bones Lerp Slerp Conjugate RefSkeleton Stage Chn primary secondary
            garbage lastBone fuel (i + data.SubtreeSize + 1) BoneData
        else
          match UpdateSkeleton.bonePose Lerp Slerp Conjugate RefSkeleton Chn primary secondary
              i data garbage with
          | none => none
          | some (BP, BO) =>
            UpdateSkeleton.bones Lerp Slerp Conjugate RefSkeleton Stage Chn primary secondary
              garbage lastBone fuel (i + 1)
              (BoneData.set i.toNat { data with Quat := BO, Pos := BP })
    else some BoneData

/-- One iteration of the stage loop of `UpdateSkeleton` (pose evaluation) for stage `Stage`
with channel `Chn`; the state is the array `BoneData`. -/
def UpdateSkeleton.stage {V Q C : Type} (Lerp : V → V → ℚ → V) (Slerp : Q → Q → ℚ → Q)
    (Conjugate : Q → Q) (RefSkeleton : List (FMeshBone V Q)) (Anim : Option (UMeshAnimation V Q))
    (garbage : V × Q) (Stage : Nat) (Chn : CAnimChan) (BoneData : List (CMeshBoneData V Q C)) :
    Option (List (CMeshBoneData V Q C)) :=
  if Stage > 0 ∧ (Chn.AnimIndex1 = ANIM_UNASSIGNED ∨ Chn.BlendAlpha ≤ 0) then some BoneData
  else
    match UpdateSkeleton.motions Anim Chn with
    | none => none
    | some (primary, secondary) =>
      -- compute bone range, affected by specified animation bone
      let firstBone := Chn.RootBone
      match TArray.get BoneData firstBone with
      | none => none
      | some root =>
        let lastBone := firstBone + root.SubtreeSize
        -- assert(lastBone < Mesh->RefSkeleton.Num())
        if lastBone < RefSkeleton.length then
          UpdateSkeleton.bones Lerp Slerp Conjugate RefSkeleton Stage Chn primary secondary
            garbage lastBone (lastBone + 1 - firstBone).toNat firstBone BoneData
        else none

/-- The first loop of `UpdateSkeleton` ("process all animation channels"): the stages
`0 .. MaxAnimChannel` in order, after `assert(MaxAnimChannel < MAX_SKELANIMCHANNELS)`. The
constant `MAX_SKELANIMCHANNELS` of the class declaration is an argument. -/
def UpdateSkeleton.poses {V Q C : Type} (Lerp : V → V → ℚ → V) (Slerp : Q → Q → ℚ → Q)
    (Conjugate : Q → Q) (RefSkeleton : List (FMeshBone V Q)) (Anim : Option (UMeshAnimation V Q))
    (garbage : V × Q) (MAX_SKELANIMCHANNELS : Int) (Channels : List CAnimChan)
    (MaxAnimChannel : Int) (BoneData : List (CMeshBoneData V Q C)) :
    Option (List (CMeshBoneData V Q C)) :=
  if MaxAnimChannel < MAX_SKELANIMCHANNELS then
    (List.range (MaxAnimChannel + 1).toNat).foldlM
      (fun BoneData Stage =>
        match Channels[Stage]? with
        | none => none
        | some Chn =>
          UpdateSkeleton.stage Lerp Slerp Conjugate RefSkeleton Anim garbage Stage Chn BoneData)
      BoneData
  else none

/-! ## The mesh instance and its lookups -/

/-- The state of a `CSkelMeshInstance` that the animation code uses: the skeleton and the
animation set of the mesh (`GetMesh()->RefSkeleton`, `GetMesh()->Animation`, `none` for a null
`Animation`), the array `BoneData`, the array `Channels` (its length is
`MAX_SKELANIMCHANNELS`) and `MaxAnimChannel`. -/
structure CSkelMeshInstance (V Q C : Type) where
  RefSkeleton : List (FMeshBone V Q)
  Animation : Option (UMeshAnimation V Q)
  BoneData : List (CMeshBoneData V Q C)
  Channels : List CAnimChan
  MaxAnimChannel : Int
deriving DecidableEq

/-- The loop of `FindBone`, `for (i = 0; i < RefSkeleton.Num(); i++) if (!strcmp(Name,
BoneName)) return i;` followed by `return INDEX_NONE;`, over the bones from index `i` on. -/
def FindBone.loop {V Q : Type} (BoneName : String) : List (FMeshBone V Q) → Int → Int
  | [], _ => INDEX_NONE
  | B :: rest, i => if B.Name = BoneName then i else FindBone.loop BoneName rest (i + 1)

/-- The function `CSkelMeshInstance::FindBone(BoneName)`. -/
def FindBone {V Q C : Type} (inst : CSkelMeshInstance V Q C) (BoneName : String) : Int :=
  FindBone.loop BoneName inst.RefSkeleton 0

/-- The loop of `FindAnim` over the sequences from index `i` on, followed by
`return INDEX_NONE;`. -/
def FindAnim.loop (AnimName : String) : List FMeshAnimSeq → Int → Int
  | [], _ => INDEX_NONE
  | S :: rest, i => if S.Name = AnimName then i else FindAnim.loop AnimName rest (i + 1)

/-- The function `CSkelMeshInstance::FindAnim(AnimName)`; `AnimName = none` is the null
pointer. -/
def FindAnim {V Q C : Type} (inst : CSkelMeshInstance V Q C) (AnimName : Option String) : Int :=
  match inst.Animation, AnimName with
  | some Anim, some AnimName => FindAnim.loop AnimName Anim.AnimSeqs 0
  | _, _ => INDEX_NONE

/-- The function `CSkelMeshInstance::SetBoneScale(BoneName, scale)`. -/
def SetBoneScale {V Q C : Type} (inst : CSkelMeshInstance V Q C) (BoneName : String)
    (scale : ℚ) : Option (CSkelMeshInstance V Q C) :=
  let BoneIndex := FindBone inst BoneName
  if BoneIndex = INDEX_NONE then some inst
  else
    match TArray.get inst.BoneData BoneIndex with
    | none => none
    | some data =>
      some { inst with BoneData := inst.BoneData.set BoneIndex.toNat { data with Scale := scale } }

/-! ## Animation setup -/

/-- Modelled from the spec: the accessor `GetStage(StageIndex)` of the class declaration,
which is not part of the sources here. A channel index outside the channel array is a
"bounds/configuration error" that is to be rejected by an assertion, "rather than silently
clamp": `assert(StageIndex >= 0 && StageIndex < MAX_SKELANIMCHANNELS); return
Channels[StageIndex];`. -/
def GetStage {V Q C : Type} (inst : CSkelMeshInstance V Q C) (StageIndex : Int) :
    Option CAnimChan :=
  TArray.get inst.Channels StageIndex

/-- Write-back of the channel reference `CAnimChan &Chn = GetStage(Channel)`. -/
def setStage {V Q C : Type} (inst : CSkelMeshInstance V Q C) (Channel : Int) (Chn : CAnimChan) :
    CSkelMeshInstance V Q C :=
  { inst with Channels := inst.Channels.set Channel.toNat Chn }

/-- The function `CSkelMeshInstance::PlayAnimInternal(AnimName, Rate, TweenTime, Channel,
Looped)`; `AnimName = none` is the null pointer. -/
def PlayAnimInternal {V Q C : Type} (inst : CSkelMeshInstance V Q C) (AnimName : Option String)
    (Rate TweenTime : ℚ) (Channel : Int) (Looped : Bool) : Option (CSkelMeshInstance V Q C) :=
  match GetStage inst Channel with
  | none => none
  | some Chn =>
    let inst : CSkelMeshInstance V Q C :=
      if Channel > inst.MaxAnimChannel then { inst with MaxAnimChannel := Channel } else inst
    let NewAnimIndex := FindAnim inst AnimName
    if NewAnimIndex = INDEX_NONE then
      -- show default pose
      some (setStage inst Channel
        { Chn with
          AnimIndex1 := INDEX_NONE
          AnimIndex2 := INDEX_NONE
          Time := 0
          Rate := 0
          Looped := false
          TweenTime := TweenTime
          SecondaryBlend := 0 })
    else
      let Chn : CAnimChan := { Chn with Rate := Rate, Looped := Looped }
      if NewAnimIndex = Chn.AnimIndex1 ∧ Looped = true then
        -- animation not changed, just set some flags (above)
        some (setStage inst Channel Chn)
      else
        some (setStage inst Channel
          { Chn with
            AnimIndex1 := NewAnimIndex
            AnimIndex2 := INDEX_NONE
            Time := 0
            SecondaryBlend := 0
            TweenTime := TweenTime })

/-- The function `CSkelMeshInstance::SetBlendParams(Channel, BlendAlpha, BoneName)`;
`BoneName = none` is the null pointer. -/
def SetBlendParams {V Q C : Type} (inst : CSkelMeshInstance V Q C) (Channel : Int)
    (BlendAlpha : ℚ) (BoneName : Option String) : Option (CSkelMeshInstance V Q C) :=
  match GetStage inst Channel with
  | none => none
  | some Chn =>
    let Chn : CAnimChan := { Chn with BlendAlpha := BlendAlpha }
    -- force full animation for 1st stage
    let Chn : CAnimChan := if Channel = 0 then { Chn with BlendAlpha := 1 } else Chn
    let Chn : CAnimChan := { Chn with RootBone := 0 }
    let Chn : CAnimChan :=
      match BoneName with
      | none => Chn
      | some BoneName =>
        let Chn : CAnimChan := { Chn with RootBone := FindBone inst BoneName }
        -- bone not found -- ignore animation
        if Chn.RootBone = INDEX_NONE then { Chn with BlendAlpha := 0 } else Chn
    some (setStage inst Channel Chn)

/-- The function `CSkelMeshInstance::SetBlendAlpha(Channel, BlendAlpha)`. -/
def SetBlendAlpha {V Q C : Type} (inst : CSkelMeshInstance V Q C) (Channel : Int)
    (BlendAlpha : ℚ) : Option (CSkelMeshInstance V Q C) :=
  match GetStage inst Channel with
  | none => none
  | some Chn => some (setStage inst Channel { Chn with BlendAlpha := BlendAlpha })

/-- The function `CSkelMeshInstance::SetSecondaryAnim(Channel, AnimName)`. -/
def SetSecondaryAnim {V Q C : Type} (inst : CSkelMeshInstance V Q C) (Channel : Int)
    (AnimName : Option String) : Option (CSkelMeshInstance V Q C) :=
  match GetStage inst Channel with
  | none => none
  | some Chn =>
    some (setStage inst Channel
      { Chn with AnimIndex2 := FindAnim inst AnimName, SecondaryBlend := 0 })

/-- The function `CSkelMeshInstance::SetSecondaryBlend(Channel, BlendAlpha)`. -/
def SetSecondaryBlend {V Q C : Type} (inst : CSkelMeshInstance V Q C) (Channel : Int)
    (BlendAlpha : ℚ) : Option (CSkelMeshInstance V Q C) :=
  match GetStage inst Channel with
  | none => none
  | some Chn => some (setStage inst Channel { Chn with SecondaryBlend := BlendAlpha })

/-- The function `CSkelMeshInstance::AnimStopLooping(Channel)`. -/
def AnimStopLooping {V Q C : Type} (inst : CSkelMeshInstance V Q C) (Channel : Int) :
    Option (CSkelMeshInstance V Q C) :=
  match GetStage inst Channel with
  | none => none
  | some Chn => some (setStage inst Channel { Chn with Looped := false })

/-- The function `CSkelMeshInstance::FreezeAnimAt(Time, Channel)`. -/
def FreezeAnimAt {V Q C : Type} (inst : CSkelMeshInstance V Q C) (Time : ℚ) (Channel : Int) :
    Option (CSkelMeshInstance V Q C) :=
  match GetStage inst Channel with
  | none => none
  | some Chn => some (setStage inst Channel { Chn with Time := Time, Rate := 0 })

/-- The channel after a sequence of evaluation passes: pass number `k` hands the elapsed time
`TimeDeltas[k]` to the channel's iteration of the stage loop of `UpdateAnimation`. -/
def UpdateAnimation.ticks (AnimSeqs : List FMeshAnimSeq) : List ℚ → CAnimChan → Option CAnimChan
  | [], Chn => some Chn
  | TimeDelta :: rest, Chn =>
    match UpdateAnimation.channel AnimSeqs TimeDelta Chn with
    | none => none
    | some (_, Chn) => UpdateAnimation.ticks AnimSeqs rest Chn

/-- The runtime data `d'` of a bone differ from `d` at most in the stored pose `Pos`,
`Quat`. -/
def SameButPose {V Q C : Type} (d d' : CMeshBoneData V Q C) : Prop :=
  d' = { d with Pos := d'.Pos, Quat := d'.Quat }

/-- Relation between the bone arrays `cur`, `cur'` reached by two runs that started from
`BoneData`, `BoneData'`: every bone holds the same data in both runs, or is still as it was
at the start of each run, the two starting values differing at most in the stored pose. -/
def PoseIndependent {V Q C : Type} (BoneData BoneData' cur cur' : List (CMeshBoneData V Q C)) :
    Prop :=
  cur.length = cur'.length ∧
    ∀ (i : Nat) (d d' : CMeshBoneData V Q C), cur[i]? = some d → cur'[i]? = some d' →
      d = d' ∨ (SameButPose d d' ∧ BoneData[i]? = some d ∧ BoneData'[i]? = some d')

/-! ## Channel blender: the stage loop of `UpdateAnimation` -/

/-- One iteration of the stage loop of `UpdateAnimation` for stage `Stage` with channel
`Chn`. The state carried from stage to stage is the local `TimeDelta` (the function's
argument, overwritten when a tween ends) and the array `BoneData`; the result is that state
and the updated channel. -/
def UpdateAnimation.stage {V Q C : Type} (AnimSeqs : List FMeshAnimSeq) (Stage : Nat)
    (TimeDelta : ℚ) (BoneData : List (CMeshBoneData V Q C)) (Chn : CAnimChan) :
    Option ((ℚ × List (CMeshBoneData V Q C)) × CAnimChan) :=
  if Stage > 0 ∧ Chn.AnimIndex1 = ANIM_UNASSIGNED then some ((TimeDelta, BoneData), Chn)
  else
    match UpdateAnimation.channel AnimSeqs TimeDelta Chn with
    | none => none
    | some (TimeDelta, Chn) =>
      -- assign bones to channel
      if Chn.BlendAlpha ≥ 1 ∧ Stage > 0 then
        -- whole subtree will be skipped in UpdateSkeleton(), so - mark root bone only
        match TArray.get BoneData Chn.RootBone with
        | none => none
        | some data =>
          some ((TimeDelta,
            BoneData.set Chn.RootBone.toNat { data with FirstChannel := Stage }), Chn)
      else some ((TimeDelta, BoneData), Chn)

/-- The stage loop of `UpdateAnimation`, `for (Stage = 0, Chn = Channels; Stage <=
MaxAnimChannel; Stage++, Chn++)`, from stage `Stage` on, the first argument being the number
of stages left. The state is `(TimeDelta, BoneData, Channels)`. -/
def UpdateAnimation.stages {V Q C : Type} (AnimSeqs : List FMeshAnimSeq) :
    Nat → Nat → ℚ → List (CMeshBoneData V Q C) → List CAnimChan →
      Option (ℚ × List (CMeshBoneData V Q C) × List CAnimChan)
  | 0, _, TimeDelta, BoneData, Channels => some (TimeDelta, BoneData, Channels)
  | n + 1, Stage, TimeDelta, BoneData, Channels =>
    match Channels[Stage]? with
    | none => none
    | some Chn =>
      match UpdateAnimation.stage AnimSeqs Stage TimeDelta BoneData Chn with
      | none => none
      | some ((TimeDelta, BoneData), Chn) =>
        UpdateAnimation.stages AnimSeqs n (Stage + 1) TimeDelta BoneData
          (Channels.set Stage Chn)

/-- The function `CSkelMeshInstance::UpdateAnimation(TimeDelta)` up to its last statement,
the call of `UpdateSkeleton()`: the bone-to-channel map is reset, then the stage loop runs
over the stages `0 .. MaxAnimChannel`. -/
def UpdateAnimation.advance {V Q C : Type} (inst : CSkelMeshInstance V Q C) (TimeDelta : ℚ) :
    Option (CSkelMeshInstance V Q C) :=
  -- just in case
  if inst.RefSkeleton.length = 0 then some inst
  else
    -- prepare bone-to-channel map
    if inst.BoneData.length < inst.RefSkeleton.length then none
    else
      let BoneData : List (CMeshBoneData V Q C) :=
        (inst.BoneData.take inst.RefSkeleton.length).map
            (fun data => { data with FirstChannel := 0 })
          ++ inst.BoneData.drop inst.RefSkeleton.length
      -- assert(MaxAnimChannel < MAX_SKELANIMCHANNELS)
      if inst.MaxAnimChannel < inst.Channels.length then
        let AnimSeqs : List FMeshAnimSeq :=
          match inst.Animation with
          | none => []
          | some Anim => Anim.AnimSeqs
        match UpdateAnimation.stages AnimSeqs (inst.MaxAnimChannel + 1).toNat 0 TimeDelta
            BoneData inst.Channels with
        | none => none
        | some (_, BoneData, Channels) =>
          some { inst with BoneData := BoneData, Channels := Channels }
      else none

/-- The pose evaluation of `UpdateSkeleton()` (its first loop) on the instance; the second
loop, the composition of the poses along the hierarchy, writes `Coords` and `Transform`
only. -/
def UpdateSkeleton.evaluate {V Q C : Type} (Lerp : V → V → ℚ → V) (Slerp : Q → Q → ℚ → Q)
    (Conjugate : Q → Q) (garbage : V × Q) (inst : CSkelMeshInstance V Q C) :
    Option (CSkelMeshInstance V Q C) :=
  match UpdateSkeleton.poses Lerp Slerp Conjugate inst.RefSkeleton inst.Animation garbage
      inst.Channels.length inst.Channels inst.MaxAnimChannel inst.BoneData with
  | none => none
  | some BoneData => some { inst with BoneData := BoneData }

/-! ## Concrete inputs -/

/-- A one-bone mesh with one 100-frame sequence and two channels playing it at rate 1, on
which `UpdateAnimation` is evaluated: channel 0 with the remaining tween time `tween`,
channel 1 without tween. -/
def twoChannelInstance (tween : ℚ) : CSkelMeshInstance ℚ ℚ Unit :=
  { RefSkeleton := [⟨"root", 0, 4, 6⟩]
    Animation := some ⟨["root"], [], [⟨"run", 100, 1⟩]⟩
    BoneData := [⟨INDEX_NONE, (), (), 0, 1, 0, (), (), 0, 0⟩]
    Channels := [⟨0, INDEX_NONE, 0, 0, 1, 0, 1, tween, 0, true⟩,
      ⟨0, INDEX_NONE, 0, 0, 1 / 2, 0, 1, 0, 0, true⟩]
    MaxAnimChannel := 1 }

/-- A one-bone mesh with a 10-frame and a 20-frame sequence, whose base channel plays the
first at frame 5 and rate 1, blended half-way with the second. -/
def blendedInstance : CSkelMeshInstance ℚ ℚ Unit :=
  { RefSkeleton := [⟨"root", 0, 4, 6⟩]
    Animation := some ⟨["root"], [], [⟨"walk", 10, 1⟩, ⟨"run", 20, 1⟩]⟩
    BoneData := [⟨INDEX_NONE, (), (), 0, 1, 0, (), (), 0, 0⟩]
    Channels := [⟨0, 1, 5, 1 / 2, 1, 0, 1, 0, 0, true⟩]
    MaxAnimChannel := 0 }

/-- A one-bone mesh without animation set, its base channel in the default pose. -/
def defaultPoseInstance : CSkelMeshInstance ℚ ℚ Unit :=
  { RefSkeleton := [⟨"root", 0, 4, 6⟩]
    Animation := none
    BoneData := [⟨INDEX_NONE, (), (), 0, 1, 0, (), (), 0, 0⟩]
    Channels := [⟨INDEX_NONE, INDEX_NONE, 0, 0, 1, 0, 0, 0, 0, false⟩]
    MaxAnimChannel := 0 }

/-- A chain of three bones `root`, `spine`, `head` with a 1-frame sequence that gives bone
`k` the pose `(100 + k, 200 + k)`. All three channels play the sequence: channel 0 on the
whole skeleton, channel 1 with blend weight 1/2 on the subtree of `head` (bone 2), channel 2
with blend weight 1 on the subtree of `spine` (bone 1). -/
def nestedRootsInstance : CSkelMeshInstance ℚ ℚ Unit :=
  { RefSkeleton := [⟨"root", 0, 4, 6⟩, ⟨"spine", 0, 14, 16⟩, ⟨"head", 1, 24, 26⟩]
    Animation := some ⟨["root", "spine", "head"],
      [⟨[⟨[200], [100], [0], [], []⟩, ⟨[201], [101], [0], [], []⟩,
        ⟨[202], [102], [0], [], []⟩], []⟩],
      [⟨"run", 1, 1⟩]⟩
    BoneData := [⟨0, (), (), 2, 1, 0, (), (), 0, 0⟩, ⟨1, (), (), 1, 1, 0, (), (), 0, 0⟩,
      ⟨2, (), (), 0, 1, 0, (), (), 0, 0⟩]
    Channels := [⟨0, INDEX_NONE, 0, 0, 1, 0, 1, 0, 0, true⟩,
      ⟨0, INDEX_NONE, 0, 0, 1 / 2, 2, 1, 0, 0, true⟩,
      ⟨0, INDEX_NONE, 0, 0, 1, 1, 1, 0, 0, true⟩]
    MaxAnimChannel := 2 }

/-- The explicit timestamps of `N` evenly spaced keys on a sequence of `NumFrames` frames:
`KeyTime[k] = k * NumFrames / N` for `k = 0 .. N - 1`. -/
def uniformKeyTime (N : Nat) (NumFrames : ℚ) : List ℚ :=
  (List.range N).map (fun (k : Nat) => (k : ℚ) * NumFrames / N)

/-- The number of bones that `CheckBoneTree` started at `Index` visits: bone `Index` and, for
every later bone `i` whose parent is `Index`, the bones visited from `i`. The first argument
bounds the depth of the recursion. -/
def CheckBoneTree.visits {V Q : Type} (Bones : List (FMeshBone V Q)) : Nat → Nat → Nat
  | 0, _ => 1
  | fuel + 1, Index =>
    1 + ((List.range' (Index + 1) (Bones.length - (Index + 1))).map (fun i =>
      match Bones[i]? with
      | some B => if B.ParentIndex = Index then CheckBoneTree.visits Bones fuel i else 0
      | none => 0)).sum

/-- Relation between the `Sizes` array before (`S`) and after (`S'`) a run that fills the
elements `lo ≤ k < hi` with sizes `s ≥ 0` such that `k + s < hi`, and writes nowhere else. -/
def SizesBounded (lo hi : Nat) (S S' : List Int) : Prop :=
  S'.length = S.length
    ∧ (∀ k, lo ≤ k → k < hi → ∃ s : Nat, S'[k]? = some (s : Int) ∧ k + s < hi)
    ∧ (∀ k, (k < lo ∨ hi ≤ k) → S'[k]? = S[k]?)

/-- A skeleton of two bones whose second bone names itself as parent: every bone has
`ParentIndex[i] ≤ i`. -/
def selfParentSkeleton : List (FMeshBone Unit Unit) :=
  [⟨"root", 0, (), ()⟩, ⟨"tail", 1, (), ()⟩]

/-- A skeleton stored parent-first but not depth-first: the root has the children `a` (bone
1) and `b` (bone 2), and bone 3 is a child of `a`. -/
def interleavedSkeleton : List (FMeshBone Unit Unit) :=
  [⟨"root", 0, (), ()⟩, ⟨"a", 0, (), ()⟩, ⟨"b", 0, (), ()⟩, ⟨"c", 1, (), ()⟩]

/-! ## Coordinate frames: reference frames of `SetMesh`, composition pass of `UpdateSkeleton` -/

/-- Modelled from the spec: the structure `CCoords` of the math library, which is not part of
the sources here, a "coordinate frame": the fields `origin` and `axis` (the three vectors
`axis[0]`, `axis[1]`, `axis[2]`) that the code reads and writes. -/
structure CCoords (V : Type) where
  origin : V
  axis : V × V × V
deriving DecidableEq

/-- The routines of the math library that the coordinate computations call. They are not
part of the sources here and are parameters of the embedding; a routine with an output
argument is the function that gives the output: `Conjugate q` for `q.Conjugate()`,
`ToAxis q` for `q.ToAxis(axis)`, `UnTransformCoords A src` for
`A.UnTransformCoords(src, dst)`, `TransformCoordsSlow A src` for
`A.TransformCoordsSlow(src, dst)`, `InvertCoords src` for `InvertCoords(src, dst)` and
`Scale v s` for `v.Scale(s)`. -/
structure CoordsMath (V Q : Type) where
  Conjugate : Q → Q
  ToAxis : Q → V × V × V
  UnTransformCoords : CCoords V → CCoords V → CCoords V
  TransformCoordsSlow : CCoords V → CCoords V → CCoords V
  InvertCoords : CCoords V → CCoords V
  Scale : V → ℚ → V

/-- The search of `SetMesh` for the reference bone of the animation with the name of the
bone, `for (j = 0; j < Anim->RefBones.Num(); j++) if (!stricmp(B.Name, Anim->RefBones[j].Name))
{ data->BoneMap = j; break; }`, starting from `BoneMap = INDEX_NONE`. The comparison
`stricmp` ignores the case of the letters. -/
def SetMesh.findRefBone (Name : String) : List String → Int → Int
  | [], _ => INDEX_NONE
  | r :: rest, j =>
    if Name.toLower = r.toLower then j else SetMesh.findRefBone Name rest (j + 1)

/-- The reference frame that `SetMesh` computes for bone `i` with the reference pose of `B`,
given the reference frame of its parent (not used for the root):
`BC.origin = BP; BO.ToAxis(BC.axis)` with the root orientation conjugated, and
`BoneData[B.ParentIndex].RefCoords.UnTransformCoords(BC, BC)` for every bone but the root. -/
def SetMesh.refCoords {V Q : Type} (M : CoordsMath V Q) (i : Nat) (B : FMeshBone V Q)
    (parentRefCoords : CCoords V) : CCoords V :=
  let BO := if i = 0 then M.Conjugate B.Orientation else B.Orientation
  let BC : CCoords V := ⟨B.Position, M.ToAxis BO⟩
  -- move bone position to global coordinate space; do not rotate root bone
  if i ≠ 0 then M.UnTransformCoords parentRefCoords BC else BC

/-- The body of the first loop of `SetMesh`, `for (i = 0, data = BoneData; i < NumBones; ...)`,
for bone `i`: `assert(B.ParentIndex <= i)`, the bone map, the reference frame with its
inverse, and the default scale. The parent's frame is read from the array after
`data->RefCoords` has received `BC`. -/
def SetMesh.boneLoopBody {V Q : Type} (M : CoordsMath V Q) (RefSkeleton : List (FMeshBone V Q))
    (Anim : Option (UMeshAnimation V Q)) (BoneData : List (CMeshBoneData V Q (CCoords V)))
    (i : Nat) : Option (List (CMeshBoneData V Q (CCoords V))) :=
  match RefSkeleton[i]?, BoneData[i]? with
  | some B, some data =>
    -- NOTE: assumed, that parent bones goes first
    if B.ParentIndex ≤ i then
      -- find reference bone in animation track
      let BoneMap : Int :=
        match Anim with
        | none => INDEX_NONE
        | some Anim => SetMesh.findRefBone B.Name Anim.RefBones 0
      let BO := if i = 0 then M.Conjugate B.Orientation else B.Orientation
      let BC : CCoords V := ⟨B.Position, M.ToAxis BO⟩
      let BoneData := BoneData.set i { data with BoneMap := BoneMap, RefCoords := BC }
      -- move bone position to global coordinate space; do not rotate root bone
      let moved : Option (CCoords V) :=
        if i = 0 then some (SetMesh.refCoords M i B BC)
        else
          match BoneData[B.ParentIndex]? with
          | none => none
          | some parent => some (SetMesh.refCoords M i B parent.RefCoords)
      match moved with
      | none => none
      | some BC =>
        -- store inverted transformation too; initialize skeleton configuration
        some (BoneData.set i { data with
          BoneMap := BoneMap, RefCoords := BC, RefCoordsInv := M.InvertCoords BC, Scale := 1 })
    else none
  | _, _ => none

/-- The first loop of `SetMesh` over the bones; `BoneData` is the freshly allocated array
`new CMeshBoneData[NumBones]` with its starting content. -/
def SetMesh.boneLoop {V Q : Type} (M : CoordsMath V Q) (RefSkeleton : List (FMeshBone V Q))
    (Anim : Option (UMeshAnimation V Q)) (BoneData : List (CMeshBoneData V Q (CCoords V))) :
    Option (List (CMeshBoneData V Q (CCoords V))) :=
  (List.range RefSkeleton.length).foldlM (SetMesh.boneLoopBody M RefSkeleton Anim) BoneData

/-- The model-space frame that the composition pass of `UpdateSkeleton` computes for bone `i`
with runtime data `data`, given the frame of its parent (not used for the root): the local
frame
`BC.origin = data->Pos; data->Quat.ToAxis(BC.axis)`, moved by
`BaseTransformScaled.TransformCoordsSlow(BC, BC)` for the root and by the parent's
`Coords.UnTransformCoords(BC, BC)` otherwise, then the three axes scaled when
`data->Scale != 1.0f`. -/
def UpdateSkeleton.boneCoords {V Q : Type} (M : CoordsMath V Q) (BaseTransformScaled : CCoords V)
    (i : Nat) (data : CMeshBoneData V Q (CCoords V)) (parentCoords : CCoords V) : CCoords V :=
  let BC : CCoords V := ⟨data.Pos, M.ToAxis data.Quat⟩
  -- move bone position to global coordinate space
  let BC := if i = 0 then M.TransformCoordsSlow BaseTransformScaled BC
    else M.UnTransformCoords parentCoords BC
  -- deform skeleton according to external settings
  if data.Scale ≠ 1 then
    ⟨BC.origin, (M.Scale BC.axis.1 data.Scale, M.Scale BC.axis.2.1 data.Scale,
      M.Scale BC.axis.2.2 data.Scale)⟩
  else BC

/-- The body of the second loop of `UpdateSkeleton` ("transform bones using skeleton
hierarchy") for bone `i`: `Coords` and then
`BC.UnTransformCoords(data->RefCoordsInv, data->Transform)`. The parent's frame is read from
the array after `data->Coords` has received the local frame. -/
def UpdateSkeleton.composeBone {V Q : Type} (M : CoordsMath V Q)
    (RefSkeleton : List (FMeshBone V Q)) (BaseTransformScaled : CCoords V)
    (BoneData : List (CMeshBoneData V Q (CCoords V))) (i : Nat) :
    Option (List (CMeshBoneData V Q (CCoords V))) :=
  match RefSkeleton[i]?, BoneData[i]? with
  | some B, some data =>
    let BC : CCoords V := ⟨data.Pos, M.ToAxis data.Quat⟩
    let BoneData := BoneData.set i { data with Coords := BC }
    -- root bone - use BaseTransform; other bones - rotate around parent bone
    let moved : Option (CCoords V) :=
      if i = 0 then some (UpdateSkeleton.boneCoords M BaseTransformScaled i data BC)
      else
        match BoneData[B.ParentIndex]? with
        | none => none
        | some parent =>
          some (UpdateSkeleton.boneCoords M BaseTransformScaled i data parent.Coords)
    match moved with
    | none => none
    | some BC =>
      -- compute transformation of world-space model vertices from reference pose to
      -- desired pose
      some (BoneData.set i { data with
        Coords := BC, Transform := M.UnTransformCoords BC data.RefCoordsInv })
  | _, _ => none

/-- The second loop of `UpdateSkeleton` over the bones (hierarchy composition pass). -/
def UpdateSkeleton.compose {V Q : Type} (M : CoordsMath V Q)
    (RefSkeleton : List (FMeshBone V Q)) (BaseTransformScaled : CCoords V)
    (BoneData : List (CMeshBoneData V Q (CCoords V))) :
    Option (List (CMeshBoneData V Q (CCoords V))) :=
  (List.range RefSkeleton.length).foldlM
    (UpdateSkeleton.composeBone M RefSkeleton BaseTransformScaled) BoneData

/-- Modelled from the spec: what the specification states of the coordinate routines of the
math library, which are not part of the sources here, when the base transform is the
identity. `identity` is the identity frame; `base`: the root frame is left as it is ("for the
root, apply an externally supplied base transform"); `inverse`: for each reference frame `X`
of the skeleton, `InvertCoords` gives "the matrix/frame inverse", whose composition with `X`
by `UnTransformCoords` is the identity; `point`: `UnTransformPoint` by the identity frame
returns the vertex. -/
structure IdentityLaws {V Q : Type} (M : CoordsMath V Q)
    (BaseTransformScaled identity : CCoords V) (UnTransformPoint : CCoords V → V → V)
    (refFrames : List (CCoords V)) : Prop where
  base : ∀ X, M.TransformCoordsSlow BaseTransformScaled X = X
  inverse : ∀ X ∈ refFrames, M.UnTransformCoords X (M.InvertCoords X) = identity
  point : ∀ v, UnTransformPoint identity v = v

/-- Coordinate routines on one-dimensional frames over `ℚ`, on which the theorems about
frames are instantiated: the frame `(o, (a, _, _))` is the map `x ↦ o + a * x`, an
orientation `q` has the axes `(q, q, q)`, `UnTransformCoords` composes two frames and
`InvertCoords` inverts a frame with non-zero axes. -/
def affineMath : CoordsMath ℚ ℚ where
  Conjugate := fun q => -q
  ToAxis := fun q => (q, q, q)
  UnTransformCoords := fun A X =>
    ⟨A.origin + A.axis.1 * X.origin,
      (A.axis.1 * X.axis.1, A.axis.2.1 * X.axis.2.1, A.axis.2.2 * X.axis.2.2)⟩
  TransformCoordsSlow := fun A X =>
    ⟨(X.origin - A.origin) / A.axis.1,
      (X.axis.1 / A.axis.1, X.axis.2.1 / A.axis.2.1, X.axis.2.2 / A.axis.2.2)⟩
  InvertCoords := fun X =>
    ⟨-X.origin / X.axis.1, (1 / X.axis.1, 1 / X.axis.2.1, 1 / X.axis.2.2)⟩
  Scale := fun v s => v * s

/-- The identity frame of the one-dimensional frames. -/
def affineIdentity : CCoords ℚ := ⟨0, (1, 1, 1)⟩

/-- The image of a point under a one-dimensional frame. -/
def affineUnTransformPoint (T : CCoords ℚ) (v : ℚ) : ℚ := T.origin + T.axis.1 * v

/-- A skeleton of three bones with poses in `ℚ`: the root and its two children. -/
def branchSkeleton : List (FMeshBone ℚ ℚ) :=
  [⟨"root", 0, 1, 2⟩, ⟨"a", 0, 3, 1 / 2⟩, ⟨"c", 0, -1, -1⟩]

/-- A freshly allocated bone array for `branchSkeleton`, with arbitrary content. -/
def branchBoneData0 : List (CMeshBoneData ℚ ℚ (CCoords ℚ)) :=
  List.replicate 3 ⟨7, ⟨7, (7, 7, 7)⟩, ⟨7, (7, 7, 7)⟩, 7, 7, 7, ⟨7, (7, 7, 7)⟩,
    ⟨7, (7, 7, 7)⟩, 7, 7⟩

/-- The bone array of `branchSkeleton` after the bone loop of `SetMesh` on `branchBoneData0`
with `affineMath`. -/
def branchBoneData1 : List (CMeshBoneData ℚ ℚ (CCoords ℚ)) :=
  [⟨-1, ⟨1, (-2, -2, -2)⟩, ⟨1 / 2, (-1 / 2, -1 / 2, -1 / 2)⟩, 7, 1, 7, ⟨7, (7, 7, 7)⟩,
      ⟨7, (7, 7, 7)⟩, 7, 7⟩,
    ⟨-1, ⟨-5, (-1, -1, -1)⟩, ⟨-5, (-1, -1, -1)⟩, 7, 1, 7, ⟨7, (7, 7, 7)⟩,
      ⟨7, (7, 7, 7)⟩, 7, 7⟩,
    ⟨-1, ⟨3, (2, 2, 2)⟩, ⟨-3 / 2, (1 / 2, 1 / 2, 1 / 2)⟩, 7, 1, 7, ⟨7, (7, 7, 7)⟩,
      ⟨7, (7, 7, 7)⟩, 7, 7⟩]

/-- The bone array of `branchSkeleton` at run time with every bone in its reference pose
(root orientation conjugated). -/
def branchBoneData : List (CMeshBoneData ℚ ℚ (CCoords ℚ)) :=
  [⟨-1, ⟨1, (-2, -2, -2)⟩, ⟨1 / 2, (-1 / 2, -1 / 2, -1 / 2)⟩, 2, 1, 0, ⟨7, (7, 7, 7)⟩,
      ⟨7, (7, 7, 7)⟩, 1, -2⟩,
    ⟨-1, ⟨-5, (-1, -1, -1)⟩, ⟨-5, (-1, -1, -1)⟩, 0, 1, 0, ⟨7, (7, 7, 7)⟩,
      ⟨7, (7, 7, 7)⟩, 3, 1 / 2⟩,
    ⟨-1, ⟨3, (2, 2, 2)⟩, ⟨-3 / 2, (1 / 2, 1 / 2, 1 / 2)⟩, 0, 1, 0, ⟨7, (7, 7, 7)⟩,
      ⟨7, (7, 7, 7)⟩, -1, -1⟩]

/-- The array `branchBoneData` with another pose and another scale in bone 1. -/
def branchBoneDataMoved : List (CMeshBoneData ℚ ℚ (CCoords ℚ)) :=
  [⟨-1, ⟨1, (-2, -2, -2)⟩, ⟨1 / 2, (-1 / 2, -1 / 2, -1 / 2)⟩, 2, 1, 0, ⟨7, (7, 7, 7)⟩,
      ⟨7, (7, 7, 7)⟩, 1, -2⟩,
    ⟨-1, ⟨-5, (-1, -1, -1)⟩, ⟨-5, (-1, -1, -1)⟩, 0, 2, 0, ⟨7, (7, 7, 7)⟩,
      ⟨7, (7, 7, 7)⟩, 10, 3⟩,
    ⟨-1, ⟨3, (2, 2, 2)⟩, ⟨-3 / 2, (1 / 2, 1 / 2, 1 / 2)⟩, 0, 1, 0, ⟨7, (7, 7, 7)⟩,
      ⟨7, (7, 7, 7)⟩, -1, -1⟩]

/-! ## The sampler and the time advance with the rounding explicit

The definitions of this section repeat `GetKeyParams`, `GetBonePosition` and
`UpdateAnimation` with `fl` applied to the exact result of every `float` operation; with
`fl = id` they are the definitions above. The `int` operands (`NumKeys`, `X`, `numSkip`,
`NumFrames`) are converted to `float` without rounding, as they are below `2^24` in every
use. -/

/-- The block of `GetBonePosition` for evenly spaced keys,
`Position = Frame / NumFrames * NumKeys; X = appFloor(Position); F = Position - X;
Y = X + 1;` with wrap or clamp of `Y`, the quotient, the product and the difference rounded
by `fl`. -/
def GetBonePosition.evenKeysRounded (fl : ℚ → ℚ) (Frame NumFrames : ℚ) (Loop : Bool)
    (NumKeys : Int) : Int × Int × ℚ :=
  if NumKeys > 1 then
    let Position : ℚ := fl (fl (Frame / NumFrames) * NumKeys)
    let X : Int := Int.floor Position
    let F : ℚ := fl (Position - X)
    let Y := X + 1
    if Y ≥ NumKeys then
      if !Loop then (X, NumKeys - 1, 0) else (X, 0, F)
    else (X, Y, F)
  else (0, 0, 0)

/-- The function `GetKeyParams(KeyTime, Frame, NumFrames, Loop, X, Y, F)` with the two
differences and the quotient of `F` rounded by `fl`. -/
def GetKeyParamsRounded (fl : ℚ → ℚ) (KeyTime : List ℚ) (Frame NumFrames : ℚ) (Loop : Bool) :
    Option (Int × Int × ℚ) :=
  match FindTimeKey KeyTime Frame with
  | none => none
  | some X =>
    let Y := X + 1
    let NumTimeKeys : Int := KeyTime.length
    if Y ≥ NumTimeKeys then
      if !Loop then
        -- clamp animation
        let Y := NumTimeKeys - 1
        if X = Y then some (X, Y, 0) else none
      else
        -- loop animation
        match TArray.get KeyTime X with
        | none => none
        | some tX => some (X, 0, fl (fl (Frame - tX) / fl (NumFrames - tX)))
    else
      match TArray.get KeyTime X, TArray.get KeyTime Y with
      | some tX, some tY => some (X, Y, fl (fl (Frame - tX) / fl (tY - tX)))
      | _, _ => none

/-- The function `GetBonePosition(A, Frame, NumFrames, Loop, DstPos, DstQuat)` with the
brackets computed by `GetKeyParamsRounded` and `GetBonePosition.evenKeysRounded`; the
interpolation routines `Lerp` and `Slerp` are parameters and round as they please. -/
def GetBonePositionRounded {V Q : Type} (fl : ℚ → ℚ) (Lerp : V → V → ℚ → V)
    (Slerp : Q → Q → ℚ → Q) (A : AnalogTrack V Q) (Frame NumFrames : ℚ) (Loop : Bool) :
    Option (V × Q) :=
  -- fast case: 1 frame only
  if A.KeyTime.length = 1 ∨ NumFrames = 1 ∨ Frame = 0 then
    match TArray.get A.KeyPos 0, TArray.get A.KeyQuat 0 with
    | some p, some q => some (p, q)
    | _, _ => none
  else
    let NumTimeKeys : Int := A.KeyTime.length
    let NumPosKeys : Int := A.KeyPos.length
    let NumRotKeys : Int := A.KeyQuat.length
    let params : Option ((Int × Int × ℚ) × (Int × Int × ℚ)) :=
      if NumTimeKeys ≠ 0 then
        -- here: KeyPos and KeyQuat sizes either equals to 1 or equals to KeyTime size
        if ¬ (NumPosKeys = 1 ∨ NumPosKeys = NumTimeKeys) then none
        else if ¬ (NumRotKeys = 1 ∨ NumRotKeys = NumTimeKeys) then none
        else
          match GetKeyParamsRounded fl A.KeyTime Frame NumFrames Loop with
          | none => none
          | some pos =>
            some (if NumPosKeys = 1 then (0, 0, 0) else pos,
                  if NumRotKeys = 1 then (0, 0, 0) else pos)
      else
        -- empty KeyTime array - keys are evenly spaced on a time line
        let pos : Option (Int × Int × ℚ) :=
          if A.KeyPosTime.length ≠ 0 then
            GetKeyParamsRounded fl A.KeyPosTime Frame NumFrames Loop
          else some (GetBonePosition.evenKeysRounded fl Frame NumFrames Loop NumPosKeys)
        let rot : Option (Int × Int × ℚ) :=
          if A.KeyQuatTime.length ≠ 0 then
            GetKeyParamsRounded fl A.KeyQuatTime Frame NumFrames Loop
          else some (GetBonePosition.evenKeysRounded fl Frame NumFrames Loop NumRotKeys)
        match pos, rot with
        | some pos, some rot => some (pos, rot)
        | _, _ => none
    match params with
    | none => none
    | some ((posX, posY, posF), (rotX, rotY, rotF)) =>
      -- get position
      let DstPos : Option V :=
        if posF > 0 then
          match TArray.get A.KeyPos posX, TArray.get A.KeyPos posY with
          | some a, some b => some (Lerp a b posF)
          | _, _ => none
        else TArray.get A.KeyPos posX
      -- get orientation
      let DstQuat : Option Q :=
        if rotF > 0 then
          match TArray.get A.KeyQuat rotX, TArray.get A.KeyQuat rotY with
          | some a, some b => some (Slerp a b rotF)
          | _, _ => none
        else TArray.get A.KeyQuat rotX
      match DstPos, DstQuat with
      | some p, some q => some (p, q)
      | _, _ => none

/-- None of the `float` operations that sample `N` evenly spaced keys at `Frame` rounds,
neither without timestamps (the quotient `Frame / NumFrames`, its product by `N`, the
fraction) nor with the timestamps `k * NumFrames / N` (the difference from the key found, the
distance `NumFrames / N` to the next key or to the end of the sequence, their quotient). -/
def uniformSamplingExact (fl : ℚ → ℚ) (Frame NumFrames : ℚ) (N : Nat) : Prop :=
  fl (Frame / NumFrames) = Frame / NumFrames
    ∧ fl (Frame / NumFrames * N) = Frame / NumFrames * N
    ∧ fl (Frame / NumFrames * N - Int.floor (Frame / NumFrames * N))
      = Frame / NumFrames * N - Int.floor (Frame / NumFrames * N)
    ∧ fl (Frame - Int.floor (Frame / NumFrames * N) * NumFrames / N)
      = Frame - Int.floor (Frame / NumFrames * N) * NumFrames / N
    ∧ fl (NumFrames / N) = NumFrames / N
    ∧ fl ((Frame - Int.floor (Frame / NumFrames * N) * NumFrames / N) / (NumFrames / N))
      = (Frame - Int.floor (Frame / NumFrames * N) * NumFrames / N) / (NumFrames / N)

/-- The block "update tweening" of `UpdateAnimation` for one channel, the quotient
`TimeDelta / Chn->TweenTime` and the difference `Chn->TweenTime - TimeDelta` rounded by
`fl`. -/
def UpdateAnimation.tweenRounded (fl : ℚ → ℚ) (TimeDelta : ℚ) (Chn : CAnimChan) :
    Option (ℚ × CAnimChan) :=
  if Chn.TweenTime ≠ 0 then
    let Chn := { Chn with TweenStep := fl (TimeDelta / Chn.TweenTime) }
    let Chn := { Chn with TweenTime := fl (Chn.TweenTime - TimeDelta) }
    let r : ℚ × CAnimChan :=
      if Chn.TweenTime < 0 then
        -- stop tweening, start animation
        (-Chn.TweenTime, { Chn with TweenTime := 0 })
      else (TimeDelta, Chn)
    if r.2.Time = 0 then some r else none
  else some (TimeDelta, Chn)

/-- The playback rate `Rate1` computed by `UpdateAnimation`, the product
`Chn->Rate * Seq1->Rate` rounded by `fl`; for a blended channel the two quotients, the value
of `Lerp` and the product by `Seq1->NumFrames` are rounded. -/
def UpdateAnimation.Rate1Rounded (fl : ℚ → ℚ) (AnimSeqs : List FMeshAnimSeq) (Chn : CAnimChan)
    (Seq1 : FMeshAnimSeq) : Option ℚ :=
  if Chn.AnimIndex2 ≥ 0 ∧ Chn.SecondaryBlend ≠ 0 then
    match TArray.get AnimSeqs Chn.AnimIndex2 with
    | none => none
    | some Seq2 =>
      -- if blending 2 channels, should adjust animation rate
      some (fl (fl (Lerp (fl (Seq1.Rate / Seq1.NumFrames)) (fl (Seq2.Rate / Seq2.NumFrames))
        Chn.SecondaryBlend) * Seq1.NumFrames))
  else some (fl (Chn.Rate * Seq1.Rate))

/-- The block "update animation time" of `UpdateAnimation` for one channel:
`Chn->Time += TimeDelta * Rate1;` and the wrap (`numSkip = appFloor(Chn->Time /
Seq1->NumFrames); Chn->Time -= numSkip * Seq1->NumFrames;`) or the clamp, the product, the
sum, the quotient and the difference rounded by `fl`. -/
def UpdateAnimation.timeRounded (fl : ℚ → ℚ) (AnimSeqs : List FMeshAnimSeq) (TimeDelta : ℚ)
    (Chn : CAnimChan) : Option CAnimChan :=
  if Chn.TweenTime = 0 ∧ Chn.AnimIndex1 ≥ 0 then
    match TArray.get AnimSeqs Chn.AnimIndex1 with
    | none => none
    | some Seq1 =>
      match UpdateAnimation.Rate1Rounded fl AnimSeqs Chn Seq1 with
      | none => none
      | some Rate1 =>
        let Time := fl (Chn.Time + fl (TimeDelta * Rate1))
        if Chn.Looped then
          if Time ≥ Seq1.NumFrames then
            -- wrap time
            match toInt32 (Int.floor (fl (Time / Seq1.NumFrames))) with
            | none => none
            | some numSkip =>
              if -2147483648 ≤ numSkip * Seq1.NumFrames ∧ numSkip * Seq1.NumFrames < 2147483648
              then some { Chn with Time := fl (Time - numSkip * Seq1.NumFrames) }
              else none
          else some { Chn with Time := Time }
        else
          if Time ≥ Seq1.NumFrames - 1 then
            -- clamp time
            let Time := Seq1.NumFrames - 1
            some { Chn with Time := if Time < 0 then 0 else Time }
          else some { Chn with Time := Time }
  else some Chn

/-- The update of one channel in the channel loop of `UpdateAnimation` (tweening, then
animation time) with the rounding `fl`. -/
def UpdateAnimation.channelRounded (fl : ℚ → ℚ) (AnimSeqs : List FMeshAnimSeq) (TimeDelta : ℚ)
    (Chn : CAnimChan) : Option (ℚ × CAnimChan) :=
  match UpdateAnimation.tweenRounded fl TimeDelta Chn with
  | none => none
  | some (TimeDelta, Chn) =>
    match UpdateAnimation.timeRounded fl AnimSeqs TimeDelta Chn with
    | none => none
    | some Chn => some (TimeDelta, Chn)

/-- One iteration of the stage loop of `UpdateAnimation` with the rounding `fl`. -/
def UpdateAnimation.stageRounded {V Q C : Type} (fl : ℚ → ℚ) (AnimSeqs : List FMeshAnimSeq)
    (Stage : Nat) (TimeDelta : ℚ) (BoneData : List (CMeshBoneData V Q C)) (Chn : CAnimChan) :
    Option ((ℚ × List (CMeshBoneData V Q C)) × CAnimChan) :=
  if Stage > 0 ∧ Chn.AnimIndex1 = ANIM_UNASSIGNED then some ((TimeDelta, BoneData), Chn)
  else
    match UpdateAnimation.channelRounded fl AnimSeqs TimeDelta Chn with
    | none => none
    | some (TimeDelta, Chn) =>
      -- assign bones to channel
      if Chn.BlendAlpha ≥ 1 ∧ Stage > 0 then
        -- whole subtree will be skipped in UpdateSkeleton(), so - mark root bone only
        match TArray.get BoneData Chn.RootBone with
        | none => none
        | some data =>
          some ((TimeDelta,
            BoneData.set Chn.RootBone.toNat { data with FirstChannel := Stage }), Chn)
      else some ((TimeDelta, BoneData), Chn)

/-- The stage loop of `UpdateAnimation` with the rounding `fl`, from stage `Stage` on, the
first argument being the number of stages left. -/
def UpdateAnimation.stagesRounded {V Q C : Type} (fl : ℚ → ℚ) (AnimSeqs : List FMeshAnimSeq) :
    Nat → Nat → ℚ → List (CMeshBoneData V Q C) → List CAnimChan →
      Option (ℚ × List (CMeshBoneData V Q C) × List CAnimChan)
  | 0, _, TimeDelta, BoneData, Channels => some (TimeDelta, BoneData, Channels)
  | n + 1, Stage, TimeDelta, BoneData, Channels =>
    match Channels[Stage]? with
    | none => none
    | some Chn =>
      match UpdateAnimation.stageRounded fl AnimSeqs Stage TimeDelta BoneData Chn with
      | none => none
      | some ((TimeDelta, BoneData), Chn) =>
        UpdateAnimation.stagesRounded fl AnimSeqs n (Stage + 1) TimeDelta BoneData
          (Channels.set Stage Chn)

/-- The function `CSkelMeshInstance::UpdateAnimation(TimeDelta)` up to the call of
`UpdateSkeleton()`, with the rounding `fl`. -/
def UpdateAnimation.advanceRounded {V Q C : Type} (fl : ℚ → ℚ)
    (inst : CSkelMeshInstance V Q C) (TimeDelta : ℚ) : Option (CSkelMeshInstance V Q C) :=
  -- just in case
  if inst.RefSkeleton.length = 0 then some inst
  else
    -- prepare bone-to-channel map
    if inst.BoneData.length < inst.RefSkeleton.length then none
    else
      let BoneData : List (CMeshBoneData V Q C) :=
        (inst.BoneData.take inst.RefSkeleton.length).map
            (fun data => { data with FirstChannel := 0 })
          ++ inst.BoneData.drop inst.RefSkeleton.length
      -- assert(MaxAnimChannel < MAX_SKELANIMCHANNELS)
      if inst.MaxAnimChannel < inst.Channels.length then
        let AnimSeqs : List FMeshAnimSeq :=
          match inst.Animation with
          | none => []
          | some Anim => Anim.AnimSeqs
        match UpdateAnimation.stagesRounded fl AnimSeqs (inst.MaxAnimChannel + 1).toNat 0
            TimeDelta BoneData inst.Channels with
        | none => none
        | some (_, BoneData, Channels) =>
          some { inst with BoneData := BoneData, Channels := Channels }
      else none

/-- A one-bone mesh with the single sequence `Seq`, whose channels `Channels` are all
active. -/
def channelsInstance (Seq : FMeshAnimSeq) (Channels : List CAnimChan) :
    CSkelMeshInstance ℚ ℚ Unit :=
  { RefSkeleton := [⟨"root", 0, 4, 6⟩]
    Animation := some ⟨["root"], [], [Seq]⟩
    BoneData := [⟨INDEX_NONE, (), (), 0, 1, 0, (), (), 0, 0⟩]
    Channels := Channels
    MaxAnimChannel := (Channels.length : Int) - 1 }

/-! # Theorems -/

/-! ## Array reads -/

theorem TArray.get_natCast {α : Type} (a : List α) (i : Nat) :
    TArray.get a (i : Int) = a[i]? := by
  simp [TArray.get]

theorem TArray.get_eq_some_iff {α : Type} (a : List α) (i : Int) (x : α) :
    TArray.get a i = some x ↔ 0 ≤ i ∧ a[i.toNat]? = some x := by
  unfold TArray.get
  split <;> simp [*]

/-- Timestamp read as a total function, used to state loop invariants. -/
theorem TArray.get_of_bounds (a : List ℚ) (i : Int) (h0 : 0 ≤ i) (h1 : i < a.length) :
    TArray.get a i = some (a.getD i.toNat 0) := by
  have h2 : i.toNat < a.length := by omega
  simp [TArray.get, h0, List.getD, List.getElem?_eq_getElem h2]

theorem sorted_getD_lt (KeyTime : List ℚ) (hs : KeyTime.Sorted (· < ·)) (i j : Nat)
    (hij : i < j) (hj : j < KeyTime.length) : KeyTime.getD i 0 < KeyTime.getD j 0 := by
  have hi : i < KeyTime.length := by omega
  have h := List.pairwise_iff_getElem.mp hs i j hi hj hij
  simpa [List.getD, List.getElem?_eq_getElem hi, List.getElem?_eq_getElem hj] using h

theorem sorted_getD_le (KeyTime : List ℚ) (hs : KeyTime.Sorted (· < ·)) (i j : Nat)
    (hij : i ≤ j) (hj : j < KeyTime.length) : KeyTime.getD i 0 ≤ KeyTime.getD j 0 := by
  rcases Nat.eq_or_lt_of_le hij with h | h
  · subst h; exact le_refl _
  · exact le_of_lt (sorted_getD_lt KeyTime hs i j h hj)

/-! ## `FindTimeKey` -/

/-- The binary-search loop terminates within `High - Low` iterations, keeps the window
inside its starting window, ends with a window of at most five keys, and preserves the bracket
`KeyTime[Low] ≤ Frame < KeyTime[High+1]`. -/
theorem FindTimeKey.binarySearch_spec (KeyTime : List ℚ) (Frame : ℚ)
    (hs : KeyTime.Sorted (· < ·)) :
    ∀ (fuel : Nat) (Low High : Int), 0 ≤ Low → Low ≤ High → High < KeyTime.length →
      High - Low ≤ fuel →
      KeyTime.getD Low.toNat 0 ≤ Frame →
      (∀ j : Nat, High < j → j < KeyTime.length → Frame < KeyTime.getD j 0) →
      ∃ Low' High' : Int, FindTimeKey.binarySearch KeyTime Frame fuel Low High = some (Low', High')
        ∧ Low ≤ Low' ∧ Low' ≤ High' ∧ High' ≤ High ∧ High' ≤ Low' + MAX_LINEAR_KEYS
        ∧ KeyTime.getD Low'.toNat 0 ≤ Frame
        ∧ (∀ j : Nat, High' < j → j < KeyTime.length → Frame < KeyTime.getD j 0) := by
  intro fuel
  induction fuel with
  | zero =>
    intro Low High h0 hLH hH hf hlow hhigh
    refine ⟨Low, High, ?_, le_refl _, hLH, le_refl _, ?_, hlow, hhigh⟩
    · have : ¬ (Low + MAX_LINEAR_KEYS < High) := by simp [MAX_LINEAR_KEYS]; omega
      simp [FindTimeKey.binarySearch, this]
    · simp [MAX_LINEAR_KEYS]; omega
  | succ n ih =>
    intro Low High h0 hLH hH hf hlow hhigh
    by_cases hc : Low + MAX_LINEAR_KEYS < High
    · have hc4 : Low + 4 < High := by simpa [MAX_LINEAR_KEYS] using hc
      have hmid : Int.tdiv (Low + High) 2 = (Low + High) / 2 :=
        Int.tdiv_eq_ediv (by omega) (by omega)
      have hm0 : 0 ≤ (Low + High) / 2 := by omega
      have hm1 : (Low + High) / 2 < KeyTime.length := by omega
      have hget := TArray.get_of_bounds KeyTime ((Low + High) / 2) hm0 hm1
      simp only [FindTimeKey.binarySearch, if_pos hc, hmid, hget]
      by_cases hlt : Frame < KeyTime.getD ((Low + High) / 2).toNat 0
      · simp only [if_pos hlt]
        obtain ⟨L, H, he, h1, h2, h3, h4, h5, h6⟩ :=
          ih Low ((Low + High) / 2 - 1) h0 (by omega) (by omega) (by omega) hlow (by
            intro j hj1 hj2
            have hjm : ((Low + High) / 2).toNat ≤ j := by omega
            exact lt_of_lt_of_le hlt (sorted_getD_le KeyTime hs _ _ hjm hj2))
        exact ⟨L, H, he, h1, h2, by omega, h4, h5, h6⟩
      · simp only [if_neg hlt]
        obtain ⟨L, H, he, h1, h2, h3, h4, h5, h6⟩ :=
          ih ((Low + High) / 2) High hm0 (by omega) hH (by omega) (not_lt.mp hlt) hhigh
        exact ⟨L, H, he, by omega, h2, h3, h4, h5, h6⟩
    · refine ⟨Low, High, ?_, le_refl _, hLH, le_refl _, ?_, hlow, hhigh⟩
      · simp [FindTimeKey.binarySearch, hc]
      · omega


/-- The linear scan over the window `[Low, High]` returns the greatest index whose timestamp is
`≤ Frame`, given the bracket left by the binary search. -/
theorem FindTimeKey.linearSearch_spec (KeyTime : List ℚ) (Frame : ℚ)
    (hs : KeyTime.Sorted (· < ·)) (Low High : Int) (h0 : 0 ≤ Low) (hLH : Low ≤ High)
    (hH : High < KeyTime.length) (hlow : KeyTime.getD Low.toNat 0 ≤ Frame)
    (hhigh : ∀ j : Nat, High < j → j < KeyTime.length → Frame < KeyTime.getD j 0) :
    ∀ (fuel : Nat) (i : Int), Low ≤ i → i ≤ High + 1 → High + 1 - i ≤ fuel →
      (Low < i → KeyTime.getD (i - 1).toNat 0 < Frame) →
      ∃ r : Nat, FindTimeKey.linearSearch KeyTime Frame High fuel i = some (r : Int)
        ∧ Low ≤ r ∧ (r : Int) ≤ High ∧ KeyTime.getD r 0 ≤ Frame
        ∧ (∀ j : Nat, r < j → j < KeyTime.length → Frame < KeyTime.getD j 0) := by
  have hexit : ∀ i : Int, Low ≤ i → i ≤ High + 1 → ¬ i ≤ High →
      (Low < i → KeyTime.getD (i - 1).toNat 0 < Frame) →
      ∃ r : Nat, some (if i > High then High else i) = some (r : Int)
        ∧ Low ≤ r ∧ (r : Int) ≤ High ∧ KeyTime.getD r 0 ≤ Frame
        ∧ (∀ j : Nat, r < j → j < KeyTime.length → Frame < KeyTime.getD j 0) := by
    intro i hi1 hi2 hi3 hprev
    have hiH : i = High + 1 := by omega
    have hgt : i > High := by omega
    refine ⟨High.toNat, ?_, by omega, by omega, ?_, ?_⟩
    · simp only [if_pos hgt]; congr 1; omega
    · have := hprev (by omega)
      have heq : (i - 1).toNat = High.toNat := by omega
      rw [heq] at this; exact le_of_lt this
    · intro j hj1 hj2; exact hhigh j (by omega) hj2
  intro fuel
  induction fuel with
  | zero =>
    intro i hi1 hi2 hf hprev
    have hn : ¬ i ≤ High := by omega
    simp only [FindTimeKey.linearSearch, if_neg hn]
    exact hexit i hi1 hi2 hn hprev
  | succ n ih =>
    intro i hi1 hi2 hf hprev
    by_cases hc : i ≤ High
    · have hget := TArray.get_of_bounds KeyTime i (by omega) (by omega)
      simp only [FindTimeKey.linearSearch, if_pos hc, hget]
      by_cases heq : Frame = KeyTime.getD i.toNat 0
      · simp only [if_pos heq]
        refine ⟨i.toNat, by congr 1; omega, by omega, by omega, le_of_eq heq.symm, ?_⟩
        intro j hj1 hj2
        rw [heq]; exact sorted_getD_lt KeyTime hs _ _ hj1 hj2
      · simp only [if_neg heq]
        by_cases hlt : Frame < KeyTime.getD i.toNat 0
        · simp only [if_pos hlt]
          have hiL : Low < i := by
            by_contra hcon
            have : i = Low := by omega
            rw [this] at hlt
            exact absurd hlow (not_le.mpr hlt)
          have hpos : i > 0 := by omega
          refine ⟨(i - 1).toNat, by simp only [if_pos hpos]; congr 1; omega, by omega,
            by omega, le_of_lt (hprev hiL), ?_⟩
          intro j hj1 hj2
          have hij : i.toNat ≤ j := by omega
          exact lt_of_lt_of_le hlt (sorted_getD_le KeyTime hs _ _ hij hj2)
        · simp only [if_neg hlt]
          have hgt : KeyTime.getD i.toNat 0 < Frame :=
            lt_of_le_of_ne (not_lt.mp hlt) (fun h => heq h.symm)
          exact ih (i + 1) (by omega) (by omega) (by omega) (by
            intro _
            have : (i + 1 - 1).toNat = i.toNat := by omega
            rw [this]; exact hgt)
    · simp only [FindTimeKey.linearSearch, if_neg hc]
      exact hexit i hi1 hi2 hc hprev

/-- On a strictly increasing list the left-to-right scan stops at the greatest index whose
timestamp is `≤ Frame`. -/
theorem plainLinearScan_eq (KeyTime : List ℚ) (Frame : ℚ) (r : Nat)
    (hr : r < KeyTime.length) (hle : ∀ j : Nat, j ≤ r → KeyTime.getD j 0 ≤ Frame)
    (hgt : ∀ j : Nat, r < j → j < KeyTime.length → Frame < KeyTime.getD j 0) :
    plainLinearScan KeyTime Frame = r := by
  unfold plainLinearScan
  induction KeyTime generalizing r with
  | nil => simp at hr
  | cons a l ih =>
    have ha : a ≤ Frame := by simpa using hle 0 (Nat.zero_le _)
    simp only [List.takeWhile_cons, decide_eq_true ha, if_true, List.length_cons,
      Nat.add_sub_cancel]
    cases r with
    | zero =>
      cases l with
      | nil => simp
      | cons b l2 =>
        have hb : Frame < b := by simpa using hgt 1 (by omega) (by simp)
        simp [List.takeWhile_cons, not_le.mpr hb]
    | succ k =>
      have hk : k < l.length := by simpa using hr
      have := ih k hk (fun j hj => by simpa using hle (j + 1) (by omega))
        (fun j hj1 hj2 => by simpa using hgt (j + 1) (by omega) (by simpa using hj2))
      have hpos : 0 < (List.takeWhile (fun t => decide (t ≤ Frame)) l).length := by
        cases l with
        | nil => simp at hk
        | cons b l2 =>
          have hb : b ≤ Frame := by simpa using hle 1 (by omega)
          simp [List.takeWhile_cons, hb]
      omega


/-- The common core of the `FindTimeKey` results: on a non-empty strictly increasing array
with `KeyTime[0] ≤ Frame` the function returns an index `r` inside the array with
`KeyTime[r] ≤ Frame` and `Frame < KeyTime[j]` for every later `j`. -/
theorem FindTimeKey_bracket (KeyTime : List ℚ) (Frame : ℚ) (hne : KeyTime ≠ [])
    (hs : KeyTime.Sorted (· < ·)) (hfirst : KeyTime.getD 0 0 ≤ Frame) :
    ∃ r : Nat, FindTimeKey KeyTime Frame = some (r : Int) ∧ r < KeyTime.length
      ∧ KeyTime.getD r 0 ≤ Frame
      ∧ (∀ j : Nat, r < j → j < KeyTime.length → Frame < KeyTime.getD j 0) := by
  have hlen : 0 < KeyTime.length := List.length_pos.mpr hne
  obtain ⟨L, H, he, h1, h2, h3, h4, h5, h6⟩ :=
    FindTimeKey.binarySearch_spec KeyTime Frame hs KeyTime.length 0 ((KeyTime.length : Int) - 1)
      (le_refl _) (by omega) (by omega) (by omega) (by simpa using hfirst)
      (by intro j hj1 hj2; omega)
  obtain ⟨r, hr, hr1, hr2, hr3, hr4⟩ :=
    FindTimeKey.linearSearch_spec KeyTime Frame hs L H h1 h2 (by omega) h5 h6
      (H + 1 - L).toNat L (le_refl _) (by omega) (by omega) (by intro h; omega)
  refine ⟨r, ?_, by omega, hr3, hr4⟩
  simp only [FindTimeKey, he, hr]

/-- C1: for a non-empty, strictly increasing timestamp array and `KeyTime[0] ≤ Frame`,
`FindTimeKey` returns the greatest index `i` with `KeyTime[i] ≤ Frame`, which is also what a
plain left-to-right linear scan returns. -/
theorem FindTimeKey_greatest_key_at_or_before (KeyTime : List ℚ) (Frame : ℚ)
    (hne : KeyTime ≠ []) (hs : KeyTime.Sorted (· < ·)) (hfirst : KeyTime.head hne ≤ Frame) :
    ∃ i : Nat, FindTimeKey KeyTime Frame = some (i : Int)
      ∧ (∃ t, KeyTime[i]? = some t ∧ t ≤ Frame)
      ∧ (∀ (j : Nat) (t : ℚ), KeyTime[j]? = some t → t ≤ Frame → j ≤ i)
      ∧ i = plainLinearScan KeyTime Frame := by
  have hf : KeyTime.getD 0 0 ≤ Frame := by
    cases KeyTime with
    | nil => exact absurd rfl hne
    | cons a l => simpa using hfirst
  obtain ⟨r, he, hr, hle, hgt⟩ := FindTimeKey_bracket KeyTime Frame hne hs hf
  refine ⟨r, he, ⟨KeyTime.getD r 0, ?_, hle⟩, ?_, ?_⟩
  · simp [List.getD, List.getElem?_eq_getElem hr]
  · intro j t hj ht
    by_contra hcon
    have hjlen : j < KeyTime.length := by
      by_contra h
      rw [List.getElem?_eq_none (by omega)] at hj
      exact absurd hj (by simp)
    have := hgt j (by omega) hjlen
    have hjt : KeyTime.getD j 0 = t := by simp [List.getD, hj]
    rw [hjt] at this
    exact absurd ht (not_le.mpr this)
  · symm
    apply plainLinearScan_eq KeyTime Frame r hr _ hgt
    intro j hj
    exact le_trans (sorted_getD_le KeyTime hs j r hj hr) hle

/-- C1 at a concrete input: twelve keys, `Frame` strictly between the keys 7 and 8. -/
theorem FindTimeKey_greatest_key_at_or_before_witness :
    ∃ i : Nat, FindTimeKey [0, 1, 2, 3, 4, 5, 6, 7, 8, 9, 10, 11] (15 / 2) = some (i : Int)
      ∧ (∃ t, [(0 : ℚ), 1, 2, 3, 4, 5, 6, 7, 8, 9, 10, 11][i]? = some t ∧ t ≤ 15 / 2)
      ∧ (∀ (j : Nat) (t : ℚ),
          [(0 : ℚ), 1, 2, 3, 4, 5, 6, 7, 8, 9, 10, 11][j]? = some t → t ≤ 15 / 2 → j ≤ i)
      ∧ i = plainLinearScan [0, 1, 2, 3, 4, 5, 6, 7, 8, 9, 10, 11] (15 / 2) :=
  FindTimeKey_greatest_key_at_or_before [0, 1, 2, 3, 4, 5, 6, 7, 8, 9, 10, 11] (15 / 2)
    (by simp) (by decide!) (by norm_num)


/-! ## `GetKeyParams` -/

/-- At the time of key `k`, `GetKeyParams` selects `X = k` with fraction `0`. -/
theorem GetKeyParams_at_key_time (KeyTime : List ℚ) (k : Nat) (tk NumFrames : ℚ) (Loop : Bool)
    (hs : KeyTime.Sorted (· < ·)) (hk : KeyTime[k]? = some tk) :
    ∃ Y : Int, GetKeyParams KeyTime tk NumFrames Loop = some ((k : Int), Y, 0) := by
  have hklen : k < KeyTime.length := by
    by_contra h
    rw [List.getElem?_eq_none (by omega)] at hk
    exact absurd hk (by simp)
  have hne : KeyTime ≠ [] := List.length_pos.mp (by omega)
  have hkD : KeyTime.getD k 0 = tk := by simp [List.getD, hk]
  have hfirst : KeyTime.getD 0 0 ≤ tk :=
    hkD ▸ sorted_getD_le KeyTime hs 0 k (Nat.zero_le _) hklen
  obtain ⟨r, he, hr, hle, hgt⟩ := FindTimeKey_bracket KeyTime tk hne hs hfirst
  have hrk : r = k := by
    rcases Nat.lt_trichotomy r k with h | h | h
    · have := hgt k h hklen
      rw [hkD] at this
      exact absurd this (lt_irrefl _)
    · exact h
    · have := sorted_getD_lt KeyTime hs k r h hr
      rw [hkD] at this
      exact absurd hle (not_le.mpr this)
  subst hrk
  have hget : TArray.get KeyTime (r : Int) = some tk := by
    rw [TArray.get_natCast]; exact hk
  by_cases hY : (r : Int) + 1 ≥ (KeyTime.length : Int)
  · cases Loop with
    | false =>
      have hX : (r : Int) = (KeyTime.length : Int) - 1 := by omega
      exact ⟨(KeyTime.length : Int) - 1, by simp [GetKeyParams, he, hY, hX]⟩
    | true =>
      exact ⟨0, by simp [GetKeyParams, he, hY, hget]⟩
  · have hY2 : r + 1 < KeyTime.length := by omega
    have hget2 : TArray.get KeyTime ((r : Int) + 1) = some (KeyTime.getD (r + 1) 0) := by
      rw [TArray.get_of_bounds KeyTime ((r : Int) + 1) (by omega) (by omega)]
      congr 1
    refine ⟨(r : Int) + 1, ?_⟩
    simp only [GetKeyParams, he, if_neg hY, hget, hget2]
    simp

/-- C2 (amended): for a track with strictly increasing timestamps and as many position and
orientation keys as timestamps, `GetBonePosition` sampled at `Frame = KeyTime[k]` returns
`(KeyPos[k], KeyQuat[k])` unless the fast path applies: when `NumFrames = 1` or
`KeyTime[k] = 0` it returns `(KeyPos[0], KeyQuat[0])`. In particular the key `k` is reproduced
whenever `k = 0`, or `NumFrames ≠ 1` and `KeyTime[k] ≠ 0`. -/
theorem GetBonePosition_at_key_time {V Q : Type} (Lerp : V → V → ℚ → V)
    (Slerp : Q → Q → ℚ → Q) (A : AnalogTrack V Q) (k : Nat) (NumFrames : ℚ) (Loop : Bool)
    (tk : ℚ) (p p0 : V) (q q0 : Q)
    (hs : A.KeyTime.Sorted (· < ·))
    (hpos : A.KeyPos.length = A.KeyTime.length) (hrot : A.KeyQuat.length = A.KeyTime.length)
    (hk : A.KeyTime[k]? = some tk) (hp : A.KeyPos[k]? = some p) (hq : A.KeyQuat[k]? = some q)
    (hp0 : A.KeyPos[0]? = some p0) (hq0 : A.KeyQuat[0]? = some q0) :
    GetBonePosition Lerp Slerp A tk NumFrames Loop
        = (if NumFrames = 1 ∨ tk = 0 then some (p0, q0) else some (p, q))
      ∧ (k = 0 → (p0, q0) = (p, q)) := by
  have hklen : k < A.KeyTime.length := by
    by_contra h
    rw [List.getElem?_eq_none (by omega)] at hk
    exact absurd hk (by simp)
  have hk0 : k = 0 → (p0, q0) = (p, q) := by
    intro h0
    subst h0
    rw [hp0] at hp; rw [hq0] at hq
    simp only [Option.some.injEq] at hp hq
    rw [hp, hq]
  refine ⟨?_, hk0⟩
  have hg0 : TArray.get A.KeyPos 0 = some p0 := by
    simpa [TArray.get] using hp0
  have hr0 : TArray.get A.KeyQuat 0 = some q0 := by
    simpa [TArray.get] using hq0
  by_cases hfast : NumFrames = 1 ∨ tk = 0
  · have hc : A.KeyTime.length = 1 ∨ NumFrames = 1 ∨ tk = 0 := Or.inr hfast
    simp only [GetBonePosition, if_pos hc, if_pos hfast, hg0, hr0]
  · by_cases hone : A.KeyTime.length = 1
    · have hc : A.KeyTime.length = 1 ∨ NumFrames = 1 ∨ tk = 0 := Or.inl hone
      have : k = 0 := by omega
      simp only [GetBonePosition, if_pos hc, if_neg hfast, hg0, hr0, hk0 this]
    · have hc : ¬ (A.KeyTime.length = 1 ∨ NumFrames = 1 ∨ tk = 0) := by
        rintro (h | h)
        · exact hone h
        · exact hfast h
      obtain ⟨Y, hY⟩ := GetKeyParams_at_key_time A.KeyTime k tk NumFrames Loop hs hk
      have hT : ((A.KeyTime.length : Int) ≠ 0) := by omega
      have hP1 : ¬ ((A.KeyPos.length : Int) = 1) := by omega
      have hR1 : ¬ ((A.KeyQuat.length : Int) = 1) := by omega
      have hP : ((A.KeyPos.length : Int) = 1 ∨ (A.KeyPos.length : Int) = A.KeyTime.length) :=
        Or.inr (by omega)
      have hR : ((A.KeyQuat.length : Int) = 1 ∨ (A.KeyQuat.length : Int) = A.KeyTime.length) :=
        Or.inr (by omega)
      have hgp : TArray.get A.KeyPos (k : Int) = some p := by
        rw [TArray.get_natCast]; exact hp
      have hgq : TArray.get A.KeyQuat (k : Int) = some q := by
        rw [TArray.get_natCast]; exact hq
      simp only [GetBonePosition, if_neg hc, if_neg hfast, if_pos hT, hP, hR, not_true_eq_false,
        if_false, hY, if_neg hP1, if_neg hR1, lt_irrefl, gt_iff_lt, hgp, hgq, ne_eq]


/-- C2 at a concrete input: three keys at times 0, 1, 2 of a 3-frame looping sequence,
sampled at the time of key 1. -/
theorem GetBonePosition_at_key_time_witness :
    GetBonePosition (fun (a _ : Nat) (_ : ℚ) => a) (fun (a _ : Nat) (_ : ℚ) => a)
        ⟨[10, 20, 30], [1, 2, 3], [0, 1, 2], [], []⟩ 1 3 true
        = (if (3 : ℚ) = 1 ∨ (1 : ℚ) = 0 then some (1, 10) else some (2, 20))
      ∧ (1 = 0 → ((1 : Nat), (10 : Nat)) = (2, 20)) :=
  GetBonePosition_at_key_time (fun (a _ : Nat) (_ : ℚ) => a) (fun (a _ : Nat) (_ : ℚ) => a)
    ⟨[10, 20, 30], [1, 2, 3], [0, 1, 2], [], []⟩ 1 3 true 1 2 1 20 10
    (by decide!) rfl rfl rfl rfl rfl rfl rfl

/-- C2 fails as stated when the frame count is 1: a two-key track with timestamps `0, 1/2`,
sampled at the time of key 1 with `NumFrames = 1`, returns key 0, not key 1. -/
theorem GetBonePosition_at_key_time_counterexample :
    List.Sorted (· < ·) [(0 : ℚ), 1 / 2]
      ∧ GetBonePosition (fun (a _ : Nat) (_ : ℚ) => a) (fun (a _ : Nat) (_ : ℚ) => a)
          ⟨[10, 20], [1, 2], [0, 1 / 2], [], []⟩ (1 / 2) 1 false = some (1, 10)
      ∧ GetBonePosition (fun (a _ : Nat) (_ : ℚ) => a) (fun (a _ : Nat) (_ : ℚ) => a)
          ⟨[10, 20], [1, 2], [0, 1 / 2], [], []⟩ (1 / 2) 1 false ≠ some (2, 20) := by
  decide!


/-! ## `CheckBoneTree` -/

theorem lt_length_of_getElem?_eq_some {α : Type} (l : List α) (j : Nat) (a : α)
    (h : l[j]? = some a) : j < l.length := by
  by_contra hcon
  rw [List.getElem?_eq_none (by omega)] at h
  exact absurd h (by simp)

/-- A descendant has a larger index than its ancestor and lies inside the bone array. -/
theorem Descendant.lt_and_lt_length {V Q : Type} (Bones : List (FMeshBone V Q))
    (hpar : ∀ j B, 0 < j → Bones[j]? = some B → B.ParentIndex < j) {i j : Nat}
    (h : Descendant Bones i j) : i < j ∧ j < Bones.length := by
  induction h with
  | child j B hj hB hp =>
    exact ⟨hp ▸ hpar j B hj hB, lt_length_of_getElem?_eq_some Bones j B hB⟩
  | step j B hj hB _ ih =>
    exact ⟨lt_trans ih.1 (hpar j B hj hB), lt_length_of_getElem?_eq_some Bones j B hB⟩

theorem Descendant.trans {V Q : Type} (Bones : List (FMeshBone V Q)) {a b c : Nat}
    (hab : Descendant Bones a b) (hbc : Descendant Bones b c) : Descendant Bones a c := by
  induction hbc with
  | child j B hj hB hp => exact Descendant.step j B hj hB (hp ▸ hab)
  | step j B hj hB _ ih => exact Descendant.step j B hj hB ih

theorem Descendant.parent_cases {V Q : Type} (Bones : List (FMeshBone V Q)) {i j : Nat}
    (B : FMeshBone V Q) (hB : Bones[j]? = some B) (h : Descendant Bones i j) :
    B.ParentIndex = i ∨ Descendant Bones i B.ParentIndex := by
  cases h with
  | child j2 B2 hj hB2 hp =>
    rw [hB] at hB2
    cases hB2
    exact Or.inl hp
  | step j2 B2 hj hB2 hd =>
    rw [hB] at hB2
    cases hB2
    exact Or.inr hd

/-- Subtrees are nested: the range of a descendant lies inside the range of its ancestor. -/
theorem Descendant.range_nested {V Q : Type} (Bones : List (FMeshBone V Q)) (sz : Nat → Nat)
    (hpar : ∀ j B, 0 < j → Bones[j]? = some B → B.ParentIndex < j)
    (hsz : ∀ i, i < Bones.length → ∀ j, Descendant Bones i j ↔ (i < j ∧ j ≤ i + sz i))
    {i j : Nat} (h : Descendant Bones i j) : j + sz j ≤ i + sz i := by
  have hj := (Descendant.lt_and_lt_length Bones hpar h)
  have hi : i < Bones.length := lt_trans hj.1 hj.2
  by_cases h0 : sz j = 0
  · have := ((hsz i hi j).mp h).2
    omega
  · have hd : Descendant Bones j (j + sz j) := (hsz j hj.2 (j + sz j)).mpr ⟨by omega, le_refl _⟩
    exact ((hsz i hi (j + sz j)).mp (Descendant.trans Bones h hd)).2

theorem Descendant.range_lt_length {V Q : Type} (Bones : List (FMeshBone V Q)) (sz : Nat → Nat)
    (hpar : ∀ j B, 0 < j → Bones[j]? = some B → B.ParentIndex < j)
    (hsz : ∀ i, i < Bones.length → ∀ j, Descendant Bones i j ↔ (i < j ∧ j ≤ i + sz i))
    (i : Nat) (hi : i < Bones.length) : i + sz i < Bones.length := by
  by_cases h0 : sz i = 0
  · omega
  · have hd : Descendant Bones i (i + sz i) := (hsz i hi (i + sz i)).mpr ⟨by omega, le_refl _⟩
    exact (Descendant.lt_and_lt_length Bones hpar hd).2


/-- The child loop of `CheckBoneTree` on a depth-first ordered array: scanning from `i` with
all of `(Index, m)` already visited, it ends having visited the whole subtree of `Index`. -/
theorem CheckBoneTree.childLoop_spec {V Q : Type} (Bones : List (FMeshBone V Q)) (maxIndices : Nat)
    (sz : Nat → Nat)
    (hpar : ∀ j B, 0 < j → Bones[j]? = some B → B.ParentIndex < j)
    (hsz : ∀ i, i < Bones.length → ∀ j, Descendant Bones i j ↔ (i < j ∧ j ≤ i + sz i))
    (recurse : Nat → List Int × Nat → Option (Int × (List Int × Nat)))
    (Index : Nat) (hI : Index < Bones.length)
    (hrec : ∀ i S, Index < i → i ≤ Index + sz Index → maxIndices ≤ S.length →
      ∃ S', recurse i (S, i) = some ((sz i : Int) + 1, (S', i + sz i + 1))
        ∧ SizesUpdated sz i (i + sz i + 1) S S') :
    ∀ (n i m : Nat) (t : Int) (S : List Int), i + n = Bones.length → Index < i →
      (i ≤ m ∨ m = Index + sz Index + 1) → Index < m → m ≤ Index + sz Index + 1 →
      (∀ j B, i ≤ j → j < m → Bones[j]? = some B → B.ParentIndex ≠ Index) →
      (∀ j, Index < j → j < m → j + sz j < m) →
      t = (m : Int) - (Index + 1) → maxIndices ≤ S.length →
      ∃ S', (List.range' i n).foldlM (CheckBoneTree.loopBody Bones Index recurse) (t, (S, m))
          = some ((sz Index : Int), (S', Index + sz Index + 1))
        ∧ SizesUpdated sz m (Index + sz Index + 1) S S' := by
  have hE := Descendant.range_lt_length Bones sz hpar hsz Index hI
  intro n
  induction n with
  | zero =>
    intro i m t S hin hi hm hIm hmE hnc hfr ht hS
    have hmE2 : m = Index + sz Index + 1 := by omega
    refine ⟨S, ?_, rfl, ?_, fun _ _ => rfl⟩
    · simp only [List.range'_zero, List.foldlM_nil, hmE2, ht]
      simp
    · intro k hk1 hk2; omega
  | succ n ih =>
    intro i m t S hin hi hm hIm hmE hnc hfr ht hS
    have hiN : i < Bones.length := by omega
    obtain ⟨B, hB⟩ : ∃ B, Bones[i]? = some B := ⟨Bones[i], List.getElem?_eq_getElem hiN⟩
    rw [List.range'_succ, List.foldlM_cons]
    by_cases hlt : i < m
    · -- inside an earlier child's subtree: not a child of `Index`
      have hne : B.ParentIndex ≠ Index := hnc i B (le_refl _) hlt hB
      have hstep : CheckBoneTree.loopBody Bones Index recurse (t, (S, m)) i
          = some (t, (S, m)) := by
        simp only [CheckBoneTree.loopBody, hB, if_neg hne]
      rw [hstep]
      exact ih (i + 1) m t S (by omega) (by omega) (Or.inl (by omega)) hIm hmE
        (fun j B2 h1 h2 => hnc j B2 (by omega) h2) hfr ht hS
    · by_cases hdone : m = Index + sz Index + 1
      · -- past the subtree of `Index`
        have hne : B.ParentIndex ≠ Index := by
          intro hp
          have hd : Descendant Bones Index i := Descendant.child i B (by omega) hB hp
          have := ((hsz Index hI i).mp hd).2
          omega
        have hstep : CheckBoneTree.loopBody Bones Index recurse (t, (S, m)) i
            = some (t, (S, m)) := by
          simp only [CheckBoneTree.loopBody, hB, if_neg hne]
        rw [hstep]
        exact ih (i + 1) m t S (by omega) (by omega) (Or.inr hdone) hIm hmE
          (fun j B2 h1 h2 => absurd h2 (by omega)) hfr ht hS
      · -- the frontier: bone `i = m` is the next child of `Index`
        have him : i = m := by omega
        subst him
        have hdi : Descendant Bones Index i := (hsz Index hI i).mpr ⟨hi, by omega⟩
        have hp : B.ParentIndex = Index := by
          rcases Descendant.parent_cases Bones B hB hdi with h | h
          · exact h
          · exfalso
            have h1 := (Descendant.lt_and_lt_length Bones hpar h).1
            have h2 := hpar i B (by omega) hB
            have h3 : Descendant Bones B.ParentIndex i := Descendant.child i B (by omega) hB rfl
            have h4 := ((hsz B.ParentIndex (by omega) i).mp h3).2
            have h5 := hfr B.ParentIndex h1 h2
            omega
        have hnest := Descendant.range_nested Bones sz hpar hsz hdi
        obtain ⟨S1, hr, hlen1, hin1, hout1⟩ := hrec i S hi (by omega) hS
        have hstep : CheckBoneTree.loopBody Bones Index recurse (t, (S, i)) i
            = some (t + ((sz i : Int) + 1), (S1, i + sz i + 1)) := by
          simp only [CheckBoneTree.loopBody, hB, if_pos hp, hr]
        rw [hstep]
        obtain ⟨S2, hr2, hlen2, hin2, hout2⟩ :=
          ih (i + 1) (i + sz i + 1) (t + ((sz i : Int) + 1)) S1 (by omega) (by omega)
            (Or.inl (by omega)) (by omega) (by omega)
            (by
              intro j B2 h1 h2 hB2 hp2
              have hdj : Descendant Bones i j := (hsz i hiN j).mpr ⟨by omega, by omega⟩
              rcases Descendant.parent_cases Bones B2 hB2 hdj with h | h
              · omega
              · have := (Descendant.lt_and_lt_length Bones hpar h).1
                omega)
            (by
              intro j h1 h2
              by_cases hji : j < i
              · have := hfr j h1 hji
                omega
              · by_cases hje : j = i
                · subst hje; omega
                · have hdj : Descendant Bones i j := (hsz i hiN j).mpr ⟨by omega, by omega⟩
                  have := Descendant.range_nested Bones sz hpar hsz hdj
                  omega)
            (by push_cast; omega) (by omega)
        refine ⟨S2, ?_, by omega, ?_, ?_⟩
        · simpa using hr2
        · intro k hk1 hk2
          by_cases hk : k < i + sz i + 1
          · rw [hout2 k (Or.inl hk)]
            exact hin1 k hk1 hk
          · exact hin2 k (by omega) hk2
        · intro k hk
          rw [hout2 k (by omega)]
          exact hout1 k (by omega)

/-- On a depth-first ordered array `CheckBoneTree` started at `Index` with
`numIndices = Index` returns `sz Index + 1`, leaves `numIndices` just past the subtree and
records `sz k` for every bone `k` of the subtree. -/
theorem CheckBoneTree_subtree {V Q : Type} (Bones : List (FMeshBone V Q)) (maxIndices : Nat)
    (sz : Nat → Nat)
    (hpar : ∀ j B, 0 < j → Bones[j]? = some B → B.ParentIndex < j)
    (hsz : ∀ i, i < Bones.length → ∀ j, Descendant Bones i j ↔ (i < j ∧ j ≤ i + sz i)) :
    ∀ (fuel Index : Nat) (S : List Int), Index < Bones.length → Bones.length - Index ≤ fuel →
      Index + sz Index < maxIndices → maxIndices ≤ S.length →
      ∃ S', CheckBoneTree Bones maxIndices fuel Index (S, Index)
          = some ((sz Index : Int) + 1, (S', Index + sz Index + 1))
        ∧ SizesUpdated sz Index (Index + sz Index + 1) S S' := by
  intro fuel
  induction fuel with
  | zero => intro Index S hI hf; omega
  | succ fuel ih =>
    intro Index S hI hf hmax hS
    have hlt : Index < maxIndices := by omega
    obtain ⟨S1, hr1, hlen1, hin1, hout1⟩ :=
      CheckBoneTree.childLoop_spec Bones maxIndices sz hpar hsz
        (CheckBoneTree Bones maxIndices fuel) Index hI
        (by
          intro i S2 h1 h2 h3
          have hd : Descendant Bones Index i := (hsz Index hI i).mpr ⟨h1, h2⟩
          have hnest := Descendant.range_nested Bones sz hpar hsz hd
          have hiN := (Descendant.lt_and_lt_length Bones hpar hd).2
          exact ih i S2 hiN (by omega) (by omega) h3)
        (Bones.length - (Index + 1)) (Index + 1) (Index + 1) 0 S (by omega) (by omega)
        (Or.inl (le_refl _)) (by omega) (by omega)
        (fun j B h1 h2 => absurd h2 (by omega))
        (fun j h1 h2 => absurd h2 (by omega)) (by push_cast; omega) hS
    refine ⟨S1.set Index (sz Index : Int), ?_, ?_, ?_, ?_⟩
    · simp only [CheckBoneTree, if_pos hlt, hr1]
    · simp [hlen1]
    · intro k hk1 hk2
      by_cases hk : k = Index
      · subst hk
        rw [List.getElem?_set_self (by omega)]
      · rw [List.getElem?_set_ne (by omega)]
        exact hin1 k (by omega) hk2
    · intro k hk
      rw [List.getElem?_set_ne (by omega)]
      exact hout1 k (by omega)


/-- Every increment of `numIndices` is guarded by `assert(numIndices < maxIndices)`: a
completed run leaves `numIndices ≤ maxIndices`. -/
theorem CheckBoneTree_numIndices_le {V Q : Type} (Bones : List (FMeshBone V Q))
    (maxIndices : Nat) :
    ∀ (fuel Index : Nat) (st : List Int × Nat) (r : Int) (st' : List Int × Nat),
      CheckBoneTree Bones maxIndices fuel Index st = some (r, st') → st'.2 ≤ maxIndices := by
  intro fuel
  induction fuel with
  | zero => intro Index st r st' h; simp [CheckBoneTree] at h
  | succ fuel ih =>
    intro Index st r st' h
    obtain ⟨S, m⟩ := st
    have hloop : ∀ (l : List Nat) (acc acc' : Int × (List Int × Nat)),
        acc.2.2 ≤ maxIndices →
        l.foldlM (CheckBoneTree.loopBody Bones Index (CheckBoneTree Bones maxIndices fuel)) acc
          = some acc' → acc'.2.2 ≤ maxIndices := by
      intro l
      induction l with
      | nil =>
        intro acc acc' ha he
        simp only [List.foldlM_nil] at he
        cases he
        exact ha
      | cons i l ihl =>
        intro acc acc' ha he
        rw [List.foldlM_cons] at he
        cases hb : CheckBoneTree.loopBody Bones Index (CheckBoneTree Bones maxIndices fuel) acc i with
        | none => rw [hb] at he; simp at he
        | some acc1 =>
          rw [hb] at he
          apply ihl acc1 acc' _ he
          unfold CheckBoneTree.loopBody at hb
          split at hb
          · simp at hb
          · split at hb
            · split at hb
              · simp at hb
              · rename_i r1 st1 hrec
                cases hb
                exact ih i acc.2 r1 st1 hrec
            · cases hb
              exact ha
    simp only [CheckBoneTree] at h
    split at h
    · rename_i hlt
      split at h
      · simp at h
      · rename_i t S1 m1 hfold
        cases h
        exact hloop _ _ _ (by simpa using hlt) hfold
    · simp at h

/-- With more than `MAX_MESHBONES` bones the skeleton verification of `SetMesh` always stops
on an assertion. -/
theorem SetMesh.VerifySkeleton_too_many_bones {V Q : Type} (Bones : List (FMeshBone V Q))
    (garbage : Nat → Int) (h : MAX_MESHBONES < Bones.length) :
    SetMesh.VerifySkeleton Bones garbage = none := by
  have hne : Bones.length ≠ 0 := by omega
  simp only [SetMesh.VerifySkeleton, if_pos hne]
  split
  · rfl
  · rename_i r S m he
    have := CheckBoneTree_numIndices_le Bones MAX_MESHBONES _ _ _ _ _ he
    have hm : ¬ (m = Bones.length) := by
      simp only at this
      omega
    simp only [if_neg hm]


/-- C4 (amended): for a bone array of at most `MAX_MESHBONES` bones stored in depth-first
order (`ParentIndex[i] < i` for `i > 0`, every subtree a contiguous index range), the
skeleton builder completes and the `SubtreeSize` it stores for each bone `i` is the number of
descendants of `i`, which are exactly the bones `i+1 .. i+SubtreeSize[i]`. -/
theorem SetMesh_SubtreeSize_depth_first {V Q : Type} (Bones : List (FMeshBone V Q))
    (garbage : Nat → Int) (hmax : Bones.length ≤ MAX_MESHBONES)
    (hpar : ∀ j B, 0 < j → Bones[j]? = some B → B.ParentIndex < j)
    (hcontig : ∀ i, i < Bones.length →
      ∃ s : Nat, ∀ j, Descendant Bones i j ↔ (i < j ∧ j ≤ i + s)) :
    ∃ SubtreeSize : List Int, SetMesh.VerifySkeleton Bones garbage = some SubtreeSize
      ∧ SubtreeSize.length = Bones.length
      ∧ ∀ i, i < Bones.length → ∃ s : Nat, SubtreeSize[i]? = some (s : Int)
          ∧ Set.ncard {j | Descendant Bones i j} = s
          ∧ ∀ j, Descendant Bones i j ↔ (i < j ∧ j ≤ i + s) := by
  by_cases hN : Bones.length = 0
  · exact ⟨[], by simp [SetMesh.VerifySkeleton, hN], by simp [hN], fun i hi => by omega⟩
  · have hch : ∀ i, ∃ s : Nat, i < Bones.length →
        ∀ j, Descendant Bones i j ↔ (i < j ∧ j ≤ i + s) := by
      intro i
      by_cases hi : i < Bones.length
      · obtain ⟨s, hs⟩ := hcontig i hi
        exact ⟨s, fun _ => hs⟩
      · exact ⟨0, fun h => absurd h hi⟩
    choose sz hsz using hch
    have h0 : 0 < Bones.length := by omega
    have hE := Descendant.range_lt_length Bones sz hpar hsz 0 h0
    have hroot : 0 + sz 0 + 1 = Bones.length := by
      by_contra hcon
      have hd : Descendant Bones 0 (Bones.length - 1) := by
        obtain ⟨B, hB⟩ : ∃ B, Bones[Bones.length - 1]? = some B :=
          ⟨Bones[Bones.length - 1], List.getElem?_eq_getElem (by omega)⟩
        have hall : ∀ (n j : Nat) (B : FMeshBone V Q), j ≤ n → 0 < j → Bones[j]? = some B →
            Descendant Bones 0 j := by
          intro n
          induction n with
          | zero => intro j B h1 h2; omega
          | succ n ih =>
            intro j B h1 h2 hB
            have hp := hpar j B h2 hB
            by_cases hp0 : B.ParentIndex = 0
            · exact Descendant.child j B h2 hB hp0
            · have hjl := lt_length_of_getElem?_eq_some Bones j B hB
              obtain ⟨B2, hB2⟩ : ∃ B2, Bones[B.ParentIndex]? = some B2 :=
                ⟨Bones[B.ParentIndex], List.getElem?_eq_getElem (by omega)⟩
              exact Descendant.step j B h2 hB (ih B.ParentIndex B2 (by omega) (by omega) hB2)
        exact hall (Bones.length - 1) (Bones.length - 1) B (le_refl _) (by omega) hB
      have := ((hsz 0 h0 _).mp hd).2
      omega
    obtain ⟨S', hr, hlen, hin, hout⟩ :=
      CheckBoneTree_subtree Bones MAX_MESHBONES sz hpar hsz Bones.length 0
        ((List.range MAX_MESHBONES).map garbage) h0 (by omega) (by omega) (by simp)
    have hlen2 : S'.length = MAX_MESHBONES := by simpa using hlen
    refine ⟨S'.take Bones.length, ?_, ?_, ?_⟩
    · simp only [SetMesh.VerifySkeleton, if_pos hN, hr, hroot, if_true]
    · simp [hlen2, hmax]
    · intro i hi
      refine ⟨sz i, ?_, ?_, hsz i hi⟩
      · rw [List.getElem?_take_of_lt hi]
        exact hin i (Nat.zero_le _) (by omega)
      · have hset : {j | Descendant Bones i j} = ((Finset.Ioc i (i + sz i) : Finset Nat) : Set Nat) := by
          ext j
          simp only [Set.mem_setOf_eq, Finset.coe_Ioc, Set.mem_Ioc]
          exact hsz i hi j
        rw [hset, Set.ncard_coe_Finset, Nat.card_Ioc]
        omega


/-- C4 at a concrete input: root 0 with children 1 and 3, bone 2 a child of bone 1. -/
theorem SetMesh_SubtreeSize_depth_first_witness :
    ∃ SubtreeSize : List Int,
      SetMesh.VerifySkeleton
          [(⟨"root", 0, (), ()⟩ : FMeshBone Unit Unit), ⟨"a", 0, (), ()⟩, ⟨"b", 1, (), ()⟩,
            ⟨"c", 0, (), ()⟩] (fun _ => 7) = some SubtreeSize
      ∧ SubtreeSize.length
          = [(⟨"root", 0, (), ()⟩ : FMeshBone Unit Unit), ⟨"a", 0, (), ()⟩, ⟨"b", 1, (), ()⟩,
            ⟨"c", 0, (), ()⟩].length
      ∧ ∀ i, i < [(⟨"root", 0, (), ()⟩ : FMeshBone Unit Unit), ⟨"a", 0, (), ()⟩,
            ⟨"b", 1, (), ()⟩, ⟨"c", 0, (), ()⟩].length →
          ∃ s : Nat, SubtreeSize[i]? = some (s : Int)
          ∧ Set.ncard {j | Descendant [(⟨"root", 0, (), ()⟩ : FMeshBone Unit Unit),
              ⟨"a", 0, (), ()⟩, ⟨"b", 1, (), ()⟩, ⟨"c", 0, (), ()⟩] i j} = s
          ∧ ∀ j, Descendant [(⟨"root", 0, (), ()⟩ : FMeshBone Unit Unit), ⟨"a", 0, (), ()⟩,
              ⟨"b", 1, (), ()⟩, ⟨"c", 0, (), ()⟩] i j ↔ (i < j ∧ j ≤ i + s) := by
  have hpar : ∀ j B, 0 < j →
      [(⟨"root", 0, (), ()⟩ : FMeshBone Unit Unit), ⟨"a", 0, (), ()⟩, ⟨"b", 1, (), ()⟩,
        ⟨"c", 0, (), ()⟩][j]? = some B → B.ParentIndex < j := by
    intro j B hj hB
    match j, hj, hB with
    | 1, _, hB => cases hB; decide
    | 2, _, hB => cases hB; decide
    | 3, _, hB => cases hB; decide
    | j + 4, _, hB => simp at hB
  have h1 : Descendant [(⟨"root", 0, (), ()⟩ : FMeshBone Unit Unit), ⟨"a", 0, (), ()⟩,
      ⟨"b", 1, (), ()⟩, ⟨"c", 0, (), ()⟩] 0 1 := Descendant.child 1 _ (by decide) rfl rfl
  have h2 : Descendant [(⟨"root", 0, (), ()⟩ : FMeshBone Unit Unit), ⟨"a", 0, (), ()⟩,
      ⟨"b", 1, (), ()⟩, ⟨"c", 0, (), ()⟩] 0 2 := Descendant.step 2 _ (by decide) rfl h1
  have h3 : Descendant [(⟨"root", 0, (), ()⟩ : FMeshBone Unit Unit), ⟨"a", 0, (), ()⟩,
      ⟨"b", 1, (), ()⟩, ⟨"c", 0, (), ()⟩] 0 3 := Descendant.child 3 _ (by decide) rfl rfl
  have h12 : Descendant [(⟨"root", 0, (), ()⟩ : FMeshBone Unit Unit), ⟨"a", 0, (), ()⟩,
      ⟨"b", 1, (), ()⟩, ⟨"c", 0, (), ()⟩] 1 2 := Descendant.child 2 _ (by decide) rfl rfl
  have hn3 : ∀ i, 0 < i → ¬ Descendant [(⟨"root", 0, (), ()⟩ : FMeshBone Unit Unit),
      ⟨"a", 0, (), ()⟩, ⟨"b", 1, (), ()⟩, ⟨"c", 0, (), ()⟩] i 3 := by
    intro i hi hd
    rcases Descendant.parent_cases _ ⟨"c", 0, (), ()⟩ rfl hd with h | h
    · simp at h; omega
    · have := (Descendant.lt_and_lt_length _ hpar h).1
      simp at this
  apply SetMesh_SubtreeSize_depth_first _ _ (by decide) hpar
  intro i hi
  match i, hi with
  | 0, _ =>
    refine ⟨3, fun j => ⟨fun h => ?_, fun h => ?_⟩⟩
    · have := Descendant.lt_and_lt_length _ hpar h
      simp at this; omega
    · match j, h with
      | 1, _ => exact h1
      | 2, _ => exact h2
      | 3, _ => exact h3
      | 0, h => omega
      | j + 4, h => omega
  | 1, _ =>
    refine ⟨1, fun j => ⟨fun h => ?_, fun h => ?_⟩⟩
    · have := Descendant.lt_and_lt_length _ hpar h
      simp at this
      have hj3 : j ≠ 3 := fun h3 => hn3 1 (by decide) (h3 ▸ h)
      omega
    · have : j = 2 := by omega
      subst this; exact h12
  | 2, _ =>
    refine ⟨0, fun j => ⟨fun h => ?_, fun h => by omega⟩⟩
    have := Descendant.lt_and_lt_length _ hpar h
    simp at this
    have hj3 : j ≠ 3 := fun h3 => hn3 2 (by decide) (h3 ▸ h)
    omega
  | 3, _ =>
    refine ⟨0, fun j => ⟨fun h => ?_, fun h => by omega⟩⟩
    have := Descendant.lt_and_lt_length _ hpar h
    simp at this
    omega
  | i + 4, hi => simp at hi

/-- C4 fails as stated beyond `MAX_MESHBONES` bones: a root with 512 children is stored in
depth-first order, yet the builder stops on `assert(numIndices < maxIndices)` and stores no
`SubtreeSize`. -/
theorem SetMesh_SubtreeSize_counterexample :
    (∀ j B, 0 < j →
        (List.replicate 513 (⟨"bone", 0, (), ()⟩ : FMeshBone Unit Unit))[j]? = some B →
        B.ParentIndex < j)
      ∧ (∀ i, i < (List.replicate 513 (⟨"bone", 0, (), ()⟩ : FMeshBone Unit Unit)).length →
          ∃ s : Nat, ∀ j,
            Descendant (List.replicate 513 (⟨"bone", 0, (), ()⟩ : FMeshBone Unit Unit)) i j
              ↔ (i < j ∧ j ≤ i + s))
      ∧ ∀ garbage : Nat → Int,
          SetMesh.VerifySkeleton (List.replicate 513 (⟨"bone", 0, (), ()⟩ : FMeshBone Unit Unit))
            garbage = none := by
  have hB : ∀ j B,
      (List.replicate 513 (⟨"bone", 0, (), ()⟩ : FMeshBone Unit Unit))[j]? = some B →
      j < 513 ∧ B.ParentIndex = 0 := by
    intro j B h
    have hj := lt_length_of_getElem?_eq_some _ j B h
    simp only [List.length_replicate] at hj
    rw [List.getElem?_eq_getElem (by rw [List.length_replicate]; exact hj), List.getElem_replicate] at h
    cases h
    exact ⟨hj, rfl⟩
  have hroot : ∀ i j,
      Descendant (List.replicate 513 (⟨"bone", 0, (), ()⟩ : FMeshBone Unit Unit)) i j →
      i = 0 ∧ 0 < j ∧ j < 513 := by
    intro i j h
    induction h with
    | child j B hj hBj hp => exact ⟨by rw [← hp]; exact (hB j B hBj).2, hj, (hB j B hBj).1⟩
    | step j B hj hBj _ ih => exact ⟨ih.1, hj, (hB j B hBj).1⟩
  refine ⟨?_, ?_, ?_⟩
  · intro j B hj h
    rw [(hB j B h).2]; exact hj
  · intro i hi
    by_cases h0 : i = 0
    · subst h0
      refine ⟨512, fun j => ⟨fun h => ?_, fun h => ?_⟩⟩
      · have := hroot 0 j h
        omega
      · refine Descendant.child j ⟨"bone", 0, (), ()⟩ h.1 ?_ rfl
        rw [List.getElem?_eq_getElem (by rw [List.length_replicate]; omega), List.getElem_replicate]
    · refine ⟨0, fun j => ⟨fun h => ?_, fun h => by omega⟩⟩
      exact absurd (hroot i j h).1 h0
  · intro garbage
    exact SetMesh.VerifySkeleton_too_many_bones _ garbage
      (by rw [List.length_replicate]; unfold MAX_MESHBONES; omega)


/-! ## Normalisation of the vertex influences -/

theorem weightSum_cons (Infl : FVertInfluences) (rest : List FVertInfluences) (p : Nat) :
    weightSum (Infl :: rest) p
      = (if Infl.PointIndex = p then Infl.Weight else 0) + weightSum rest p := by
  unfold weightSum
  by_cases h : Infl.PointIndex = p
  · simp [List.filter_cons, h]
  · simp [List.filter_cons, h]

theorem skinnedPosition_cons {V Q C : Type} [AddCommMonoid V] [Module ℚ V]
    (UnTransformPoint : C → V → V) (BoneData : List (CMeshBoneData V Q C))
    (Infl : FVertInfluences) (rest : List FVertInfluences) (v : V) (p : Nat) :
    skinnedPosition UnTransformPoint BoneData (Infl :: rest) v p
      = (if Infl.PointIndex = p then
          (match BoneData[Infl.BoneIndex]? with
            | some data => Infl.Weight • UnTransformPoint data.Transform v
            | none => 0)
         else 0) + skinnedPosition UnTransformPoint BoneData rest v p := by
  unfold skinnedPosition
  by_cases h : Infl.PointIndex = p
  · simp [List.filter_cons, h]
  · simp [List.filter_cons, h]

/-- The influence loop adds to every output vertex the weighted images of its reference
vertex. -/
theorem TransformMesh.influenceLoop_spec {V Q C : Type} [AddCommMonoid V] [Module ℚ V]
    (UnTransformPoint UnTransformVector : C → V → V) (BoneData : List (CMeshBoneData V Q C))
    (Verts : List V) (Norms : Option (List V)) :
    ∀ (Infs : List FVertInfluences) (MV MN : List V),
      (∀ Infl ∈ Infs, Infl.PointIndex < Verts.length) →
      (∀ Infl ∈ Infs, Infl.BoneIndex < BoneData.length) →
      Verts.length ≤ MV.length →
      (∀ N, Norms = some N → Verts.length ≤ N.length ∧ Verts.length ≤ MN.length) →
      ∃ MV' MN', Infs.foldlM
          (TransformMesh.step UnTransformPoint UnTransformVector BoneData Verts Norms) (MV, MN)
          = some (MV', MN')
        ∧ ∀ (p : Nat) (v : V), Verts[p]? = some v →
            MV'[p]? = some (MV[p]?.getD 0 + skinnedPosition UnTransformPoint BoneData Infs v p) := by
  intro Infs
  induction Infs with
  | nil =>
    intro MV MN _ _ hMV _
    refine ⟨MV, MN, rfl, ?_⟩
    intro p v hv
    have hp := lt_length_of_getElem?_eq_some Verts p v hv
    simp [skinnedPosition, List.getElem?_eq_getElem (show p < MV.length by omega)]
  | cons Infl rest ih =>
    intro MV MN hP hB hMV hN
    have hp := hP Infl (List.mem_cons_self _ _)
    have hb := hB Infl (List.mem_cons_self _ _)
    have hmv : Infl.PointIndex < MV.length := by omega
    have e1 : BoneData[Infl.BoneIndex]? = some BoneData[Infl.BoneIndex] :=
      List.getElem?_eq_getElem hb
    have e2 : Verts[Infl.PointIndex]? = some Verts[Infl.PointIndex] :=
      List.getElem?_eq_getElem hp
    have e3 : MV[Infl.PointIndex]? = some MV[Infl.PointIndex] :=
      List.getElem?_eq_getElem hmv
    obtain ⟨st1, hst, hst1, hst2⟩ : ∃ st1 : List V × List V,
        TransformMesh.step UnTransformPoint UnTransformVector BoneData Verts Norms (MV, MN) Infl
          = some st1
        ∧ st1.1 = MV.set Infl.PointIndex (VectorMA MV[Infl.PointIndex] Infl.Weight
            (UnTransformPoint BoneData[Infl.BoneIndex].Transform Verts[Infl.PointIndex]))
        ∧ st1.2.length = MN.length := by
      cases hNorms : Norms with
      | none =>
        refine ⟨(MV.set Infl.PointIndex (VectorMA MV[Infl.PointIndex] Infl.Weight
          (UnTransformPoint BoneData[Infl.BoneIndex].Transform Verts[Infl.PointIndex])), MN),
          ?_, rfl, rfl⟩
        simp only [TransformMesh.step, e1, e2, e3]
      | some N =>
        obtain ⟨h1, h2⟩ := hN N hNorms
        have e4 : N[Infl.PointIndex]? = some N[Infl.PointIndex] :=
          List.getElem?_eq_getElem (by omega)
        have e5 : MN[Infl.PointIndex]? = some MN[Infl.PointIndex] :=
          List.getElem?_eq_getElem (by omega)
        refine ⟨(MV.set Infl.PointIndex (VectorMA MV[Infl.PointIndex] Infl.Weight
          (UnTransformPoint BoneData[Infl.BoneIndex].Transform Verts[Infl.PointIndex])),
          MN.set Infl.PointIndex (VectorMA MN[Infl.PointIndex] Infl.Weight
            (UnTransformVector BoneData[Infl.BoneIndex].Transform N[Infl.PointIndex]))),
          ?_, rfl, by simp⟩
        simp only [TransformMesh.step, e1, e2, e3, e4, e5]
    obtain ⟨MV1, MN1⟩ := st1
    simp only at hst1 hst2
    obtain ⟨MV', MN', hfold, hres⟩ := ih MV1 MN1
      (fun I hI => hP I (List.mem_cons_of_mem _ hI))
      (fun I hI => hB I (List.mem_cons_of_mem _ hI))
      (by rw [hst1]; simpa using hMV)
      (fun N hNs => ⟨(hN N hNs).1, by rw [hst2]; exact (hN N hNs).2⟩)
    refine ⟨MV', MN', ?_, ?_⟩
    · rw [List.foldlM_cons, hst]
      exact hfold
    · intro p v hv
      rw [hres p v hv, skinnedPosition_cons, e1, hst1]
      congr 1
      by_cases h : Infl.PointIndex = p
      · subst h
        have hvv : Verts[Infl.PointIndex] = v := by
          rw [e2] at hv
          exact Option.some.inj hv
        simp only [List.getElem?_set_self hmv, e3, Option.getD_some, if_true, VectorMA, hvv]
        rw [add_assoc]
      · simp only [List.getElem?_set_ne h, if_neg h, zero_add]

/-- The weighted images of one point `x` add up to the weight sum times `x`. -/
theorem skinnedPosition_same_transform {V Q C : Type} [AddCommMonoid V] [Module ℚ V]
    (UnTransformPoint : C → V → V) (BoneData : List (CMeshBoneData V Q C)) (v : V) (p : Nat)
    (T : C) :
    ∀ (Infs : List FVertInfluences),
      (∀ Infl ∈ Infs, Infl.PointIndex = p →
        ∃ data, BoneData[Infl.BoneIndex]? = some data ∧ data.Transform = T) →
      skinnedPosition UnTransformPoint BoneData Infs v p
        = weightSum Infs p • UnTransformPoint T v := by
  intro Infs
  induction Infs with
  | nil => intro _; simp [skinnedPosition, weightSum]
  | cons Infl rest ih =>
    intro h
    rw [skinnedPosition_cons, weightSum_cons, ih (fun I hI => h I (List.mem_cons_of_mem _ hI))]
    by_cases hp : Infl.PointIndex = p
    · obtain ⟨data, hd, hT⟩ := h Infl (List.mem_cons_self _ _) hp
      simp only [if_pos hp, hd, hT, add_smul]
    · simp only [if_neg hp, zero_add]

/-- C6: `TransformMesh` sets the output position of each vertex `p` to the sum over the
influence records of `p` of `Weight` times the image of the reference vertex under the bone's
skin `Transform` (zero without record); when the influencing bones all carry the same
transform `T` and the weights sum to 1 the output is `T(v)`, and `v` itself when `T` fixes
`v` (identity transform). The hypotheses say that the indices of the records lie inside the
arrays they address and that the output arrays hold `NumVerts` elements: the function reads
and writes through raw pointers, outside the arrays its behaviour is undefined. -/
theorem TransformMesh_weighted_sum {V Q C : Type} [AddCommMonoid V] [Module ℚ V]
    (UnTransformPoint UnTransformVector : C → V → V) (BoneData : List (CMeshBoneData V Q C))
    (Infs : List FVertInfluences) (Verts : List V) (Norms : Option (List V))
    (MeshVerts MeshNormals : List V)
    (hP : ∀ Infl ∈ Infs, Infl.PointIndex < Verts.length)
    (hB : ∀ Infl ∈ Infs, Infl.BoneIndex < BoneData.length)
    (hMV : Verts.length ≤ MeshVerts.length)
    (hN : ∀ N, Norms = some N → Verts.length ≤ N.length ∧ Verts.length ≤ MeshNormals.length) :
    ∃ MV MN, TransformMesh UnTransformPoint UnTransformVector BoneData Infs Verts Norms
        MeshVerts MeshNormals = some (MV, MN)
      ∧ ∀ (p : Nat) (v : V), Verts[p]? = some v →
          MV[p]? = some (skinnedPosition UnTransformPoint BoneData Infs v p)
          ∧ ((∀ Infl ∈ Infs, Infl.PointIndex ≠ p) → MV[p]? = some 0)
          ∧ (∀ T : C, (∀ Infl ∈ Infs, Infl.PointIndex = p →
                ∃ data, BoneData[Infl.BoneIndex]? = some data ∧ data.Transform = T) →
              weightSum Infs p = 1 →
              MV[p]? = some (UnTransformPoint T v)
                ∧ (UnTransformPoint T v = v → MV[p]? = some v)) := by
  have hz : memsetZero MeshVerts Verts.length
      = some (List.replicate Verts.length 0 ++ MeshVerts.drop Verts.length) := by
    simp only [memsetZero, if_pos hMV]
  have hzn : ∃ MN0, (match Norms with
        | none => some MeshNormals
        | some _ => memsetZero MeshNormals Verts.length) = some MN0
      ∧ (∀ N, Norms = some N → Verts.length ≤ N.length ∧ Verts.length ≤ MN0.length) := by
    cases hNorms : Norms with
    | none => exact ⟨MeshNormals, rfl, fun N h => by simp at h⟩
    | some N =>
      have h2 := (hN N hNorms).2
      refine ⟨List.replicate Verts.length 0 ++ MeshNormals.drop Verts.length, ?_, ?_⟩
      · simp only [memsetZero, if_pos h2]
      · intro N2 hN2
        cases hN2
        exact ⟨(hN N hNorms).1, by simp⟩
  obtain ⟨MN0, hMN0, hN0⟩ := hzn
  obtain ⟨MV, MN, hfold, hres⟩ := TransformMesh.influenceLoop_spec UnTransformPoint UnTransformVector
    BoneData Verts Norms Infs (List.replicate Verts.length 0 ++ MeshVerts.drop Verts.length) MN0
    hP hB (by simp) hN0
  refine ⟨MV, MN, ?_, ?_⟩
  · simp only [TransformMesh, hz, hMN0]
    exact hfold
  · intro p v hv
    have hp := lt_length_of_getElem?_eq_some Verts p v hv
    have h0 : (List.replicate Verts.length (0 : V) ++ MeshVerts.drop Verts.length)[p]?
        = some 0 := by
      rw [List.getElem?_append_left (by simpa using hp)]
      simp [List.getElem?_replicate, hp]
    have hsum : MV[p]? = some (skinnedPosition UnTransformPoint BoneData Infs v p) := by
      rw [hres p v hv, h0]
      simp
    refine ⟨hsum, ?_, ?_⟩
    · intro hno
      rw [hsum]
      congr 1
      unfold skinnedPosition
      have : Infs.filter (fun Infl => Infl.PointIndex = p) = [] := by
        rw [List.filter_eq_nil_iff]
        intro I hI
        simpa using hno I hI
      rw [this]
      rfl
    · intro T hT hw
      have hTv : MV[p]? = some (UnTransformPoint T v) := by
        rw [hsum, skinnedPosition_same_transform UnTransformPoint BoneData v p T Infs hT, hw,
          one_smul]
      exact ⟨hTv, fun hid => by rw [hTv, hid]⟩


/-- C6 at the input of the specification: one vertex with weights 1/4 and 3/4 on two bones
whose skin transforms are the identity; the skinned position is the reference vertex. -/
theorem TransformMesh_weighted_sum_witness :
    ∃ MV MN, TransformMesh (fun (_ : Unit) (v : ℚ × ℚ × ℚ) => v) (fun _ v => v)
        [(⟨0, (), (), 1, 1, 0, (), (), 0, ()⟩ : CMeshBoneData (ℚ × ℚ × ℚ) Unit Unit),
          ⟨1, (), (), 0, 1, 0, (), (), 0, ()⟩]
        [⟨1 / 4, 0, 0⟩, ⟨3 / 4, 0, 1⟩] [(1, 2, 3)] none [(9, 9, 9)] [] = some (MV, MN)
      ∧ MV[0]? = some (1, 2, 3) := by
  obtain ⟨MV, MN, h1, h2⟩ := TransformMesh_weighted_sum
    (fun (_ : Unit) (v : ℚ × ℚ × ℚ) => v) (fun _ v => v)
    [(⟨0, (), (), 1, 1, 0, (), (), 0, ()⟩ : CMeshBoneData (ℚ × ℚ × ℚ) Unit Unit),
      ⟨1, (), (), 0, 1, 0, (), (), 0, ()⟩]
    [⟨1 / 4, 0, 0⟩, ⟨3 / 4, 0, 1⟩] [(1, 2, 3)] none [(9, 9, 9)] []
    (by decide) (by decide) (by decide) (by intro N h; cases h)
  refine ⟨MV, MN, h1, ?_⟩
  exact ((h2 0 (1, 2, 3) rfl).2.2 () (by
    intro Infl hI _
    simp only [List.mem_cons, List.mem_singleton, List.not_mem_nil, or_false] at hI
    rcases hI with h | h
    · subst h; exact ⟨_, rfl, rfl⟩
    · subst h; exact ⟨_, rfl, rfl⟩) (by decide!)).2 rfl


/-! ## `UpdateAnimation`: time advance of one channel -/

theorem UpdateAnimation.tween_idle (TimeDelta : ℚ) (Chn : CAnimChan) (hT : Chn.TweenTime = 0) :
    UpdateAnimation.tween TimeDelta Chn = some (TimeDelta, Chn) := by
  simp [UpdateAnimation.tween, hT]

/-! ### The rounded definitions without rounding -/

theorem UpdateAnimation.channelRounded_id (AnimSeqs : List FMeshAnimSeq) (TimeDelta : ℚ)
    (Chn : CAnimChan) :
    UpdateAnimation.channelRounded id AnimSeqs TimeDelta Chn
      = UpdateAnimation.channel AnimSeqs TimeDelta Chn := rfl

theorem UpdateAnimation.tweenRounded_idle (fl : ℚ → ℚ) (TimeDelta : ℚ) (Chn : CAnimChan)
    (hT : Chn.TweenTime = 0) :
    UpdateAnimation.tweenRounded fl TimeDelta Chn = some (TimeDelta, Chn) := by
  simp [UpdateAnimation.tweenRounded, hT]

/-- A channel without active tween passes the elapsed time on unchanged, and its update is
the time block alone. -/
theorem UpdateAnimation.channelRounded_idle (fl : ℚ → ℚ) (AnimSeqs : List FMeshAnimSeq)
    (d d' : ℚ) (Chn Chn' : CAnimChan) (hT : Chn.TweenTime = 0)
    (h : UpdateAnimation.channelRounded fl AnimSeqs d Chn = some (d', Chn')) :
    d' = d ∧ UpdateAnimation.timeRounded fl AnimSeqs d Chn = some Chn' := by
  simp only [UpdateAnimation.channelRounded, UpdateAnimation.tweenRounded_idle fl d Chn hT] at h
  cases ht : UpdateAnimation.timeRounded fl AnimSeqs d Chn with
  | none => simp [ht] at h
  | some c =>
    simp only [ht, Option.some.injEq, Prod.mk.injEq] at h
    exact ⟨h.1.symm, by rw [h.2]⟩

/-- A channel whose tween does not end with an overshoot (no tween, or the remaining tween
time `TweenTime - TimeDelta` not negative) passes the elapsed time on unchanged. -/
theorem UpdateAnimation.channelRounded_elapsed (fl : ℚ → ℚ) (AnimSeqs : List FMeshAnimSeq)
    (d d' : ℚ) (Chn Chn' : CAnimChan)
    (hT : Chn.TweenTime = 0 ∨ ¬ fl (Chn.TweenTime - d) < 0)
    (h : UpdateAnimation.channelRounded fl AnimSeqs d Chn = some (d', Chn')) : d' = d := by
  by_cases h0 : Chn.TweenTime = 0
  · exact (UpdateAnimation.channelRounded_idle fl AnimSeqs d d' Chn Chn' h0 h).1
  · have hnn : ¬ fl (Chn.TweenTime - d) < 0 := hT.resolve_left h0
    simp only [UpdateAnimation.channelRounded, UpdateAnimation.tweenRounded, ne_eq, h0,
      not_false_eq_true, if_true, if_neg hnn] at h
    split at h
    · exact absurd h (by simp)
    · rename_i d1 c1 ht
      split at ht
      · simp only [Option.some.injEq, Prod.mk.injEq] at ht
        cases hti : UpdateAnimation.timeRounded fl AnimSeqs d1 c1 with
        | none => simp [hti] at h
        | some c2 =>
          simp only [hti, Option.some.injEq, Prod.mk.injEq] at h
          rw [← h.1, ← ht.1]
      · exact absurd ht (by simp)

/-- The iteration of the stage loop for a channel with an assigned animation is the update of
that channel. -/
theorem UpdateAnimation.stageRounded_assigned {V Q C : Type} (fl : ℚ → ℚ)
    (AnimSeqs : List FMeshAnimSeq) (Stage : Nat) (d d' : ℚ)
    (BD BD' : List (CMeshBoneData V Q C)) (Chn Chn' : CAnimChan) (hA : 0 ≤ Chn.AnimIndex1)
    (h : UpdateAnimation.stageRounded fl AnimSeqs Stage d BD Chn = some ((d', BD'), Chn')) :
    UpdateAnimation.channelRounded fl AnimSeqs d Chn = some (d', Chn') := by
  have hne : ¬ (Stage > 0 ∧ Chn.AnimIndex1 = ANIM_UNASSIGNED) := by
    rintro ⟨_, h2⟩
    rw [h2] at hA
    exact absurd hA (by decide)
  simp only [UpdateAnimation.stageRounded, if_neg hne] at h
  cases hc : UpdateAnimation.channelRounded fl AnimSeqs d Chn with
  | none => simp [hc] at h
  | some r =>
    obtain ⟨d1, c1⟩ := r
    simp only [hc] at h
    split at h
    · cases hg : TArray.get BD c1.RootBone with
      | none => simp [hg] at h
      | some data =>
        simp only [hg, Option.some.injEq, Prod.mk.injEq] at h
        rw [h.1.1, h.2]
    · simp only [Option.some.injEq, Prod.mk.injEq] at h
      rw [h.1.1, h.2]

/-- The iteration of the stage loop for a channel whose tween does not end with an overshoot
leaves the local `TimeDelta` as it was. -/
theorem UpdateAnimation.stageRounded_elapsed {V Q C : Type} (fl : ℚ → ℚ)
    (AnimSeqs : List FMeshAnimSeq) (Stage : Nat) (d d' : ℚ)
    (BD BD' : List (CMeshBoneData V Q C)) (Chn Chn' : CAnimChan)
    (hT : Chn.TweenTime = 0 ∨ ¬ fl (Chn.TweenTime - d) < 0)
    (h : UpdateAnimation.stageRounded fl AnimSeqs Stage d BD Chn = some ((d', BD'), Chn')) :
    d' = d := by
  unfold UpdateAnimation.stageRounded at h
  split at h
  · simp only [Option.some.injEq, Prod.mk.injEq] at h
    exact h.1.1.symm
  · cases hc : UpdateAnimation.channelRounded fl AnimSeqs d Chn with
    | none => simp [hc] at h
    | some r =>
      obtain ⟨d1, c1⟩ := r
      have hd1 := UpdateAnimation.channelRounded_elapsed fl AnimSeqs d d1 Chn c1 hT hc
      simp only [hc] at h
      split at h
      · cases hg : TArray.get BD c1.RootBone with
        | none => simp [hg] at h
        | some data =>
          simp only [hg, Option.some.injEq, Prod.mk.injEq] at h
          rw [← h.1.1, hd1]
      · simp only [Option.some.injEq, Prod.mk.injEq] at h
        rw [← h.1.1, hd1]

/-- The stage loop of `UpdateAnimation`: the channels outside the stages run are untouched,
and every stage run is one iteration of the loop body on the channel as it was at the start;
the iteration receives the starting `TimeDelta` when no earlier channel of the run ends a
tween with an overshoot. -/
theorem UpdateAnimation.stagesRounded_spec {V Q C : Type} (fl : ℚ → ℚ)
    (AnimSeqs : List FMeshAnimSeq) :
    ∀ (n Stage : Nat) (d : ℚ) (BD : List (CMeshBoneData V Q C)) (Chs : List CAnimChan)
      (d' : ℚ) (BD' : List (CMeshBoneData V Q C)) (Chs' : List CAnimChan),
      UpdateAnimation.stagesRounded fl AnimSeqs n Stage d BD Chs = some (d', BD', Chs') →
      (∀ k : Nat, k < Stage ∨ Stage + n ≤ k → Chs'[k]? = Chs[k]?)
        ∧ ∀ (k : Nat) (Chn : CAnimChan), Stage ≤ k → k < Stage + n → Chs[k]? = some Chn →
          ∃ (dk dk' : ℚ) (BDk BDk' : List (CMeshBoneData V Q C)) (Chn' : CAnimChan),
            UpdateAnimation.stageRounded fl AnimSeqs k dk BDk Chn = some ((dk', BDk'), Chn')
              ∧ Chs'[k]? = some Chn'
              ∧ ((∀ (j : Nat) (c : CAnimChan), Stage ≤ j → j < k → Chs[j]? = some c →
                  c.TweenTime = 0 ∨ ¬ fl (c.TweenTime - d) < 0) → dk = d) := by
  intro n
  induction n with
  | zero =>
    intro Stage d BD Chs d' BD' Chs' h
    simp only [UpdateAnimation.stagesRounded, Option.some.injEq, Prod.mk.injEq] at h
    obtain ⟨_, _, h3⟩ := h
    subst h3
    exact ⟨fun _ _ => rfl, fun k _ h1 h2 _ => absurd h2 (by omega)⟩
  | succ n ih =>
    intro Stage d BD Chs d' BD' Chs' h
    rw [UpdateAnimation.stagesRounded] at h
    cases h0 : Chs[Stage]? with
    | none => simp [h0] at h
    | some C0 =>
      simp only [h0] at h
      cases hs : UpdateAnimation.stageRounded fl AnimSeqs Stage d BD C0 with
      | none => simp [hs] at h
      | some r =>
        obtain ⟨⟨d1, BD1⟩, C0'⟩ := r
        simp only [hs] at h
        obtain ⟨hout, hin⟩ := ih (Stage + 1) d1 BD1 (Chs.set Stage C0') d' BD' Chs' h
        have hlt : Stage < Chs.length := by
          by_contra hcon
          rw [List.getElem?_eq_none (by omega)] at h0
          exact absurd h0 (by simp)
        constructor
        · intro k hk
          rw [hout k (by omega), List.getElem?_set_ne (by omega)]
        · intro k Chn hk1 hk2 hget
          by_cases hkS : k = Stage
          · subst hkS
            rw [h0] at hget
            cases hget
            refine ⟨d, d1, BD, BD1, C0', hs, ?_, fun _ => rfl⟩
            rw [hout k (by omega), List.getElem?_set_self hlt]
          · have hget1 : (Chs.set Stage C0')[k]? = some Chn := by
              rw [List.getElem?_set_ne (by omega), hget]
            obtain ⟨dk, dk', BDk, BDk', Chn', h1, h2, h3⟩ :=
              hin k Chn (by omega) (by omega) hget1
            refine ⟨dk, dk', BDk, BDk', Chn', h1, h2, ?_⟩
            intro hidle
            have hd1 : d1 = d :=
              UpdateAnimation.stageRounded_elapsed fl AnimSeqs Stage d d1 BD BD1 C0 C0'
                (hidle Stage C0 (le_refl _) (by omega) h0) hs
            rw [← hd1]
            apply h3
            intro j c hj1 hj2 hjc
            rw [List.getElem?_set_ne (by omega)] at hjc
            rw [hd1]
            exact hidle j c (by omega) hj2 hjc

/-- The function `UpdateAnimation` on a channel with an assigned animation: when the call
completes, either the channel is left as it was (the mesh has no bones, or the stage is not
active), or the channel it leaves is the update of the channel by the loop body, for the
value `d` of the variable `TimeDelta` at the channel's iteration; `d` is the argument of the
call when no earlier channel ends a tween with an overshoot. -/
theorem UpdateAnimation.advanceRounded_channel {V Q C : Type} (fl : ℚ → ℚ)
    (inst inst' : CSkelMeshInstance V Q C)
    (TimeDelta : ℚ) (Anim : UMeshAnimation V Q) (Stage : Nat) (Chn : CAnimChan)
    (hrun : UpdateAnimation.advanceRounded fl inst TimeDelta = some inst')
    (hAnim : inst.Animation = some Anim) (hC : inst.Channels[Stage]? = some Chn)
    (hA : 0 ≤ Chn.AnimIndex1) :
    inst'.Channels[Stage]? = some Chn
      ∨ ∃ (d d' : ℚ) (Chn' : CAnimChan),
        UpdateAnimation.channelRounded fl Anim.AnimSeqs d Chn = some (d', Chn')
          ∧ inst'.Channels[Stage]? = some Chn'
          ∧ ((∀ (j : Nat) (c : CAnimChan), j < Stage → inst.Channels[j]? = some c →
              c.TweenTime = 0 ∨ ¬ fl (c.TweenTime - TimeDelta) < 0) → d = TimeDelta) := by
  by_cases hbones : inst.RefSkeleton.length = 0
  · left
    simp only [UpdateAnimation.advanceRounded, if_pos hbones, Option.some.injEq] at hrun
    rw [← hrun]
    exact hC
  · simp only [UpdateAnimation.advanceRounded, if_neg hbones, hAnim] at hrun
    split at hrun
    · exact absurd hrun (by simp)
    · split at hrun
      · split at hrun
        · exact absurd hrun (by simp)
        · rename_i d1 BD1 Chs1 hst
          simp only [Option.some.injEq] at hrun
          obtain ⟨hout, hin⟩ := UpdateAnimation.stagesRounded_spec fl Anim.AnimSeqs _ 0
            TimeDelta _ inst.Channels d1 BD1 Chs1 hst
          by_cases hS : (Stage : Int) ≤ inst.MaxAnimChannel
          · right
            obtain ⟨dk, dk', BDk, BDk', Chn', h1, h2, h3⟩ :=
              hin Stage Chn (Nat.zero_le _) (by omega) hC
            refine ⟨dk, dk', Chn',
              UpdateAnimation.stageRounded_assigned fl Anim.AnimSeqs Stage dk dk' BDk BDk' Chn
                Chn' hA h1, ?_, ?_⟩
            · rw [← hrun]
              exact h2
            · intro hidle
              exact h3 (fun j c _ hj hc => hidle j c hj hc)
          · left
            rw [← hrun]
            simp only
            rw [hout Stage (Or.inr (by omega))]
            exact hC
      · exact absurd hrun (by simp)

/-- The time block on a looping channel advanced by exactly one sequence duration: when the
product `TimeDelta * Rate1` and the sum `Time + NumFrames` do not round and the wrap count
comes out as 1, the channel is left as it was. -/
theorem UpdateAnimation.timeRounded_full_sequence (fl : ℚ → ℚ) (AnimSeqs : List FMeshAnimSeq)
    (d : ℚ) (Chn Chn' : CAnimChan) (Seq : FMeshAnimSeq)
    (hL : Chn.Looped = true) (hA : TArray.get AnimSeqs Chn.AnimIndex1 = some Seq)
    (hT : Chn.TweenTime = 0)
    (hS : Chn.AnimIndex2 < 0 ∨ Chn.SecondaryBlend = 0)
    (h0 : 0 ≤ Chn.Time)
    (hd : d * Chn.Rate * Seq.Rate = Seq.NumFrames)
    (hx0 : fl Chn.Time = Chn.Time)
    (hx1 : fl (Chn.Rate * Seq.Rate) = Chn.Rate * Seq.Rate)
    (hx2 : fl (d * (Chn.Rate * Seq.Rate)) = d * (Chn.Rate * Seq.Rate))
    (hx3 : fl (Chn.Time + Seq.NumFrames) = Chn.Time + Seq.NumFrames)
    (hx4 : Int.floor (fl ((Chn.Time + Seq.NumFrames) / Seq.NumFrames)) = 1)
    (h : UpdateAnimation.timeRounded fl AnimSeqs d Chn = some Chn') : Chn' = Chn := by
  have hidx : Chn.AnimIndex1 ≥ 0 := ((TArray.get_eq_some_iff _ _ _).mp hA).1
  have hnb : ¬ (Chn.AnimIndex2 ≥ 0 ∧ Chn.SecondaryBlend ≠ 0) := by
    rintro ⟨h2, h3⟩
    rcases hS with h | h
    · omega
    · exact h3 h
  have hrate : UpdateAnimation.Rate1Rounded fl AnimSeqs Chn Seq
      = some (Chn.Rate * Seq.Rate) := by
    simp only [UpdateAnimation.Rate1Rounded, if_neg hnb, hx1]
  have hprod : d * (Chn.Rate * Seq.Rate) = Seq.NumFrames := by
    rw [← mul_assoc, hd]
  have hge : Chn.Time + Seq.NumFrames ≥ Seq.NumFrames := by linarith
  have h32 : toInt32 1 = some 1 := by decide
  rw [hprod] at hx2
  simp only [UpdateAnimation.timeRounded, hT, hidx, and_self, if_true, hA, hrate, hL, hprod,
    hx2, hx3, if_pos hge, hx4, h32] at h
  split at h
  · simp only [Option.some.injEq] at h
    have hback : Chn.Time + Seq.NumFrames - ((1 : Int) : ℚ) * Seq.NumFrames = Chn.Time := by
      push_cast; ring
    rw [← h, hback, hx0]
    cases Chn
    simp only [CAnimChan.mk.injEq, true_and, and_true] at hT hL ⊢
    exact ⟨hT.symm, hL.symm⟩
  · exact absurd h (by simp)

/-- C7 (amended): for a looping channel with an assigned primary animation of `NumFrames`
frames, no active tween and no secondary blend, a starting `Time ≥ 0` (in particular in
`[0, NumFrames)` with `NumFrames > 0`) and a `TimeDelta` with
`TimeDelta * Chn.Rate * Seq.Rate = NumFrames` that reaches the channel's iteration unchanged
(no earlier channel ends a tween with an overshoot in the call), a call of `UpdateAnimation`
that completes leaves the channel's `Time` (indeed the whole channel) as it was, provided the
products `Chn.Rate * Seq.Rate` and `TimeDelta * Rate1` and the sum `Time + NumFrames` do not
round and the wrap count `appFloor(Time / NumFrames)` comes out as 1. The rounding `fl` of
the `float` operations is arbitrary; `fl Chn.Time = Chn.Time` says that the starting `Time`
is a `float`. -/
theorem UpdateAnimation_loop_full_sequence {V Q C : Type} (fl : ℚ → ℚ)
    (inst inst' : CSkelMeshInstance V Q C) (TimeDelta : ℚ) (Anim : UMeshAnimation V Q)
    (Stage : Nat) (Chn : CAnimChan) (Seq : FMeshAnimSeq)
    (hrun : UpdateAnimation.advanceRounded fl inst TimeDelta = some inst')
    (hAnim : inst.Animation = some Anim) (hC : inst.Channels[Stage]? = some Chn)
    (hearlier : ∀ (j : Nat) (c : CAnimChan), j < Stage → inst.Channels[j]? = some c →
      c.TweenTime = 0 ∨ ¬ fl (c.TweenTime - TimeDelta) < 0)
    (hL : Chn.Looped = true) (hA : TArray.get Anim.AnimSeqs Chn.AnimIndex1 = some Seq)
    (hT : Chn.TweenTime = 0)
    (hSec : Chn.AnimIndex2 < 0 ∨ Chn.SecondaryBlend = 0)
    (h0 : 0 ≤ Chn.Time)
    (hd : TimeDelta * Chn.Rate * Seq.Rate = Seq.NumFrames)
    (hx0 : fl Chn.Time = Chn.Time)
    (hx1 : fl (Chn.Rate * Seq.Rate) = Chn.Rate * Seq.Rate)
    (hx2 : fl (TimeDelta * (Chn.Rate * Seq.Rate)) = TimeDelta * (Chn.Rate * Seq.Rate))
    (hx3 : fl (Chn.Time + Seq.NumFrames) = Chn.Time + Seq.NumFrames)
    (hx4 : Int.floor (fl ((Chn.Time + Seq.NumFrames) / Seq.NumFrames)) = 1) :
    ∃ Chn', inst'.Channels[Stage]? = some Chn' ∧ Chn'.Time = Chn.Time ∧ Chn' = Chn := by
  have hidx : 0 ≤ Chn.AnimIndex1 := ((TArray.get_eq_some_iff _ _ _).mp hA).1
  rcases UpdateAnimation.advanceRounded_channel fl inst inst' TimeDelta Anim Stage Chn hrun
      hAnim hC hidx with hsame | ⟨d, d', Chn', hch, hget, hdelta⟩
  · exact ⟨Chn, hsame, rfl, rfl⟩
  · have hdd : d = TimeDelta := hdelta hearlier
    subst hdd
    have htime := (UpdateAnimation.channelRounded_idle fl Anim.AnimSeqs d d' Chn Chn' hT hch).2
    have heq : Chn' = Chn :=
      UpdateAnimation.timeRounded_full_sequence fl Anim.AnimSeqs d Chn Chn' Seq hL hA hT
        hSec h0 hd hx0 hx1 hx2 hx3 hx4 htime
    exact ⟨Chn', hget, by rw [heq], heq⟩

/-- C7 at a concrete input, in single precision: the second of two channels, a 10-frame
looping sequence at frame 3 with rates 2 and 5, `TimeDelta = 1`; the first channel is in a
tween with 1 unit left, which ends without overshoot. -/
theorem UpdateAnimation_loop_full_sequence_witness :
    UpdateAnimation.advanceRounded binary32 (channelsInstance ⟨"run", 10, 5⟩
          [⟨0, INDEX_NONE, 0, 0, 1, 0, 2, 1, 0, true⟩,
            ⟨0, INDEX_NONE, 3, 0, 1 / 2, 0, 2, 0, 0, true⟩]) 1
        = some (channelsInstance ⟨"run", 10, 5⟩
          [⟨0, INDEX_NONE, 0, 0, 1, 0, 2, 0, 1, true⟩,
            ⟨0, INDEX_NONE, 3, 0, 1 / 2, 0, 2, 0, 0, true⟩])
      ∧ ∃ Chn', (channelsInstance ⟨"run", 10, 5⟩
            [⟨0, INDEX_NONE, 0, 0, 1, 0, 2, 0, 1, true⟩,
              ⟨0, INDEX_NONE, 3, 0, 1 / 2, 0, 2, 0, 0, true⟩]).Channels[1]? = some Chn'
        ∧ Chn'.Time = (⟨0, INDEX_NONE, 3, 0, 1 / 2, 0, 2, 0, 0, true⟩ : CAnimChan).Time
        ∧ Chn' = ⟨0, INDEX_NONE, 3, 0, 1 / 2, 0, 2, 0, 0, true⟩ :=
  ⟨by decide!,
    UpdateAnimation_loop_full_sequence binary32
      (channelsInstance ⟨"run", 10, 5⟩
        [⟨0, INDEX_NONE, 0, 0, 1, 0, 2, 1, 0, true⟩,
          ⟨0, INDEX_NONE, 3, 0, 1 / 2, 0, 2, 0, 0, true⟩])
      (channelsInstance ⟨"run", 10, 5⟩
        [⟨0, INDEX_NONE, 0, 0, 1, 0, 2, 0, 1, true⟩,
          ⟨0, INDEX_NONE, 3, 0, 1 / 2, 0, 2, 0, 0, true⟩])
      1 ⟨["root"], [], [⟨"run", 10, 5⟩]⟩ 1 ⟨0, INDEX_NONE, 3, 0, 1 / 2, 0, 2, 0, 0, true⟩
      ⟨"run", 10, 5⟩ (by decide!) rfl rfl
      (by
        intro j c hj hc
        have hj0 : j = 0 := by omega
        subst hj0
        cases hc
        right
        decide!)
      rfl rfl rfl (Or.inl (by decide)) (by norm_num)
      (by norm_num) (by decide!) (by decide!) (by decide!) (by decide!) (by decide!)⟩

/-- C7 fails as stated in single precision: a looping channel on an 8-frame sequence at
`Time = 0.1f` with rates 1 is advanced by `UpdateAnimation(8)`, one full sequence. The sum
`0.1f + 8` rounds to `8.1000004`, and after the wrap `Time` is `0.10000038`, not `0.1f`;
without rounding the call returns to `0.1f`. -/
theorem UpdateAnimation_loop_full_sequence_counterexample :
    binary32 (1 / 10) = 13421773 / 134217728
      ∧ (0 : ℚ) ≤ 13421773 / 134217728 ∧ (13421773 / 134217728 : ℚ) < 8
      ∧ (8 : ℚ) * 1 * 1 = 8
      ∧ (UpdateAnimation.advanceRounded binary32 (channelsInstance ⟨"run", 8, 1⟩
          [⟨0, INDEX_NONE, binary32 (1 / 10), 0, 1, 0, 1, 0, 0, true⟩]) 8).map
            (fun inst => inst.Channels)
        = some [⟨0, INDEX_NONE, 52429 / 524288, 0, 1, 0, 1, 0, 0, true⟩]
      ∧ (52429 / 524288 : ℚ) ≠ 13421773 / 134217728
      ∧ binary32 (13421773 / 134217728 + 8) = 4246733 / 524288
      ∧ (4246733 / 524288 : ℚ) ≠ 13421773 / 134217728 + 8
      ∧ (UpdateAnimation.advance (channelsInstance ⟨"run", 8, 1⟩
          [⟨0, INDEX_NONE, binary32 (1 / 10), 0, 1, 0, 1, 0, 0, true⟩]) 8).map
            (fun inst => inst.Channels)
        = some [⟨0, INDEX_NONE, 13421773 / 134217728, 0, 1, 0, 1, 0, 0, true⟩] := by
  decide!

/-- The update of a non-looping channel with an assigned animation of `NumFrames ≥ 1` frames
and no active tween, by the elapsed time `TimeDelta` that its iteration of the stage loop
receives: for a starting `Time ≥ 0` and a non-negative advance `a = TimeDelta * Rate1` it
leaves `Time = min (Time + a) (NumFrames - 1)`. -/
theorem UpdateAnimation.channel_clamp (AnimSeqs : List FMeshAnimSeq) (TimeDelta : ℚ)
    (Chn : CAnimChan) (Seq : FMeshAnimSeq) (Rate1 : ℚ)
    (hL : Chn.Looped = false) (hA : TArray.get AnimSeqs Chn.AnimIndex1 = some Seq)
    (hN : 1 ≤ Seq.NumFrames) (hT : Chn.TweenTime = 0)
    (hR : UpdateAnimation.Rate1 AnimSeqs Chn Seq = some Rate1)
    (h0 : 0 ≤ Chn.Time) (ha : 0 ≤ TimeDelta * Rate1) :
    ∃ Chn', UpdateAnimation.channel AnimSeqs TimeDelta Chn = some (TimeDelta, Chn')
      ∧ Chn'.Time = min (Chn.Time + TimeDelta * Rate1) (Seq.NumFrames - 1)
      ∧ 0 ≤ Chn'.Time ∧ Chn'.Time ≤ Seq.NumFrames - 1
      ∧ (Seq.NumFrames - 1 ≤ Chn.Time + TimeDelta * Rate1 → Chn'.Time = Seq.NumFrames - 1) := by
  have hidx : Chn.AnimIndex1 ≥ 0 := ((TArray.get_eq_some_iff _ _ _).mp hA).1
  by_cases hc : Chn.Time + TimeDelta * Rate1 ≥ Seq.NumFrames - 1
  · have hneg : ¬ (Seq.NumFrames - 1 < 0) := by linarith
    refine ⟨{ Chn with Time := Seq.NumFrames - 1 }, ?_, ?_, ?_, ?_, fun _ => rfl⟩
    · simp only [UpdateAnimation.channel, UpdateAnimation.tween_idle TimeDelta Chn hT,
        UpdateAnimation.time, hT, hidx, and_self, if_true, hA, hR, hL, if_pos hc, if_neg hneg]
      simp
    · simp only [min_eq_right hc]
    · simp only; linarith
    · simp only [le_refl]
  · have hlt : Chn.Time + TimeDelta * Rate1 < Seq.NumFrames - 1 := not_le.mp hc
    refine ⟨{ Chn with Time := Chn.Time + TimeDelta * Rate1 }, ?_, ?_, ?_, ?_, ?_⟩
    · simp only [UpdateAnimation.channel, UpdateAnimation.tween_idle TimeDelta Chn hT,
        UpdateAnimation.time, hT, hidx, and_self, if_true, hA, hR, hL, if_neg hc]
      simp
    · simp only [min_eq_left (le_of_lt hlt)]
    · simp only; linarith
    · simp only; linarith
    · intro h; exact absurd h hc

/-- C8: two non-looping channels play a 10-frame sequence at rate 1 (`rate = 1 * 1`), the
second one from `Time = 3` without tween, and `UpdateAnimation(2)` is called, so the advance
is `a = 2` and `min (Time + a) (NumFrames - 1) = 5`. When the first channel has no tween, the
second one ends at 5. When the first channel has 1 unit of tween time left, it overwrites
`TimeDelta` with its overshoot 1, and the second channel ends at 4; no operation of these
calls rounds, and the result is the same in single precision. -/
theorem UpdateAnimation_clamp_after_overshoot :
    min ((3 : ℚ) + 2 * (1 * 1)) (10 - 1) = 5
      ∧ (UpdateAnimation.advance (channelsInstance ⟨"run", 10, 1⟩
          [⟨0, INDEX_NONE, 0, 0, 1, 0, 1, 0, 0, false⟩,
            ⟨0, INDEX_NONE, 3, 0, 1 / 2, 0, 1, 0, 0, false⟩]) 2).map (fun inst => inst.Channels)
        = some [⟨0, INDEX_NONE, 2, 0, 1, 0, 1, 0, 0, false⟩,
            ⟨0, INDEX_NONE, 5, 0, 1 / 2, 0, 1, 0, 0, false⟩]
      ∧ (UpdateAnimation.advance (channelsInstance ⟨"run", 10, 1⟩
          [⟨0, INDEX_NONE, 0, 0, 1, 0, 1, 1, 0, false⟩,
            ⟨0, INDEX_NONE, 3, 0, 1 / 2, 0, 1, 0, 0, false⟩]) 2).map (fun inst => inst.Channels)
        = some [⟨0, INDEX_NONE, 1, 0, 1, 0, 1, 0, 2, false⟩,
            ⟨0, INDEX_NONE, 4, 0, 1 / 2, 0, 1, 0, 0, false⟩]
      ∧ (UpdateAnimation.advanceRounded binary32 (channelsInstance ⟨"run", 10, 1⟩
          [⟨0, INDEX_NONE, 0, 0, 1, 0, 1, 1, 0, false⟩,
            ⟨0, INDEX_NONE, 3, 0, 1 / 2, 0, 1, 0, 0, false⟩]) 2).map (fun inst => inst.Channels)
        = some [⟨0, INDEX_NONE, 1, 0, 1, 0, 1, 0, 2, false⟩,
            ⟨0, INDEX_NONE, 4, 0, 1 / 2, 0, 1, 0, 0, false⟩] := by
  decide!

/-- C9 (amended): for a channel with a primary and a secondary animation assigned and
`SecondaryBlend` exactly 1, and a bone mapped to an animation track that the primary motion
does not disable (`Motion1->BoneIndices` empty, or its entry for the bone not `INDEX_NONE`),
the pose sampled for the bone is `GetBonePosition` of the secondary track alone at
`Time2 = Time / NumFrames1 * NumFrames2`; it is the same for every primary motion with the
same `BoneIndices`, whatever its tracks and frame count. -/
theorem UpdateSkeleton_secondary_blend_one {V Q C : Type} (Lerp : V → V → ℚ → V)
    (Slerp : Q → Q → ℚ → Q) (RefSkeleton : List (FMeshBone V Q)) (Anim : UMeshAnimation V Q)
    (Chn : CAnimChan) (Motion1 Motion2 : MotionChunk V Q) (AnimSeq1 AnimSeq2 : FMeshAnimSeq)
    (A2 : AnalogTrack V Q) (i : Int) (data : CMeshBoneData V Q C) (garbage : V × Q)
    (hM1 : TArray.get Anim.Moves Chn.AnimIndex1 = some Motion1)
    (hS1 : TArray.get Anim.AnimSeqs Chn.AnimIndex1 = some AnimSeq1)
    (hM2 : TArray.get Anim.Moves Chn.AnimIndex2 = some Motion2)
    (hS2 : TArray.get Anim.AnimSeqs Chn.AnimIndex2 = some AnimSeq2)
    (hSB : Chn.SecondaryBlend = 1)
    (hmap : data.BoneMap ≠ INDEX_NONE)
    (hA2 : TArray.get Motion2.AnimTracks data.BoneMap = some A2)
    (hen : Motion1.BoneIndices = [] ∨
      ∃ b, TArray.get Motion1.BoneIndices data.BoneMap = some b ∧ b ≠ INDEX_NONE) :
    UpdateSkeleton.motions (some Anim) Chn
        = some (some (Motion1, AnimSeq1),
            some (Motion2, AnimSeq2, Chn.Time / AnimSeq1.NumFrames * AnimSeq2.NumFrames))
      ∧ UpdateSkeleton.samplePose Lerp Slerp RefSkeleton Chn (some (Motion1, AnimSeq1))
          (some (Motion2, AnimSeq2, Chn.Time / AnimSeq1.NumFrames * AnimSeq2.NumFrames))
          i data garbage
        = GetBonePosition Lerp Slerp A2 (Chn.Time / AnimSeq1.NumFrames * AnimSeq2.NumFrames)
            AnimSeq2.NumFrames Chn.Looped
      ∧ ∀ (Motion1' : MotionChunk V Q) (AnimSeq1' : FMeshAnimSeq) (Time2 : ℚ),
          Motion1'.BoneIndices = Motion1.BoneIndices →
          UpdateSkeleton.samplePose Lerp Slerp RefSkeleton Chn (some (Motion1', AnimSeq1'))
              (some (Motion2, AnimSeq2, Time2)) i data garbage
            = UpdateSkeleton.samplePose Lerp Slerp RefSkeleton Chn (some (Motion1, AnimSeq1))
              (some (Motion2, AnimSeq2, Time2)) i data garbage := by
  have hi1 : Chn.AnimIndex1 ≥ 0 := ((TArray.get_eq_some_iff _ _ _).mp hM1).1
  have hi2 : Chn.AnimIndex2 ≥ 0 := ((TArray.get_eq_some_iff _ _ _).mp hM2).1
  have hsb0 : Chn.SecondaryBlend ≠ 0 := by rw [hSB]; norm_num
  have hsample : ∀ (M1 : MotionChunk V Q) (S1 : FMeshAnimSeq) (Time2 : ℚ),
      M1.BoneIndices = Motion1.BoneIndices →
      UpdateSkeleton.samplePose Lerp Slerp RefSkeleton Chn (some (M1, S1))
          (some (Motion2, AnimSeq2, Time2)) i data garbage
        = GetBonePosition Lerp Slerp A2 Time2 AnimSeq2.NumFrames Chn.Looped := by
    intro M1 S1 Time2 hBI
    have hdis : (if M1.BoneIndices.length ≠ 0 ∧ data.BoneMap ≠ INDEX_NONE then
          (match TArray.get M1.BoneIndices data.BoneMap with
            | none => none
            | some b => some (decide (b = INDEX_NONE)))
          else some false) = some false := by
      rw [hBI]
      rcases hen with h | ⟨b, hb, hne⟩
      · simp [h]
      · simp only [hb, hmap, ne_eq, not_false_eq_true, and_true, decide_eq_false hne]
        split <;> rfl
    have hskip : ¬ ((some (Motion2, AnimSeq2, Time2)).isNone = true ∨ Chn.SecondaryBlend ≠ 1) := by
      simp [hSB]
    simp only [UpdateSkeleton.samplePose]
    rw [hdis]
    simp only [Bool.false_eq_true, if_false, if_pos hmap, if_neg hskip, hA2]
    cases GetBonePosition Lerp Slerp A2 Time2 AnimSeq2.NumFrames Chn.Looped with
    | none => rfl
    | some r => simp only [if_pos hSB]
  refine ⟨?_, hsample Motion1 AnimSeq1 _ rfl, ?_⟩
  · simp only [UpdateSkeleton.motions, hi1, hi2, hM1, hS1, hM2, hS2, hsb0, ge_iff_le, ne_eq,
      not_false_eq_true, and_self, if_true]
  · intro M1 S1 Time2 hBI
    rw [hsample M1 S1 Time2 hBI, hsample Motion1 AnimSeq1 Time2 rfl]


/-- C9 at a concrete input: a 2-frame primary and a 4-frame secondary sequence, channel time
1, hence `Time2 = 2`; bone 0 is mapped to track 0 and the primary motion disables no bone. -/
theorem UpdateSkeleton_secondary_blend_one_witness :
    UpdateSkeleton.motions
        (some (⟨["root"],
          [⟨[⟨[10, 20], [1, 2], [0, 1], [], []⟩], []⟩, ⟨[⟨[30, 40], [3, 4], [0, 2], [], []⟩], []⟩],
          [⟨"a", 2, 1⟩, ⟨"b", 4, 1⟩]⟩ : UMeshAnimation Nat Nat))
        ⟨0, 1, 1, 1, 1, 0, 1, 0, 0, true⟩
        = some (some (⟨[⟨[10, 20], [1, 2], [0, 1], [], []⟩], []⟩, ⟨"a", 2, 1⟩),
            some (⟨[⟨[30, 40], [3, 4], [0, 2], [], []⟩], []⟩, ⟨"b", 4, 1⟩, 1 / 2 * 4))
      ∧ UpdateSkeleton.samplePose (fun (a _ : Nat) (_ : ℚ) => a) (fun (a _ : Nat) (_ : ℚ) => a)
          [⟨"root", 0, 7, 70⟩] ⟨0, 1, 1, 1, 1, 0, 1, 0, 0, true⟩
          (some (⟨[⟨[10, 20], [1, 2], [0, 1], [], []⟩], []⟩, ⟨"a", 2, 1⟩))
          (some (⟨[⟨[30, 40], [3, 4], [0, 2], [], []⟩], []⟩, ⟨"b", 4, 1⟩, 1 / 2 * 4)) 0
          (⟨0, (), (), 0, 1, 0, (), (), 0, 0⟩ : CMeshBoneData Nat Nat Unit) (0, 0)
        = GetBonePosition (fun (a _ : Nat) (_ : ℚ) => a) (fun (a _ : Nat) (_ : ℚ) => a)
            ⟨[30, 40], [3, 4], [0, 2], [], []⟩ (1 / 2 * 4) 4 true :=
  have h := UpdateSkeleton_secondary_blend_one (fun (a _ : Nat) (_ : ℚ) => a)
    (fun (a _ : Nat) (_ : ℚ) => a) [⟨"root", 0, 7, 70⟩]
    (⟨["root"],
      [⟨[⟨[10, 20], [1, 2], [0, 1], [], []⟩], []⟩, ⟨[⟨[30, 40], [3, 4], [0, 2], [], []⟩], []⟩],
      [⟨"a", 2, 1⟩, ⟨"b", 4, 1⟩]⟩ : UMeshAnimation Nat Nat)
    ⟨0, 1, 1, 1, 1, 0, 1, 0, 0, true⟩
    ⟨[⟨[10, 20], [1, 2], [0, 1], [], []⟩], []⟩ ⟨[⟨[30, 40], [3, 4], [0, 2], [], []⟩], []⟩
    ⟨"a", 2, 1⟩ ⟨"b", 4, 1⟩ ⟨[30, 40], [3, 4], [0, 2], [], []⟩ 0
    (⟨0, (), (), 0, 1, 0, (), (), 0, 0⟩ : CMeshBoneData Nat Nat Unit) (0, 0)
    rfl rfl rfl rfl rfl (by decide) rfl (Or.inl rfl)
  ⟨h.1, h.2.1⟩

/-- C9 fails as stated for a bone that the primary motion disables: bone 0 is mapped to
track 0, but `Motion1->BoneIndices[0] == INDEX_NONE`, so with `SecondaryBlend = 1` the stage
samples the reference pose `(7, 70)` and not the secondary track, which gives `(4, 40)`. -/
theorem UpdateSkeleton_secondary_blend_one_counterexample :
    (⟨0, (), (), 0, 1, 0, (), (), 0, 0⟩ : CMeshBoneData Nat Nat Unit).BoneMap ≠ INDEX_NONE
      ∧ UpdateSkeleton.motions
          (some (⟨["root"],
            [⟨[⟨[10, 20], [1, 2], [0, 1], [], []⟩], [INDEX_NONE]⟩,
              ⟨[⟨[30, 40], [3, 4], [0, 2], [], []⟩], []⟩],
            [⟨"a", 2, 1⟩, ⟨"b", 4, 1⟩]⟩ : UMeshAnimation Nat Nat))
          ⟨0, 1, 1, 1, 1, 0, 1, 0, 0, true⟩
        = some (some (⟨[⟨[10, 20], [1, 2], [0, 1], [], []⟩], [INDEX_NONE]⟩, ⟨"a", 2, 1⟩),
            some (⟨[⟨[30, 40], [3, 4], [0, 2], [], []⟩], []⟩, ⟨"b", 4, 1⟩, 2))
      ∧ UpdateSkeleton.samplePose (fun (a _ : Nat) (_ : ℚ) => a) (fun (a _ : Nat) (_ : ℚ) => a)
          [⟨"root", 0, 7, 70⟩] ⟨0, 1, 1, 1, 1, 0, 1, 0, 0, true⟩
          (some (⟨[⟨[10, 20], [1, 2], [0, 1], [], []⟩], [INDEX_NONE]⟩, ⟨"a", 2, 1⟩))
          (some (⟨[⟨[30, 40], [3, 4], [0, 2], [], []⟩], []⟩, ⟨"b", 4, 1⟩, 2)) 0
          (⟨0, (), (), 0, 1, 0, (), (), 0, 0⟩ : CMeshBoneData Nat Nat Unit) (0, 0)
        = some (7, 70)
      ∧ GetBonePosition (fun (a _ : Nat) (_ : ℚ) => a) (fun (a _ : Nat) (_ : ℚ) => a)
          ⟨[30, 40], [3, 4], [0, 2], [], []⟩ 2 4 true = some (4, 40) := by
  decide!

/-- C10: a stage above the base stage whose `BlendAlpha` is exactly 0 writes no bone: the
pose evaluation of that stage returns the array `BoneData` unchanged, so every bone keeps the
pose `(Pos, Quat)` the lower stages left. -/
theorem UpdateSkeleton_stage_zero_alpha {V Q C : Type} (Lerp : V → V → ℚ → V)
    (Slerp : Q → Q → ℚ → Q) (Conjugate : Q → Q) (RefSkeleton : List (FMeshBone V Q))
    (Anim : Option (UMeshAnimation V Q)) (garbage : V × Q) (Stage : Nat) (Chn : CAnimChan)
    (BoneData : List (CMeshBoneData V Q C)) (hStage : 0 < Stage) (hAlpha : Chn.BlendAlpha = 0) :
    UpdateSkeleton.stage Lerp Slerp Conjugate RefSkeleton Anim garbage Stage Chn BoneData
        = some BoneData
      ∧ ∀ (i : Nat) (data data' : CMeshBoneData V Q C) (BoneData' : List (CMeshBoneData V Q C)),
          UpdateSkeleton.stage Lerp Slerp Conjugate RefSkeleton Anim garbage Stage Chn BoneData
            = some BoneData' →
          BoneData[i]? = some data → BoneData'[i]? = some data' →
          data'.Pos = data.Pos ∧ data'.Quat = data.Quat := by
  have hskip : Stage > 0 ∧ (Chn.AnimIndex1 = ANIM_UNASSIGNED ∨ Chn.BlendAlpha ≤ 0) :=
    ⟨hStage, Or.inr (le_of_eq hAlpha)⟩
  have hst : UpdateSkeleton.stage Lerp Slerp Conjugate RefSkeleton Anim garbage Stage Chn BoneData
      = some BoneData := by
    simp only [UpdateSkeleton.stage, if_pos hskip]
  refine ⟨hst, ?_⟩
  intro i data data' BoneData' h1 h2 h3
  rw [hst] at h1
  cases h1
  rw [h2] at h3
  cases h3
  exact ⟨rfl, rfl⟩

/-- C10 at a concrete input: stage 1 plays animation 0 on the subtree of bone 1 with blend
weight 0. -/
theorem UpdateSkeleton_stage_zero_alpha_witness :
    UpdateSkeleton.stage (fun (a _ : Nat) (_ : ℚ) => a) (fun (a _ : Nat) (_ : ℚ) => a) id
        [⟨"root", 0, 7, 70⟩, ⟨"arm", 0, 8, 80⟩]
        (some ⟨["root", "arm"],
          [⟨[⟨[10, 20], [1, 2], [0, 1], [], []⟩, ⟨[30, 40], [3, 4], [0, 1], [], []⟩], []⟩],
          [⟨"a", 2, 1⟩]⟩)
        (0, 0) 1 ⟨0, INDEX_NONE, 1, 0, 0, 1, 1, 0, 0, true⟩
        [(⟨0, (), (), 1, 1, 0, (), (), 5, 50⟩ : CMeshBoneData Nat Nat Unit),
          ⟨1, (), (), 0, 1, 0, (), (), 6, 60⟩]
      = some [⟨0, (), (), 1, 1, 0, (), (), 5, 50⟩, ⟨1, (), (), 0, 1, 0, (), (), 6, 60⟩] :=
  (UpdateSkeleton_stage_zero_alpha (fun (a _ : Nat) (_ : ℚ) => a) (fun (a _ : Nat) (_ : ℚ) => a)
    id [⟨"root", 0, 7, 70⟩, ⟨"arm", 0, 8, 80⟩]
    (some ⟨["root", "arm"],
      [⟨[⟨[10, 20], [1, 2], [0, 1], [], []⟩, ⟨[30, 40], [3, 4], [0, 1], [], []⟩], []⟩],
      [⟨"a", 2, 1⟩]⟩)
    (0, 0) 1 ⟨0, INDEX_NONE, 1, 0, 0, 1, 1, 0, 0, true⟩
    [(⟨0, (), (), 1, 1, 0, (), (), 5, 50⟩ : CMeshBoneData Nat Nat Unit),
      ⟨1, (), (), 0, 1, 0, (), (), 6, 60⟩] (by decide) rfl).1

/-! ## Lookups: `FindBone`, `FindAnim`, `SetBoneScale` -/

/-- The lookup loop of `FindBone` started at index `i`: the result is `INDEX_NONE` exactly
when no bone has the name, and otherwise `i` plus the position of the first bone with the
name. -/
theorem FindBone.loop_spec {V Q : Type} (BoneName : String) :
    ∀ (Bones : List (FMeshBone V Q)) (i : Nat),
      (FindBone.loop BoneName Bones i = INDEX_NONE ∧ ∀ B ∈ Bones, B.Name ≠ BoneName)
      ∨ ∃ k : Nat, FindBone.loop BoneName Bones i = ((i + k : Nat) : Int)
          ∧ (∃ B, Bones[k]? = some B ∧ B.Name = BoneName)
          ∧ ∀ (j : Nat) (B : FMeshBone V Q), j < k → Bones[j]? = some B → B.Name ≠ BoneName := by
  intro Bones
  induction Bones with
  | nil => intro i; exact Or.inl ⟨rfl, fun B hB => by simp at hB⟩
  | cons B rest ih =>
    intro i
    by_cases h : B.Name = BoneName
    · refine Or.inr ⟨0, by simp [FindBone.loop, h], ⟨B, by simp, h⟩, fun j _ hj => by omega⟩
    · rcases ih (i + 1) with ⟨h1, h2⟩ | ⟨k, h1, ⟨B2, hB2, hn⟩, h3⟩
      · refine Or.inl ⟨?_, ?_⟩
        · have : FindBone.loop BoneName (B :: rest) (i : Int)
              = FindBone.loop BoneName rest ((i + 1 : Nat) : Int) := by
            simp [FindBone.loop, h]
          rw [this]; exact h1
        · intro B' hB'
          rcases List.mem_cons.mp hB' with e | e
          · rw [e]; exact h
          · exact h2 B' e
      · refine Or.inr ⟨k + 1, ?_, ⟨B2, by simpa using hB2, hn⟩, ?_⟩
        · have : FindBone.loop BoneName (B :: rest) (i : Int)
              = FindBone.loop BoneName rest ((i + 1 : Nat) : Int) := by
            simp [FindBone.loop, h]
          rw [this, h1]
          congr 1
          omega
        · intro j B' hj hB'
          cases j with
          | zero =>
            simp at hB'
            rw [← hB']; exact h
          | succ j => exact h3 j B' (by omega) (by simpa using hB')

/-- The lookup loop of `FindAnim` started at index `i`, as for `FindBone`. -/
theorem FindAnim.loop_found (AnimName : String) :
    ∀ (Seqs : List FMeshAnimSeq) (i : Nat),
      (FindAnim.loop AnimName Seqs i = INDEX_NONE ∧ ∀ S ∈ Seqs, S.Name ≠ AnimName)
      ∨ ∃ k : Nat, FindAnim.loop AnimName Seqs i = ((i + k : Nat) : Int)
          ∧ (∃ S, Seqs[k]? = some S ∧ S.Name = AnimName)
          ∧ ∀ (j : Nat) (S : FMeshAnimSeq), j < k → Seqs[j]? = some S → S.Name ≠ AnimName := by
  intro Seqs
  induction Seqs with
  | nil => intro i; exact Or.inl ⟨rfl, fun B hB => by simp at hB⟩
  | cons B rest ih =>
    intro i
    by_cases h : B.Name = AnimName
    · refine Or.inr ⟨0, by simp [FindAnim.loop, h], ⟨B, by simp, h⟩, fun j _ hj => by omega⟩
    · rcases ih (i + 1) with ⟨h1, h2⟩ | ⟨k, h1, ⟨B2, hB2, hn⟩, h3⟩
      · refine Or.inl ⟨?_, ?_⟩
        · have : FindAnim.loop AnimName (B :: rest) (i : Int)
              = FindAnim.loop AnimName rest ((i + 1 : Nat) : Int) := by
            simp [FindAnim.loop, h]
          rw [this]; exact h1
        · intro B' hB'
          rcases List.mem_cons.mp hB' with e | e
          · rw [e]; exact h
          · exact h2 B' e
      · refine Or.inr ⟨k + 1, ?_, ⟨B2, by simpa using hB2, hn⟩, ?_⟩
        · have : FindAnim.loop AnimName (B :: rest) (i : Int)
              = FindAnim.loop AnimName rest ((i + 1 : Nat) : Int) := by
            simp [FindAnim.loop, h]
          rw [this, h1]
          congr 1
          omega
        · intro j B' hj hB'
          cases j with
          | zero =>
            simp at hB'
            rw [← hB']; exact h
          | succ j => exact h3 j B' (by omega) (by simpa using hB')

/-- C15: `FindBone` returns the smallest index whose bone name equals the given name, and
`INDEX_NONE` if and only if no bone has that name; `FindAnim` does the same over the
animation sequences and returns `INDEX_NONE` whenever the mesh has no animation set or the
name is null; `SetBoneScale` with a name that `FindBone` does not find changes nothing. -/
theorem FindBone_FindAnim_SetBoneScale_spec {V Q C : Type} (inst : CSkelMeshInstance V Q C)
    (BoneName AnimName : String) (scale : ℚ) :
    ((FindBone inst BoneName = INDEX_NONE ∧ ∀ B ∈ inst.RefSkeleton, B.Name ≠ BoneName)
      ∨ ∃ k : Nat, FindBone inst BoneName = (k : Int)
          ∧ (∃ B, inst.RefSkeleton[k]? = some B ∧ B.Name = BoneName)
          ∧ ∀ (j : Nat) (B : FMeshBone V Q), j < k → inst.RefSkeleton[j]? = some B →
              B.Name ≠ BoneName)
    ∧ (FindBone inst BoneName = INDEX_NONE ↔ ∀ B ∈ inst.RefSkeleton, B.Name ≠ BoneName)
    ∧ (∀ Anim, inst.Animation = some Anim →
        ((FindAnim inst (some AnimName) = INDEX_NONE ∧ ∀ S ∈ Anim.AnimSeqs, S.Name ≠ AnimName)
          ∨ ∃ k : Nat, FindAnim inst (some AnimName) = (k : Int)
              ∧ (∃ S, Anim.AnimSeqs[k]? = some S ∧ S.Name = AnimName)
              ∧ ∀ (j : Nat) (S : FMeshAnimSeq), j < k → Anim.AnimSeqs[j]? = some S →
                  S.Name ≠ AnimName)
        ∧ (FindAnim inst (some AnimName) = INDEX_NONE ↔ ∀ S ∈ Anim.AnimSeqs, S.Name ≠ AnimName))
    ∧ (inst.Animation = none → ∀ name, FindAnim inst name = INDEX_NONE)
    ∧ FindAnim inst none = INDEX_NONE
    ∧ (FindBone inst BoneName = INDEX_NONE → SetBoneScale inst BoneName scale = some inst) := by
  have hb := FindBone.loop_spec BoneName inst.RefSkeleton 0
  have hbone : (FindBone inst BoneName = INDEX_NONE ∧ ∀ B ∈ inst.RefSkeleton, B.Name ≠ BoneName)
      ∨ ∃ k : Nat, FindBone inst BoneName = (k : Int)
          ∧ (∃ B, inst.RefSkeleton[k]? = some B ∧ B.Name = BoneName)
          ∧ ∀ (j : Nat) (B : FMeshBone V Q), j < k → inst.RefSkeleton[j]? = some B →
              B.Name ≠ BoneName := by
    rcases hb with h | ⟨k, h1, h2, h3⟩
    · exact Or.inl h
    · exact Or.inr ⟨k, by simpa [FindBone] using h1, h2, h3⟩
  refine ⟨hbone, ?_, ?_, ?_, ?_, ?_⟩
  · constructor
    · intro hnone
      rcases hbone with h | ⟨k, h1, _, _⟩
      · exact h.2
      · rw [h1] at hnone
        simp only [INDEX_NONE] at hnone
        omega
    · intro hall
      rcases hbone with h | ⟨k, _, ⟨B, hB, hn⟩, _⟩
      · exact h.1
      · exact absurd hn (hall B (List.getElem?_mem hB))
  · intro Anim hA
    have ha := FindAnim.loop_found AnimName Anim.AnimSeqs 0
    have hanim : (FindAnim inst (some AnimName) = INDEX_NONE
          ∧ ∀ S ∈ Anim.AnimSeqs, S.Name ≠ AnimName)
        ∨ ∃ k : Nat, FindAnim inst (some AnimName) = (k : Int)
            ∧ (∃ S, Anim.AnimSeqs[k]? = some S ∧ S.Name = AnimName)
            ∧ ∀ (j : Nat) (S : FMeshAnimSeq), j < k → Anim.AnimSeqs[j]? = some S →
                S.Name ≠ AnimName := by
      rcases ha with h | ⟨k, h1, h2, h3⟩
      · exact Or.inl (by simpa [FindAnim, hA] using h)
      · exact Or.inr ⟨k, by simpa [FindAnim, hA] using h1, h2, h3⟩
    refine ⟨hanim, ?_, ?_⟩
    · intro hnone
      rcases hanim with h | ⟨k, h1, _, _⟩
      · exact h.2
      · rw [h1] at hnone
        simp only [INDEX_NONE] at hnone
        omega
    · intro hall
      rcases hanim with h | ⟨k, _, ⟨S, hS, hn⟩, _⟩
      · exact h.1
      · exact absurd hn (hall S (List.getElem?_mem hS))
  · intro hA name
    simp [FindAnim, hA]
  · unfold FindAnim
    cases inst.Animation <;> rfl
  · intro h
    simp only [SetBoneScale, h, if_true]

/-- C15 at a concrete input: three bones, two of them named "arm": the first one is found; a
name that no bone has gives `INDEX_NONE`. -/
theorem FindBone_FindAnim_SetBoneScale_spec_witness :
    FindBone (⟨[⟨"root", 0, (), ()⟩, ⟨"arm", 0, (), ()⟩, ⟨"arm", 1, (), ()⟩], none, [], [], 0⟩ :
        CSkelMeshInstance Unit Unit Unit) "arm" = 1
      ∧ FindBone (⟨[⟨"root", 0, (), ()⟩, ⟨"arm", 0, (), ()⟩, ⟨"arm", 1, (), ()⟩], none, [], [],
          0⟩ : CSkelMeshInstance Unit Unit Unit) "leg" = INDEX_NONE := by
  refine ⟨by decide, ?_⟩
  exact (FindBone_FindAnim_SetBoneScale_spec
    (⟨[⟨"root", 0, (), ()⟩, ⟨"arm", 0, (), ()⟩, ⟨"arm", 1, (), ()⟩], none, [], [], 0⟩ :
      CSkelMeshInstance Unit Unit Unit) "leg" "run" 1).2.1.mpr (by decide)

/-! ## `GetBonePosition`: fast path -/

/-- C16: for a track with at least one position key and one orientation key, if the track has
exactly one timestamp, or `NumFrames == 1`, or `Frame == 0`, `GetBonePosition` returns
`(KeyPos[0], KeyQuat[0])`, for either loop flag and whatever the other keys are. -/
theorem GetBonePosition_fast_path {V Q : Type} (Lerp : V → V → ℚ → V) (Slerp : Q → Q → ℚ → Q)
    (A : AnalogTrack V Q) (Frame NumFrames : ℚ) (Loop : Bool) (p : V) (q : Q)
    (hp : A.KeyPos[0]? = some p) (hq : A.KeyQuat[0]? = some q)
    (hfast : A.KeyTime.length = 1 ∨ NumFrames = 1 ∨ Frame = 0) :
    GetBonePosition Lerp Slerp A Frame NumFrames Loop = some (p, q) := by
  have h1 : TArray.get A.KeyPos 0 = some p := by simpa [TArray.get] using hp
  have h2 : TArray.get A.KeyQuat 0 = some q := by simpa [TArray.get] using hq
  simp only [GetBonePosition, if_pos hfast, h1, h2]

/-- C16 at a concrete input: three keys, a 1-frame sequence, sampled at frame 2. -/
theorem GetBonePosition_fast_path_witness :
    GetBonePosition (fun (a _ : Nat) (_ : ℚ) => a) (fun (a _ : Nat) (_ : ℚ) => a)
      ⟨[10, 20, 30], [1, 2, 3], [0, 1, 2], [], []⟩ 2 1 true = some (1, 10) :=
  GetBonePosition_fast_path (fun (a _ : Nat) (_ : ℚ) => a) (fun (a _ : Nat) (_ : ℚ) => a)
    ⟨[10, 20, 30], [1, 2, 3], [0, 1, 2], [], []⟩ 2 1 true 1 10 rfl rfl (Or.inr (Or.inl rfl))

/-! ## Animation setup -/

theorem TArray.get_set_self {α : Type} (a : List α) (i : Int) (x y : α)
    (h : TArray.get a i = some x) : TArray.get (a.set i.toNat y) i = some y := by
  obtain ⟨h0, h1⟩ := (TArray.get_eq_some_iff a i x).mp h
  have hlt := lt_length_of_getElem?_eq_some a i.toNat x h1
  simp [TArray.get, h0, List.getElem?_set_self hlt]

theorem FindAnim_MaxAnimChannel {V Q C : Type} (inst : CSkelMeshInstance V Q C) (c : Int)
    (AnimName : Option String) :
    FindAnim { inst with MaxAnimChannel := c } AnimName = FindAnim inst AnimName := rfl

/-- With `Time == 0` the tween block passes its assertion; it changes only `TweenTime` and
`TweenStep`. -/
theorem UpdateAnimation.tween_of_time_zero (TimeDelta : ℚ) (Chn : CAnimChan)
    (hT : Chn.Time = 0) :
    ∃ td Chn', UpdateAnimation.tween TimeDelta Chn = some (td, Chn')
      ∧ Chn'.AnimIndex1 = Chn.AnimIndex1 ∧ Chn'.Time = 0 := by
  unfold UpdateAnimation.tween
  by_cases htw : Chn.TweenTime ≠ 0
  · by_cases hneg : Chn.TweenTime - TimeDelta < 0
    · exact ⟨-(Chn.TweenTime - TimeDelta),
        { Chn with TweenStep := TimeDelta / Chn.TweenTime, TweenTime := 0 },
        by simp only [if_pos htw, if_pos hneg, hT, if_true], rfl, hT⟩
    · exact ⟨TimeDelta,
        { Chn with TweenStep := TimeDelta / Chn.TweenTime,
                   TweenTime := Chn.TweenTime - TimeDelta },
        by simp only [if_pos htw, if_neg hneg, hT, if_true], rfl, hT⟩
  · exact ⟨TimeDelta, Chn, by simp only [if_neg htw], rfl, hT⟩

/-- A channel in the default-pose state (`AnimIndex1 == INDEX_NONE`, `Time == 0`) stays in
it through the update of `UpdateAnimation`, whatever its tween state. -/
theorem UpdateAnimation.channel_default_pose (AnimSeqs : List FMeshAnimSeq) (TimeDelta : ℚ)
    (Chn : CAnimChan) (hA : Chn.AnimIndex1 = INDEX_NONE) (hT : Chn.Time = 0) :
    ∃ td Chn', UpdateAnimation.channel AnimSeqs TimeDelta Chn = some (td, Chn')
      ∧ Chn'.AnimIndex1 = INDEX_NONE ∧ Chn'.Time = 0 := by
  obtain ⟨td, c, h1, h2, h3⟩ := UpdateAnimation.tween_of_time_zero TimeDelta Chn hT
  have h : ¬ (c.TweenTime = 0 ∧ c.AnimIndex1 ≥ 0) := by
    rw [h2, hA]; simp [INDEX_NONE]
  refine ⟨td, c, ?_, h2.trans hA, h3⟩
  simp only [UpdateAnimation.channel, h1, UpdateAnimation.time, if_neg h]

theorem UpdateAnimation.ticks_default_pose (AnimSeqs : List FMeshAnimSeq) :
    ∀ (TimeDeltas : List ℚ) (Chn : CAnimChan), Chn.AnimIndex1 = INDEX_NONE → Chn.Time = 0 →
      ∃ Chn', UpdateAnimation.ticks AnimSeqs TimeDeltas Chn = some Chn'
        ∧ Chn'.AnimIndex1 = INDEX_NONE ∧ Chn'.Time = 0 := by
  intro TimeDeltas
  induction TimeDeltas with
  | nil => intro Chn hA hT; exact ⟨Chn, rfl, hA, hT⟩
  | cons td rest ih =>
    intro Chn hA hT
    obtain ⟨td', Chn1, h1, hA1, hT1⟩ :=
      UpdateAnimation.channel_default_pose AnimSeqs td Chn hA hT
    obtain ⟨Chn2, h2, hA2, hT2⟩ := ih Chn1 hA1 hT1
    exact ⟨Chn2, by simp only [UpdateAnimation.ticks, h1, h2], hA2, hT2⟩

/-- C12: when `FindAnim` does not find the name, `PlayAnimInternal` puts the channel in the
default-pose state (`AnimIndex1 = AnimIndex2 = INDEX_NONE`, `Time = 0`, `Rate = 0`,
`Looped = false`, `SecondaryBlend = 0`, `TweenTime` the requested tween); in every following
evaluation pass the channel's `Time` stays 0 and the pose sampled for each bone is the bone's
reference position and orientation. -/
theorem PlayAnimInternal_not_found {V Q C : Type} (Lerp : V → V → ℚ → V)
    (Slerp : Q → Q → ℚ → Q) (inst : CSkelMeshInstance V Q C) (AnimName : Option String)
    (Rate TweenTime : ℚ) (Channel : Int) (Looped : Bool) (Chn : CAnimChan)
    (hC : GetStage inst Channel = some Chn) (hF : FindAnim inst AnimName = INDEX_NONE) :
    ∃ inst', PlayAnimInternal inst AnimName Rate TweenTime Channel Looped = some inst'
      ∧ inst'.RefSkeleton = inst.RefSkeleton ∧ inst'.Animation = inst.Animation
      ∧ GetStage inst' Channel = some
          { Chn with
            AnimIndex1 := INDEX_NONE
            AnimIndex2 := INDEX_NONE
            Time := 0
            Rate := 0
            Looped := false
            TweenTime := TweenTime
            SecondaryBlend := 0 }
      ∧ ∀ (AnimSeqs : List FMeshAnimSeq) (TimeDeltas : List ℚ),
          ∃ Chn', UpdateAnimation.ticks AnimSeqs TimeDeltas
              { Chn with
                AnimIndex1 := INDEX_NONE
                AnimIndex2 := INDEX_NONE
                Time := 0
                Rate := 0
                Looped := false
                TweenTime := TweenTime
                SecondaryBlend := 0 } = some Chn'
            ∧ Chn'.Time = 0
            ∧ UpdateSkeleton.motions inst'.Animation Chn' = some (none, none)
            ∧ ∀ (i : Int) (data : CMeshBoneData V Q C) (garbage : V × Q) (B : FMeshBone V Q),
                TArray.get inst'.RefSkeleton i = some B →
                UpdateSkeleton.samplePose Lerp Slerp inst'.RefSkeleton Chn' none none i data
                  garbage = some (B.Position, B.Orientation) := by
  have hF2 : ∀ c, FindAnim { inst with MaxAnimChannel := c } AnimName = INDEX_NONE :=
    fun c => by rw [FindAnim_MaxAnimChannel]; exact hF
  have hticks : ∀ (AnimSeqs : List FMeshAnimSeq) (TimeDeltas : List ℚ)
      (R : List (FMeshBone V Q)) (A : Option (UMeshAnimation V Q)),
      ∃ Chn', UpdateAnimation.ticks AnimSeqs TimeDeltas
          { Chn with
            AnimIndex1 := INDEX_NONE
            AnimIndex2 := INDEX_NONE
            Time := 0
            Rate := 0
            Looped := false
            TweenTime := TweenTime
            SecondaryBlend := 0 } = some Chn'
        ∧ Chn'.Time = 0
        ∧ UpdateSkeleton.motions A Chn' = some (none, none)
        ∧ ∀ (i : Int) (data : CMeshBoneData V Q C) (garbage : V × Q) (B : FMeshBone V Q),
            TArray.get R i = some B →
            UpdateSkeleton.samplePose Lerp Slerp R Chn' none none i data garbage
              = some (B.Position, B.Orientation) := by
    intro AnimSeqs TimeDeltas R A
    obtain ⟨Chn', h1, hA, hT⟩ := UpdateAnimation.ticks_default_pose AnimSeqs TimeDeltas
      { Chn with
        AnimIndex1 := INDEX_NONE
        AnimIndex2 := INDEX_NONE
        Time := 0
        Rate := 0
        Looped := false
        TweenTime := TweenTime
        SecondaryBlend := 0 } rfl rfl
    refine ⟨Chn', h1, hT, ?_, ?_⟩
    · have : ¬ (Chn'.AnimIndex1 ≥ 0) := by rw [hA]; simp [INDEX_NONE]
      simp only [UpdateSkeleton.motions, if_neg this]
    · intro i data garbage B hB
      simp only [UpdateSkeleton.samplePose, hB]
  have hset := TArray.get_set_self inst.Channels Channel Chn
    { Chn with
      AnimIndex1 := INDEX_NONE
      AnimIndex2 := INDEX_NONE
      Time := 0
      Rate := 0
      Looped := false
      TweenTime := TweenTime
      SecondaryBlend := 0 } hC
  by_cases hmax : Channel > inst.MaxAnimChannel
  · refine ⟨setStage { inst with MaxAnimChannel := Channel } Channel
      { Chn with
      AnimIndex1 := INDEX_NONE
      AnimIndex2 := INDEX_NONE
      Time := 0
      Rate := 0
      Looped := false
      TweenTime := TweenTime
      SecondaryBlend := 0 }, ?_, ?_, ?_, ?_, ?_⟩
    · simp only [PlayAnimInternal, hC, if_pos hmax, hF2, if_true]
    · rfl
    · rfl
    · exact hset
    · intro AnimSeqs TimeDeltas
      exact hticks AnimSeqs TimeDeltas _ _
  · refine ⟨setStage inst Channel
      { Chn with
      AnimIndex1 := INDEX_NONE
      AnimIndex2 := INDEX_NONE
      Time := 0
      Rate := 0
      Looped := false
      TweenTime := TweenTime
      SecondaryBlend := 0 }, ?_, ?_, ?_, ?_, ?_⟩
    · simp only [PlayAnimInternal, hC, if_neg hmax, hF, if_true]
    · rfl
    · rfl
    · exact hset
    · intro AnimSeqs TimeDeltas
      exact hticks AnimSeqs TimeDeltas _ _

/-- C12 at a concrete input: a mesh without animation set and a null animation name on the
base channel, starting from the cleared channel. -/
theorem PlayAnimInternal_not_found_witness :
    ∃ inst', PlayAnimInternal
        (⟨[⟨"root", 0, 7, 70⟩], none, [⟨INDEX_NONE, (), (), 0, 1, 0, (), (), 0, 0⟩],
          [⟨ANIM_UNASSIGNED, ANIM_UNASSIGNED, 5, 0, 1, 0, 3, 0, 0, true⟩], -1⟩ :
          CSkelMeshInstance Nat Nat Unit) none 1 (1 / 2) 0 true = some inst'
      ∧ GetStage inst' 0 = some ⟨INDEX_NONE, INDEX_NONE, 0, 0, 1, 0, 0, 1 / 2, 0, false⟩ := by
  obtain ⟨inst', h1, _, _, h4, _⟩ := PlayAnimInternal_not_found
    (fun (a _ : Nat) (_ : ℚ) => a) (fun (a _ : Nat) (_ : ℚ) => a)
    (⟨[⟨"root", 0, 7, 70⟩], none, [⟨INDEX_NONE, (), (), 0, 1, 0, (), (), 0, 0⟩],
      [⟨ANIM_UNASSIGNED, ANIM_UNASSIGNED, 5, 0, 1, 0, 3, 0, 0, true⟩], -1⟩ :
      CSkelMeshInstance Nat Nat Unit) none 1 (1 / 2) 0 true
    ⟨ANIM_UNASSIGNED, ANIM_UNASSIGNED, 5, 0, 1, 0, 3, 0, 0, true⟩ rfl rfl
  exact ⟨inst', h1, h4⟩

/-! ## `UpdateSkeleton`: a stage of full weight -/

theorem SameButPose.refl {V Q C : Type} (d : CMeshBoneData V Q C) : SameButPose d d := by
  cases d; rfl

/-- With `BlendAlpha == 1` and no tween in progress the pose computed for a bone does not
read the pose stored in the bone. -/
theorem UpdateSkeleton.bonePose_of_full_weight {V Q C : Type} (Lerp : V → V → ℚ → V)
    (Slerp : Q → Q → ℚ → Q) (Conjugate : Q → Q) (RefSkeleton : List (FMeshBone V Q))
    (Chn : CAnimChan) (primary : Option (MotionChunk V Q × FMeshAnimSeq))
    (secondary : Option (MotionChunk V Q × FMeshAnimSeq × ℚ)) (i : Int)
    (d d' : CMeshBoneData V Q C) (garbage : V × Q)
    (hAlpha : Chn.BlendAlpha = 1) (hTween : ¬ Chn.TweenTime > 0) (hd : SameButPose d d') :
    UpdateSkeleton.bonePose Lerp Slerp Conjugate RefSkeleton Chn primary secondary i d' garbage
      = UpdateSkeleton.bonePose Lerp Slerp Conjugate RefSkeleton Chn primary secondary i d
          garbage := by
  have hs : UpdateSkeleton.samplePose Lerp Slerp RefSkeleton Chn primary secondary i d' garbage
      = UpdateSkeleton.samplePose Lerp Slerp RefSkeleton Chn primary secondary i d garbage := by
    rw [hd]; rfl
  have hb : ¬ Chn.BlendAlpha < 1 := by rw [hAlpha]; exact lt_irrefl _
  simp only [UpdateSkeleton.bonePose, hs, if_neg hTween, if_neg hb]

/-- Two runs of the bone loop of a stage of full weight without tween, on bone arrays that
agree up to bones still holding their starting pose, fail together or end in arrays that
agree in the same way. -/
theorem UpdateSkeleton.bones_of_full_weight {V Q C : Type} (Lerp : V → V → ℚ → V)
    (Slerp : Q → Q → ℚ → Q) (Conjugate : Q → Q) (RefSkeleton : List (FMeshBone V Q))
    (Stage : Nat) (Chn : CAnimChan) (primary : Option (MotionChunk V Q × FMeshAnimSeq))
    (secondary : Option (MotionChunk V Q × FMeshAnimSeq × ℚ)) (garbage : V × Q)
    (lastBone : Int) (BoneData BoneData' : List (CMeshBoneData V Q C))
    (hAlpha : Chn.BlendAlpha = 1) (hTween : ¬ Chn.TweenTime > 0) :
    ∀ (fuel : Nat) (i : Int) (cur cur' : List (CMeshBoneData V Q C)),
      PoseIndependent BoneData BoneData' cur cur' →
      (UpdateSkeleton.bones Lerp Slerp Conjugate RefSkeleton Stage Chn primary secondary garbage
            lastBone fuel i cur = none
          ∧ UpdateSkeleton.bones Lerp Slerp Conjugate RefSkeleton Stage Chn primary secondary
            garbage lastBone fuel i cur' = none)
        ∨ ∃ out out', UpdateSkeleton.bones Lerp Slerp Conjugate RefSkeleton Stage Chn primary
              secondary garbage lastBone fuel i cur = some out
            ∧ UpdateSkeleton.bones Lerp Slerp Conjugate RefSkeleton Stage Chn primary secondary
              garbage lastBone fuel i cur' = some out'
            ∧ PoseIndependent BoneData BoneData' out out' := by
  intro fuel
  induction fuel with
  | zero =>
    intro i cur cur' hinv
    by_cases hc : i ≤ lastBone
    · exact Or.inl ⟨by simp only [UpdateSkeleton.bones, if_pos hc],
        by simp only [UpdateSkeleton.bones, if_pos hc]⟩
    · exact Or.inr ⟨cur, cur', by simp only [UpdateSkeleton.bones, if_neg hc],
        by simp only [UpdateSkeleton.bones, if_neg hc], hinv⟩
  | succ fuel ih =>
    intro i cur cur' hinv
    by_cases hc : i ≤ lastBone
    · by_cases hi : 0 ≤ i ∧ i.toNat < cur.length
      · obtain ⟨hi0, hilt⟩ := hi
        have hilt' : i.toNat < cur'.length := hinv.1 ▸ hilt
        have e1 : cur[i.toNat]? = some cur[i.toNat] := List.getElem?_eq_getElem hilt
        have e2 : cur'[i.toNat]? = some cur'[i.toNat] := List.getElem?_eq_getElem hilt'
        have g1 : TArray.get cur i = some cur[i.toNat] := by
          simp only [TArray.get, if_pos hi0, e1]
        have g2 : TArray.get cur' i = some cur'[i.toNat] := by
          simp only [TArray.get, if_pos hi0, e2]
        have hsame : SameButPose cur[i.toNat] cur'[i.toNat] := by
          rcases hinv.2 i.toNat _ _ e1 e2 with h | h
          · rw [← h]; exact SameButPose.refl _
          · exact h.1
        have hFC : cur'[i.toNat].FirstChannel = cur[i.toNat].FirstChannel := by
          rw [hsame]
        have hSS : cur'[i.toNat].SubtreeSize = cur[i.toNat].SubtreeSize := by
          rw [hsame]
        have hpose := UpdateSkeleton.bonePose_of_full_weight Lerp Slerp Conjugate RefSkeleton
          Chn primary secondary i cur[i.toNat] cur'[i.toNat] garbage hAlpha hTween hsame
        by_cases hskip : (Stage : Int) < cur[i.toNat].FirstChannel
        · have hskip' : (Stage : Int) < cur'[i.toNat].FirstChannel := hFC ▸ hskip
          have := ih (i + cur[i.toNat].SubtreeSize + 1) cur cur' hinv
          simp only [UpdateSkeleton.bones, if_pos hc, g1, g2, if_pos hskip, if_pos hskip', hSS]
          exact this
        · have hskip' : ¬ (Stage : Int) < cur'[i.toNat].FirstChannel := hFC ▸ hskip
          simp only [UpdateSkeleton.bones, if_pos hc, g1, g2, if_neg hskip, if_neg hskip',
            hpose]
          cases hp : UpdateSkeleton.bonePose Lerp Slerp Conjugate RefSkeleton Chn primary
              secondary i cur[i.toNat] garbage with
          | none => exact Or.inl ⟨rfl, rfl⟩
          | some r =>
            obtain ⟨BP, BO⟩ := r
            simp only
            apply ih
            refine ⟨by simp [hinv.1], ?_⟩
            intro k d d' hd hd'
            by_cases hk : i.toNat = k
            · subst hk
              rw [List.getElem?_set_self hilt] at hd
              rw [List.getElem?_set_self hilt'] at hd'
              left
              have h1 := Option.some.inj hd
              have h2 := Option.some.inj hd'
              rw [← h1, ← h2, hsame]
            · rw [List.getElem?_set_ne hk] at hd
              rw [List.getElem?_set_ne hk] at hd'
              exact hinv.2 k d d' hd hd'
      · have g1 : TArray.get cur i = none := by
          unfold TArray.get
          by_cases h0 : 0 ≤ i
          · have : cur.length ≤ i.toNat := by
              by_contra hcon; exact hi ⟨h0, by omega⟩
            simp [h0, List.getElem?_eq_none this]
          · simp [h0]
        have g2 : TArray.get cur' i = none := by
          unfold TArray.get
          by_cases h0 : 0 ≤ i
          · have : cur'.length ≤ i.toNat := by
              rw [← hinv.1]
              by_contra hcon; exact hi ⟨h0, by omega⟩
            simp [h0, List.getElem?_eq_none this]
          · simp [h0]
        exact Or.inl ⟨by simp only [UpdateSkeleton.bones, if_pos hc, g1],
          by simp only [UpdateSkeleton.bones, if_pos hc, g2]⟩
    · exact Or.inr ⟨cur, cur', by simp only [UpdateSkeleton.bones, if_neg hc],
        by simp only [UpdateSkeleton.bones, if_neg hc], hinv⟩

/-- C11 (amended): for a channel stage whose `BlendAlpha` is exactly 1 and which has no tween
in progress (`TweenTime ≤ 0`), the pose `(Pos, Quat)` computed for a bone does not depend on
the pose stored in the bone, and two runs of the stage on bone arrays that differ only in
the stored poses fail together or leave every bone either with the same data in both runs or
untouched in both. -/
theorem UpdateSkeleton_stage_full_weight {V Q C : Type} (Lerp : V → V → ℚ → V)
    (Slerp : Q → Q → ℚ → Q) (Conjugate : Q → Q) (RefSkeleton : List (FMeshBone V Q))
    (Anim : Option (UMeshAnimation V Q)) (garbage : V × Q) (Stage : Nat) (Chn : CAnimChan)
    (BoneData BoneData' : List (CMeshBoneData V Q C))
    (hAlpha : Chn.BlendAlpha = 1) (hTween : ¬ Chn.TweenTime > 0)
    (hlen : BoneData.length = BoneData'.length)
    (hsame : ∀ (i : Nat) (d d' : CMeshBoneData V Q C),
      BoneData[i]? = some d → BoneData'[i]? = some d' → SameButPose d d') :
    (∀ (primary : Option (MotionChunk V Q × FMeshAnimSeq))
        (secondary : Option (MotionChunk V Q × FMeshAnimSeq × ℚ)) (i : Int)
        (d d' : CMeshBoneData V Q C), SameButPose d d' →
        UpdateSkeleton.bonePose Lerp Slerp Conjugate RefSkeleton Chn primary secondary i d'
            garbage
          = UpdateSkeleton.bonePose Lerp Slerp Conjugate RefSkeleton Chn primary secondary i d
            garbage)
      ∧ ((UpdateSkeleton.stage Lerp Slerp Conjugate RefSkeleton Anim garbage Stage Chn BoneData
              = none
            ∧ UpdateSkeleton.stage Lerp Slerp Conjugate RefSkeleton Anim garbage Stage Chn
              BoneData' = none)
          ∨ ∃ out out', UpdateSkeleton.stage Lerp Slerp Conjugate RefSkeleton Anim garbage Stage
                Chn BoneData = some out
              ∧ UpdateSkeleton.stage Lerp Slerp Conjugate RefSkeleton Anim garbage Stage Chn
                BoneData' = some out'
              ∧ out.length = out'.length
              ∧ ∀ (i : Nat) (d d' : CMeshBoneData V Q C), out[i]? = some d →
                  out'[i]? = some d' →
                  d = d' ∨ (BoneData[i]? = some d ∧ BoneData'[i]? = some d')) := by
  refine ⟨fun primary secondary i d d' hd =>
    UpdateSkeleton.bonePose_of_full_weight Lerp Slerp Conjugate RefSkeleton Chn primary
      secondary i d d' garbage hAlpha hTween hd, ?_⟩
  have hstart : PoseIndependent BoneData BoneData' BoneData BoneData' :=
    ⟨hlen, fun i d d' h1 h2 => Or.inr ⟨hsame i d d' h1 h2, h1, h2⟩⟩
  have hweaken : ∀ out out' : List (CMeshBoneData V Q C),
      PoseIndependent BoneData BoneData' out out' →
      out.length = out'.length
        ∧ ∀ (i : Nat) (d d' : CMeshBoneData V Q C), out[i]? = some d → out'[i]? = some d' →
            d = d' ∨ (BoneData[i]? = some d ∧ BoneData'[i]? = some d') := by
    intro out out' h
    refine ⟨h.1, fun i d d' h1 h2 => ?_⟩
    rcases h.2 i d d' h1 h2 with e | e
    · exact Or.inl e
    · exact Or.inr e.2
  by_cases hskip : Stage > 0 ∧ (Chn.AnimIndex1 = ANIM_UNASSIGNED ∨ Chn.BlendAlpha ≤ 0)
  · exact Or.inr ⟨BoneData, BoneData', by simp only [UpdateSkeleton.stage, if_pos hskip],
      by simp only [UpdateSkeleton.stage, if_pos hskip], hweaken _ _ hstart⟩
  · cases hm : UpdateSkeleton.motions Anim Chn with
    | none =>
      exact Or.inl ⟨by simp only [UpdateSkeleton.stage, if_neg hskip, hm],
        by simp only [UpdateSkeleton.stage, if_neg hskip, hm]⟩
    | some m =>
      obtain ⟨primary, secondary⟩ := m
      by_cases hi : 0 ≤ Chn.RootBone ∧ Chn.RootBone.toNat < BoneData.length
      · obtain ⟨hi0, hilt⟩ := hi
        have hilt' : Chn.RootBone.toNat < BoneData'.length := hlen ▸ hilt
        have e1 : BoneData[Chn.RootBone.toNat]? = some BoneData[Chn.RootBone.toNat] :=
          List.getElem?_eq_getElem hilt
        have e2 : BoneData'[Chn.RootBone.toNat]? = some BoneData'[Chn.RootBone.toNat] :=
          List.getElem?_eq_getElem hilt'
        have g1 : TArray.get BoneData Chn.RootBone = some BoneData[Chn.RootBone.toNat] := by
          simp only [TArray.get, if_pos hi0, e1]
        have g2 : TArray.get BoneData' Chn.RootBone = some BoneData'[Chn.RootBone.toNat] := by
          simp only [TArray.get, if_pos hi0, e2]
        have hSS : BoneData'[Chn.RootBone.toNat].SubtreeSize
            = BoneData[Chn.RootBone.toNat].SubtreeSize := by
          rw [hsame _ _ _ e1 e2]
        by_cases hlast : Chn.RootBone + BoneData[Chn.RootBone.toNat].SubtreeSize
            < RefSkeleton.length
        · simp only [UpdateSkeleton.stage, if_neg hskip, hm, g1, g2, hSS, if_pos hlast]
          rcases UpdateSkeleton.bones_of_full_weight Lerp Slerp Conjugate RefSkeleton Stage Chn
            primary secondary garbage
            (Chn.RootBone + BoneData[Chn.RootBone.toNat].SubtreeSize) BoneData BoneData'
            hAlpha hTween _ Chn.RootBone BoneData BoneData' hstart with h | ⟨out, out', h1, h2, h3⟩
          · exact Or.inl h
          · exact Or.inr ⟨out, out', h1, h2, hweaken _ _ h3⟩
        · exact Or.inl ⟨by simp only [UpdateSkeleton.stage, if_neg hskip, hm, g1, if_neg hlast],
            by simp only [UpdateSkeleton.stage, if_neg hskip, hm, g2, hSS, if_neg hlast]⟩
      · have g1 : TArray.get BoneData Chn.RootBone = none := by
          unfold TArray.get
          by_cases h0 : 0 ≤ Chn.RootBone
          · have : BoneData.length ≤ Chn.RootBone.toNat := by
              by_contra hcon; exact hi ⟨h0, by omega⟩
            simp [h0, List.getElem?_eq_none this]
          · simp [h0]
        have g2 : TArray.get BoneData' Chn.RootBone = none := by
          unfold TArray.get
          by_cases h0 : 0 ≤ Chn.RootBone
          · have : BoneData'.length ≤ Chn.RootBone.toNat := by
              rw [← hlen]
              by_contra hcon; exact hi ⟨h0, by omega⟩
            simp [h0, List.getElem?_eq_none this]
          · simp [h0]
        exact Or.inl ⟨by simp only [UpdateSkeleton.stage, if_neg hskip, hm, g1],
          by simp only [UpdateSkeleton.stage, if_neg hskip, hm, g2]⟩

/-- C11 at a concrete input: the base stage in the default pose and one bone whose stored
pose is `(0, 0)` in one run and `(10, 10)` in the other: the pose computed is the same. -/
theorem UpdateSkeleton_stage_full_weight_witness :
    UpdateSkeleton.bonePose Lerp Lerp id [⟨"root", 0, 4, 6⟩]
        ⟨INDEX_NONE, INDEX_NONE, 0, 0, 1, 0, 0, 0, 0, false⟩ none none 0
        (⟨INDEX_NONE, (), (), 0, 1, 0, (), (), 10, 10⟩ : CMeshBoneData ℚ ℚ Unit) (0, 0)
      = UpdateSkeleton.bonePose Lerp Lerp id [⟨"root", 0, 4, 6⟩]
        ⟨INDEX_NONE, INDEX_NONE, 0, 0, 1, 0, 0, 0, 0, false⟩ none none 0
        (⟨INDEX_NONE, (), (), 0, 1, 0, (), (), 0, 0⟩ : CMeshBoneData ℚ ℚ Unit) (0, 0) :=
  (UpdateSkeleton_stage_full_weight Lerp Lerp id [⟨"root", 0, 4, 6⟩] none (0, 0) 0
    ⟨INDEX_NONE, INDEX_NONE, 0, 0, 1, 0, 0, 0, 0, false⟩
    [(⟨INDEX_NONE, (), (), 0, 1, 0, (), (), 0, 0⟩ : CMeshBoneData ℚ ℚ Unit)]
    [(⟨INDEX_NONE, (), (), 0, 1, 0, (), (), 10, 10⟩ : CMeshBoneData ℚ ℚ Unit)]
    rfl (by decide!) rfl (by
      intro i d d' h1 h2
      match i, h1, h2 with
      | 0, h1, h2 => cases h1; cases h2; rfl
      | i + 1, h1, _ => simp at h1)).1 none none 0
    (⟨INDEX_NONE, (), (), 0, 1, 0, (), (), 0, 0⟩ : CMeshBoneData ℚ ℚ Unit)
    (⟨INDEX_NONE, (), (), 0, 1, 0, (), (), 10, 10⟩ : CMeshBoneData ℚ ℚ Unit) rfl

/-- C11 fails as stated while a tween is in progress: with `BlendAlpha = 1`, `TweenTime = 1`
and `TweenStep = 1/2` the stage stores the pose half-way between the pose found in the bone
and the sampled reference pose `(4, 6)`: `(2, 3)` when the bone held `(0, 0)`, `(7, 8)` when
it held `(10, 10)`. -/
theorem UpdateSkeleton_stage_full_weight_counterexample :
    (⟨INDEX_NONE, INDEX_NONE, 0, 0, 1, 0, 0, 1, 1 / 2, false⟩ : CAnimChan).BlendAlpha = 1
      ∧ UpdateSkeleton.stage Lerp Lerp id [⟨"root", 0, 4, 6⟩] none (0, 0) 0
          ⟨INDEX_NONE, INDEX_NONE, 0, 0, 1, 0, 0, 1, 1 / 2, false⟩
          [(⟨INDEX_NONE, (), (), 0, 1, 0, (), (), 0, 0⟩ : CMeshBoneData ℚ ℚ Unit)]
        = some [⟨INDEX_NONE, (), (), 0, 1, 0, (), (), 2, 3⟩]
      ∧ UpdateSkeleton.stage Lerp Lerp id [⟨"root", 0, 4, 6⟩] none (0, 0) 0
          ⟨INDEX_NONE, INDEX_NONE, 0, 0, 1, 0, 0, 1, 1 / 2, false⟩
          [(⟨INDEX_NONE, (), (), 0, 1, 0, (), (), 10, 10⟩ : CMeshBoneData ℚ ℚ Unit)]
        = some [⟨INDEX_NONE, (), (), 0, 1, 0, (), (), 7, 8⟩] := by
  decide!

/-! ## `UpdateAnimation`: range of the playback time -/

/-! ## Evaluations of the channel code at concrete inputs -/

/-- C13: after `SetBlendParams(0, 1, "arm")` on a skeleton without bone `arm`, the base
channel has `RootBone == INDEX_NONE` and `BlendAlpha == 0`; the time advance of the next
pass completes, and the pose evaluation then indexes `BoneData` with `RootBone`: the read
`BoneData[-1]` is outside the array. With the name of an existing bone the same pass stores
the reference pose. -/
theorem SetBlendParams_base_channel_not_found :
    (SetBlendParams defaultPoseInstance 0 1 (some "arm")).map (fun inst => inst.Channels)
        = some [⟨INDEX_NONE, INDEX_NONE, 0, 0, 0, INDEX_NONE, 0, 0, 0, false⟩]
      ∧ ((SetBlendParams defaultPoseInstance 0 1 (some "arm")).bind
          (fun inst => UpdateAnimation.advance inst 1)).map (fun inst => inst.Channels)
        = some [⟨INDEX_NONE, INDEX_NONE, 0, 0, 0, INDEX_NONE, 0, 0, 0, false⟩]
      ∧ TArray.get defaultPoseInstance.BoneData INDEX_NONE = none
      ∧ ((SetBlendParams defaultPoseInstance 0 1 (some "arm")).bind
          (fun inst => UpdateAnimation.advance inst 1)).bind
            (UpdateSkeleton.evaluate Lerp Lerp id (0, 0)) = none
      ∧ (((SetBlendParams defaultPoseInstance 0 1 (some "root")).bind
          (fun inst => UpdateAnimation.advance inst 1)).bind
            (UpdateSkeleton.evaluate Lerp Lerp id (0, 0))).map (fun inst => inst.BoneData)
        = some [⟨INDEX_NONE, (), (), 0, 1, 0, (), (), 4, 6⟩] := by
  decide!

/-- C14: after `FreezeAnimAt(3, 0)` on a channel that blends a 10-frame sequence half-way
with a 20-frame sequence, `Time` is 3 and `Rate` is 0, yet `UpdateAnimation(1)` moves `Time`
to `15/4`: the rate computed for a blended channel leaves `Chn->Rate` out. -/
theorem FreezeAnimAt_blended_channel_advances :
    (FreezeAnimAt blendedInstance 3 0).map (fun inst => inst.Channels)
        = some [⟨0, 1, 3, 1 / 2, 1, 0, 0, 0, 0, true⟩]
      ∧ ((FreezeAnimAt blendedInstance 3 0).bind
          (fun inst => UpdateAnimation.advance inst 1)).map (fun inst => inst.Channels)
        = some [⟨0, 1, 15 / 4, 1 / 2, 1, 0, 0, 0, 0, true⟩] := by
  decide!

/-- C17: a channel at `Time = 0` with remaining tween time `T = 1`, rates 1 and a 10-frame
sequence. With `TimeDelta = 3/2` the tween ends and `Time` advances by the overshoot `1/2`;
with `TimeDelta = 1 = T` the tween ends as well (`TweenTime = 0`), but `TimeDelta` is not
replaced by the overshoot `0` and `Time` advances by the whole `TimeDelta` to 1. -/
theorem UpdateAnimation_tween_ends_exactly :
    UpdateAnimation.channel [⟨"run", 10, 1⟩] (3 / 2) ⟨0, INDEX_NONE, 0, 0, 1, 0, 1, 1, 0, true⟩
        = some (1 / 2, ⟨0, INDEX_NONE, 1 / 2, 0, 1, 0, 1, 0, 3 / 2, true⟩)
      ∧ UpdateAnimation.channel [⟨"run", 10, 1⟩] 1 ⟨0, INDEX_NONE, 0, 0, 1, 0, 1, 1, 0, true⟩
        = some (1, ⟨0, INDEX_NONE, 1, 0, 1, 0, 1, 0, 1, true⟩) := by
  decide!

/-- C18: two channels play a 100-frame sequence at rate 1 and `UpdateAnimation(3)` is
called. When channel 0 has no tween, channel 1 advances by 3. When channel 0 has 1 unit of
tween time left, it overwrites `TimeDelta` with its overshoot 2, and channel 1, which has no
tween of its own, advances by 2 only. -/
theorem UpdateAnimation_TimeDelta_overwritten :
    (UpdateAnimation.advance (twoChannelInstance 0) 3).map (fun inst => inst.Channels)
        = some [⟨0, INDEX_NONE, 3, 0, 1, 0, 1, 0, 0, true⟩,
            ⟨0, INDEX_NONE, 3, 0, 1 / 2, 0, 1, 0, 0, true⟩]
      ∧ (UpdateAnimation.advance (twoChannelInstance 1) 3).map (fun inst => inst.Channels)
        = some [⟨0, INDEX_NONE, 2, 0, 1, 0, 1, 0, 3, true⟩,
            ⟨0, INDEX_NONE, 2, 0, 1 / 2, 0, 1, 0, 0, true⟩] := by
  decide!

/-- C20: bone 2 (`head`) lies in the subtree of bone 1 (`spine`), the root bone of stage 2,
whose blend weight is 1. `UpdateAnimation` marks bone 1 only (`FirstChannel = 2`); stage 0
skips the subtree, but stage 1, whose root bone is bone 2, starts inside it and writes the
pose of bone 2: `(0, 0)` becomes `(51, 101)`. -/
theorem UpdateSkeleton_lower_stage_writes_owned_bone :
    Descendant nestedRootsInstance.RefSkeleton 1 2
      ∧ (UpdateAnimation.advance nestedRootsInstance 1).map (fun inst => inst.BoneData)
        = some [⟨0, (), (), 2, 1, 0, (), (), 0, 0⟩, ⟨1, (), (), 1, 1, 2, (), (), 0, 0⟩,
            ⟨2, (), (), 0, 1, 0, (), (), 0, 0⟩]
      ∧ (UpdateAnimation.advance nestedRootsInstance 1).map (fun inst => inst.Channels)
        = some nestedRootsInstance.Channels
      ∧ UpdateSkeleton.stage Lerp Lerp id nestedRootsInstance.RefSkeleton
          nestedRootsInstance.Animation (0, 0) 0 ⟨0, INDEX_NONE, 0, 0, 1, 0, 1, 0, 0, true⟩
          [⟨0, (), (), 2, 1, 0, (), (), 0, 0⟩, ⟨1, (), (), 1, 1, 2, (), (), 0, 0⟩,
            ⟨2, (), (), 0, 1, 0, (), (), 0, 0⟩]
        = some [⟨0, (), (), 2, 1, 0, (), (), 100, 200⟩, ⟨1, (), (), 1, 1, 2, (), (), 0, 0⟩,
            ⟨2, (), (), 0, 1, 0, (), (), 0, 0⟩]
      ∧ UpdateSkeleton.stage Lerp Lerp id nestedRootsInstance.RefSkeleton
          nestedRootsInstance.Animation (0, 0) 1 ⟨0, INDEX_NONE, 0, 0, 1 / 2, 2, 1, 0, 0, true⟩
          [⟨0, (), (), 2, 1, 0, (), (), 100, 200⟩, ⟨1, (), (), 1, 1, 2, (), (), 0, 0⟩,
            ⟨2, (), (), 0, 1, 0, (), (), 0, 0⟩]
        = some [⟨0, (), (), 2, 1, 0, (), (), 100, 200⟩, ⟨1, (), (), 1, 1, 2, (), (), 0, 0⟩,
            ⟨2, (), (), 0, 1, 0, (), (), 51, 101⟩] := by
  refine ⟨Descendant.child 2 ⟨"head", 1, 24, 26⟩ (by decide) rfl rfl, ?_⟩
  decide!

/-! ## `FindTimeKey` on arbitrary arrays -/

/-- One iteration of the binary-search loop on a window inside the array: the read
`KeyTime[Mid]` is in range and the new window is strictly smaller. -/
theorem FindTimeKey.binarySearch_step (KeyTime : List ℚ) (Frame : ℚ) (Low High : Int)
    (h0 : 0 ≤ Low) (hH : High < KeyTime.length) (hc : Low + MAX_LINEAR_KEYS < High) :
    ∃ Low' High' : Int, Low ≤ Low' ∧ Low' ≤ High' ∧ High' ≤ High
      ∧ High' - Low' < High - Low
      ∧ ∀ fuel, FindTimeKey.binarySearch KeyTime Frame (fuel + 1) Low High
          = FindTimeKey.binarySearch KeyTime Frame fuel Low' High' := by
  have hc4 : Low + 4 < High := by simpa [MAX_LINEAR_KEYS] using hc
  have hmid : Int.tdiv (Low + High) 2 = (Low + High) / 2 :=
    Int.tdiv_eq_ediv (by omega) (by omega)
  have hm0 : 0 ≤ (Low + High) / 2 := by omega
  have hm1 : (Low + High) / 2 < KeyTime.length := by omega
  have hget := TArray.get_of_bounds KeyTime ((Low + High) / 2) hm0 hm1
  by_cases hlt : Frame < KeyTime.getD ((Low + High) / 2).toNat 0
  · refine ⟨Low, (Low + High) / 2 - 1, le_refl _, by omega, by omega, by omega, ?_⟩
    intro fuel
    simp only [FindTimeKey.binarySearch, if_pos hc, hmid, hget, if_pos hlt]
  · refine ⟨(Low + High) / 2, High, by omega, by omega, le_refl _, by omega, ?_⟩
    intro fuel
    simp only [FindTimeKey.binarySearch, if_pos hc, hmid, hget, if_neg hlt]

/-- On any array the binary-search loop terminates within `High - Low` iterations and leaves
a window `[Low', High']` inside the starting one with `High' ≤ Low' + MAX_LINEAR_KEYS`. -/
theorem FindTimeKey.binarySearch_window (KeyTime : List ℚ) (Frame : ℚ) :
    ∀ (fuel : Nat) (Low High : Int), 0 ≤ Low → High < KeyTime.length → High - Low ≤ fuel →
      ∃ Low' High' : Int,
        FindTimeKey.binarySearch KeyTime Frame fuel Low High = some (Low', High')
        ∧ Low ≤ Low' ∧ High' ≤ High ∧ High' ≤ Low' + MAX_LINEAR_KEYS
        ∧ (Low ≤ High → Low' ≤ High') := by
  intro fuel
  induction fuel with
  | zero =>
    intro Low High h0 hH hf
    have : ¬ (Low + MAX_LINEAR_KEYS < High) := by simp [MAX_LINEAR_KEYS]; omega
    exact ⟨Low, High, by simp [FindTimeKey.binarySearch, this], le_refl _, le_refl _,
      by omega, fun h => h⟩
  | succ n ih =>
    intro Low High h0 hH hf
    by_cases hc : Low + MAX_LINEAR_KEYS < High
    · obtain ⟨L1, H1, h1, h2, h3, h4, hstep⟩ :=
        FindTimeKey.binarySearch_step KeyTime Frame Low High h0 hH hc
      obtain ⟨L2, H2, he, h5, h6, h7, h8⟩ := ih L1 H1 (by omega) (by omega) (by omega)
      exact ⟨L2, H2, by rw [hstep n, he], by omega, by omega, h7, fun _ => h8 h2⟩
    · exact ⟨Low, High, by simp [FindTimeKey.binarySearch, hc], le_refl _, le_refl _,
        by omega, fun h => h⟩

/-- On any array the linear scan over a window inside the array terminates and returns an
index between 0 and `High`. -/
theorem FindTimeKey.linearSearch_range (KeyTime : List ℚ) (Frame : ℚ) (High : Int)
    (hH0 : 0 ≤ High) (hH : High < KeyTime.length) :
    ∀ (fuel : Nat) (i : Int), 0 ≤ i → i ≤ High + 1 → High + 1 - i ≤ fuel →
      ∃ r : Int, FindTimeKey.linearSearch KeyTime Frame High fuel i = some r
        ∧ 0 ≤ r ∧ r ≤ High := by
  intro fuel
  induction fuel with
  | zero =>
    intro i hi0 hi1 hf
    have hn : ¬ i ≤ High := by omega
    have hgt : i > High := by omega
    exact ⟨High, by simp only [FindTimeKey.linearSearch, if_neg hn, if_pos hgt], hH0, le_refl _⟩
  | succ n ih =>
    intro i hi0 hi1 hf
    by_cases hc : i ≤ High
    · have hget := TArray.get_of_bounds KeyTime i hi0 (by omega)
      simp only [FindTimeKey.linearSearch, if_pos hc, hget]
      by_cases heq : Frame = KeyTime.getD i.toNat 0
      · exact ⟨i, by simp only [if_pos heq], hi0, hc⟩
      · simp only [if_neg heq]
        by_cases hlt : Frame < KeyTime.getD i.toNat 0
        · simp only [if_pos hlt]
          by_cases hpos : i > 0
          · exact ⟨i - 1, by simp only [if_pos hpos], by omega, by omega⟩
          · exact ⟨0, by simp only [if_neg hpos], le_refl _, hH0⟩
        · simp only [if_neg hlt]
          exact ih (i + 1) (by omega) (by omega) (by omega)
    · have hgt : i > High := by omega
      exact ⟨High, by simp only [FindTimeKey.linearSearch, if_neg hc, if_pos hgt], hH0,
        le_refl _⟩

/-- When `Frame` is below every timestamp, the binary search never moves `Low`. -/
theorem FindTimeKey.binarySearch_below (KeyTime : List ℚ) (Frame : ℚ)
    (hbelow : ∀ j : Nat, j < KeyTime.length → Frame < KeyTime.getD j 0) :
    ∀ (fuel : Nat) (Low High : Int), 0 ≤ Low → Low ≤ High → High < KeyTime.length →
      High - Low ≤ fuel →
      ∃ High' : Int, FindTimeKey.binarySearch KeyTime Frame fuel Low High = some (Low, High')
        ∧ Low ≤ High' ∧ High' ≤ High := by
  intro fuel
  induction fuel with
  | zero =>
    intro Low High h0 hLH hH hf
    have : ¬ (Low + MAX_LINEAR_KEYS < High) := by simp [MAX_LINEAR_KEYS]; omega
    exact ⟨High, by simp [FindTimeKey.binarySearch, this], hLH, le_refl _⟩
  | succ n ih =>
    intro Low High h0 hLH hH hf
    by_cases hc : Low + MAX_LINEAR_KEYS < High
    · have hc4 : Low + 4 < High := by simpa [MAX_LINEAR_KEYS] using hc
      have hmid : Int.tdiv (Low + High) 2 = (Low + High) / 2 :=
        Int.tdiv_eq_ediv (by omega) (by omega)
      have hm0 : 0 ≤ (Low + High) / 2 := by omega
      have hm1 : (Low + High) / 2 < KeyTime.length := by omega
      have hget := TArray.get_of_bounds KeyTime ((Low + High) / 2) hm0 hm1
      have hlt : Frame < KeyTime.getD ((Low + High) / 2).toNat 0 := hbelow _ (by omega)
      obtain ⟨H2, he, h1, h2⟩ :=
        ih Low ((Low + High) / 2 - 1) h0 (by omega) (by omega) (by omega)
      refine ⟨H2, ?_, h1, by omega⟩
      simp only [FindTimeKey.binarySearch, if_pos hc, hmid, hget, if_pos hlt, he]
    · exact ⟨High, by simp [FindTimeKey.binarySearch, hc], hLH, le_refl _⟩

/-- C29: on a non-empty timestamp array, sorted or not, `FindTimeKey` terminates and returns
an index in `[0, NumKeys - 1]`; an iteration of the binary-search loop (a window inside the
array with `Low + MAX_LINEAR_KEYS < High`) continues with a window whose `High - Low` is
strictly smaller; and for a `Frame` below the first timestamp of a strictly increasing array
the result is 0. -/
theorem FindTimeKey_terminates_in_range (KeyTime : List ℚ) (Frame : ℚ) (hne : KeyTime ≠ []) :
    (∃ r : Int, FindTimeKey KeyTime Frame = some r ∧ 0 ≤ r ∧ r ≤ (KeyTime.length : Int) - 1)
      ∧ (∀ Low High : Int, 0 ≤ Low → High < KeyTime.length → Low + MAX_LINEAR_KEYS < High →
          ∃ Low' High' : Int, High' - Low' < High - Low
            ∧ ∀ fuel, FindTimeKey.binarySearch KeyTime Frame (fuel + 1) Low High
                = FindTimeKey.binarySearch KeyTime Frame fuel Low' High')
      ∧ (KeyTime.Sorted (· < ·) → Frame < KeyTime.head hne →
          FindTimeKey KeyTime Frame = some 0) := by
  have hlen : 0 < KeyTime.length := List.length_pos.mpr hne
  refine ⟨?_, ?_, ?_⟩
  · obtain ⟨L, H, he, h1, h2, h3, h4⟩ :=
      FindTimeKey.binarySearch_window KeyTime Frame KeyTime.length 0
        ((KeyTime.length : Int) - 1) (le_refl _) (by omega) (by omega)
    have hLH : L ≤ H := h4 (by omega)
    obtain ⟨r, hr, hr0, hr1⟩ :=
      FindTimeKey.linearSearch_range KeyTime Frame H (by omega) (by omega)
        (H + 1 - L).toNat L h1 (by omega) (by omega)
    exact ⟨r, by simp only [FindTimeKey, he, hr], hr0, by omega⟩
  · intro Low High h0 hH hc
    obtain ⟨L1, H1, _, _, _, h4, hstep⟩ :=
      FindTimeKey.binarySearch_step KeyTime Frame Low High h0 hH hc
    exact ⟨L1, H1, h4, hstep⟩
  · intro hs hfirst
    have hf : Frame < KeyTime.getD 0 0 := by
      cases KeyTime with
      | nil => exact absurd rfl hne
      | cons a l => simpa using hfirst
    have hbelow : ∀ j : Nat, j < KeyTime.length → Frame < KeyTime.getD j 0 :=
      fun j hj => lt_of_lt_of_le hf (sorted_getD_le KeyTime hs 0 j (Nat.zero_le _) hj)
    obtain ⟨H, he, h1, h2⟩ :=
      FindTimeKey.binarySearch_below KeyTime Frame hbelow KeyTime.length 0
        ((KeyTime.length : Int) - 1) (le_refl _) (by omega) (by omega) (by omega)
    have hfuel : (H + 1 - 0).toNat = (H.toNat) + 1 := by omega
    have hget : TArray.get KeyTime 0 = some (KeyTime.getD 0 0) :=
      TArray.get_of_bounds KeyTime 0 (le_refl _) (by omega)
    have hne0 : ¬ (Frame = KeyTime.getD 0 0) := ne_of_lt hf
    have hpos : ¬ ((0 : Int) > 0) := by omega
    simp only [FindTimeKey, he, hfuel, FindTimeKey.linearSearch, if_pos h1, hget, if_neg hne0,
      if_pos hf, if_neg hpos]

/-- C29 at a concrete input: an unsorted array of seven timestamps. -/
theorem FindTimeKey_terminates_in_range_witness :
    (∃ r : Int, FindTimeKey [5, 1, 4, 2, 9, 0, 3] 2 = some r ∧ 0 ≤ r
        ∧ r ≤ (([5, 1, 4, 2, 9, 0, 3] : List ℚ).length : Int) - 1)
      ∧ (∀ Low High : Int, 0 ≤ Low → High < ([5, 1, 4, 2, 9, 0, 3] : List ℚ).length →
          Low + MAX_LINEAR_KEYS < High →
          ∃ Low' High' : Int, High' - Low' < High - Low
            ∧ ∀ fuel, FindTimeKey.binarySearch [5, 1, 4, 2, 9, 0, 3] 2 (fuel + 1) Low High
                = FindTimeKey.binarySearch [5, 1, 4, 2, 9, 0, 3] 2 fuel Low' High')
      ∧ (([5, 1, 4, 2, 9, 0, 3] : List ℚ).Sorted (· < ·) →
          (2 : ℚ) < ([5, 1, 4, 2, 9, 0, 3] : List ℚ).head (by simp) →
          FindTimeKey [5, 1, 4, 2, 9, 0, 3] 2 = some 0) :=
  FindTimeKey_terminates_in_range [5, 1, 4, 2, 9, 0, 3] 2 (by simp)

/-- C30 (amended): on every timestamp array and for every `Frame` the binary-search phase of
`FindTimeKey` ends, and the window `[Low, High]` it leaves to the linear scan has at most
`MAX_LINEAR_KEYS + 1 = 5` elements. -/
theorem FindTimeKey_binarySearch_window_size (KeyTime : List ℚ) (Frame : ℚ) :
    ∃ Low High : Int,
      FindTimeKey.binarySearch KeyTime Frame KeyTime.length 0 ((KeyTime.length : Int) - 1)
        = some (Low, High)
      ∧ High - Low + 1 ≤ MAX_LINEAR_KEYS + 1 ∧ MAX_LINEAR_KEYS + 1 = 5 := by
  obtain ⟨L, H, he, _, _, h3, _⟩ :=
    FindTimeKey.binarySearch_window KeyTime Frame KeyTime.length 0
      ((KeyTime.length : Int) - 1) (le_refl _) (by omega) (by omega)
  exact ⟨L, H, he, by omega, by decide⟩

/-- C30 fails as stated on an array of five timestamps: the loop condition
`Low + MAX_LINEAR_KEYS < High` is false at once and the window left is `[0, 4]`, five
elements; for a `Frame` beyond the last timestamp the linear scan is not finished after four
iterations and returns after the fifth. -/
theorem FindTimeKey_binarySearch_window_size_counterexample :
    FindTimeKey.binarySearch [0, 1, 2, 3, 4] 10 5 0 4 = some (0, 4)
      ∧ ¬ ((4 : Int) - 0 + 1 ≤ 4)
      ∧ FindTimeKey.linearSearch [0, 1, 2, 3, 4] 10 4 4 0 = none
      ∧ FindTimeKey.linearSearch [0, 1, 2, 3, 4] 10 4 5 0 = some 4 := by
  decide!

/-! ## `GetKeyParams` between two keys -/

/-- The outputs of `GetKeyParams` in terms of the index `r` that `FindTimeKey` returns. -/
theorem GetKeyParams_of_FindTimeKey (KeyTime : List ℚ) (Frame NumFrames : ℚ) (Loop : Bool)
    (r : Nat) (hr : r < KeyTime.length) (he : FindTimeKey KeyTime Frame = some (r : Int)) :
    GetKeyParams KeyTime Frame NumFrames Loop
      = if r + 1 < KeyTime.length then
          some ((r : Int), (r : Int) + 1,
            (Frame - KeyTime.getD r 0) / (KeyTime.getD (r + 1) 0 - KeyTime.getD r 0))
        else if Loop then
          some ((r : Int), 0, (Frame - KeyTime.getD r 0) / (NumFrames - KeyTime.getD r 0))
        else some ((r : Int), (r : Int), 0) := by
  have hget : TArray.get KeyTime (r : Int) = some (KeyTime.getD r 0) :=
    TArray.get_of_bounds KeyTime r (by omega) (by omega)
  by_cases hY : (r : Int) + 1 ≥ (KeyTime.length : Int)
  · have hn : ¬ (r + 1 < KeyTime.length) := by omega
    cases Loop with
    | false =>
      have hX : (r : Int) = (KeyTime.length : Int) - 1 := by omega
      simp [GetKeyParams, he, hY, hn, hX]
    | true => simp [GetKeyParams, he, hY, hn, hget]
  · have hY2 : r + 1 < KeyTime.length := by omega
    have hget2 : TArray.get KeyTime ((r : Int) + 1) = some (KeyTime.getD (r + 1) 0) := by
      rw [TArray.get_of_bounds KeyTime ((r : Int) + 1) (by omega) (by omega)]
      congr 1
    simp only [GetKeyParams, he, if_neg hY, hget, hget2, if_pos hY2]

/-- The bracket computed for `N > 1` evenly spaced keys at `0 ≤ Frame < NumFrames`. -/
theorem GetBonePosition.evenKeys_spec (Frame NumFrames : ℚ) (Loop : Bool) (N : Nat)
    (hN : 1 < N) (hNF : 0 < NumFrames) (hF0 : 0 ≤ Frame) (hF1 : Frame < NumFrames) :
    ∃ (X Y : Nat) (F : ℚ),
      GetBonePosition.evenKeys Frame NumFrames Loop N = ((X : Int), (Y : Int), F)
        ∧ (X : Int) = Int.floor (Frame / NumFrames * N)
        ∧ X < N ∧ Y < N ∧ 0 ≤ F ∧ F < 1
        ∧ (X + 1 < N → Y = X + 1 ∧ F = Frame / NumFrames * N - X)
        ∧ (X + 1 = N → Y = (if Loop then 0 else N - 1)
            ∧ F = (if Loop then Frame / NumFrames * N - X else 0)) := by
  have hNq : (0 : ℚ) < N := by exact_mod_cast (show 0 < N by omega)
  have hP0 : 0 ≤ Frame / NumFrames * N :=
    mul_nonneg (div_nonneg hF0 (le_of_lt hNF)) (le_of_lt hNq)
  have hP1 : Frame / NumFrames * N < N := by
    have : Frame / NumFrames < 1 := (div_lt_one hNF).mpr hF1
    calc Frame / NumFrames * N < 1 * N := mul_lt_mul_of_pos_right this hNq
      _ = N := one_mul _
  have hfl0 : 0 ≤ Int.floor (Frame / NumFrames * N) := Int.floor_nonneg.mpr hP0
  have hfl1 : Int.floor (Frame / NumFrames * N) < N := by
    have : Frame / NumFrames * N < ((N : Int) : ℚ) := by exact_mod_cast hP1
    exact Int.floor_lt.mpr this
  have hfle := Int.floor_le (Frame / NumFrames * N)
  have hflt := Int.lt_floor_add_one (Frame / NumFrames * N)
  obtain ⟨X, hX⟩ := Int.eq_ofNat_of_zero_le hfl0
  have hXN : X < N := by omega
  rw [hX] at hfle hflt
  have hfle2 : (X : ℚ) ≤ Frame / NumFrames * N := by exact_mod_cast hfle
  have hflt2 : Frame / NumFrames * N < (X : ℚ) + 1 := by exact_mod_cast hflt
  have hgt : ((N : Int)) > 1 := by omega
  by_cases hY : X + 1 < N
  · have hc : ¬ ((X : Int) + 1 ≥ (N : Int)) := by omega
    refine ⟨X, X + 1, Frame / NumFrames * N - X, ?_, hX.symm, hXN, hY, by linarith,
      by linarith, fun _ => ⟨rfl, rfl⟩, fun h => by omega⟩
    simp only [GetBonePosition.evenKeys, Int.cast_natCast, if_pos hgt, hX, if_neg hc]
    push_cast
    rfl
  · have hXe : X + 1 = N := by omega
    have hc : (X : Int) + 1 ≥ (N : Int) := by omega
    cases Loop with
    | true =>
      refine ⟨X, 0, Frame / NumFrames * N - X, ?_, hX.symm, hXN, by omega, by linarith,
        by linarith, fun h => absurd h hY, fun _ => ⟨by simp, by simp⟩⟩
      simp only [GetBonePosition.evenKeys, Int.cast_natCast, if_pos hgt, hX, if_pos hc]
      simp
    | false =>
      refine ⟨X, N - 1, 0, ?_, hX.symm, hXN, by omega, le_refl _, by norm_num,
        fun h => absurd h hY, fun _ => ⟨by simp, by simp⟩⟩
      simp only [GetBonePosition.evenKeys, Int.cast_natCast, if_pos hgt, hX, if_pos hc]
      have : ((N - 1 : Nat) : Int) = (N : Int) - 1 := by omega
      simp [this]

/-- Outside the fast path, a track without timestamps is sampled from the two brackets of
evenly spaced keys, one from the number of position keys and one from the number of
orientation keys. -/
theorem GetBonePosition_of_evenKeys {V Q : Type} (Lerp : V → V → ℚ → V)
    (Slerp : Q → Q → ℚ → Q) (A : AnalogTrack V Q) (Frame NumFrames : ℚ) (Loop : Bool)
    (hT : A.KeyTime = []) (hPT : A.KeyPosTime = []) (hQT : A.KeyQuatTime = [])
    (hNF : NumFrames ≠ 1) (hF : Frame ≠ 0) :
    GetBonePosition Lerp Slerp A Frame NumFrames Loop
      = match
          (if (GetBonePosition.evenKeys Frame NumFrames Loop A.KeyPos.length).2.2 > 0 then
            match TArray.get A.KeyPos
                (GetBonePosition.evenKeys Frame NumFrames Loop A.KeyPos.length).1,
              TArray.get A.KeyPos
                (GetBonePosition.evenKeys Frame NumFrames Loop A.KeyPos.length).2.1 with
            | some a, some b =>
              some (Lerp a b (GetBonePosition.evenKeys Frame NumFrames Loop A.KeyPos.length).2.2)
            | _, _ => none
          else TArray.get A.KeyPos
            (GetBonePosition.evenKeys Frame NumFrames Loop A.KeyPos.length).1),
          (if (GetBonePosition.evenKeys Frame NumFrames Loop A.KeyQuat.length).2.2 > 0 then
            match TArray.get A.KeyQuat
                (GetBonePosition.evenKeys Frame NumFrames Loop A.KeyQuat.length).1,
              TArray.get A.KeyQuat
                (GetBonePosition.evenKeys Frame NumFrames Loop A.KeyQuat.length).2.1 with
            | some a, some b =>
              some (Slerp a b
                (GetBonePosition.evenKeys Frame NumFrames Loop A.KeyQuat.length).2.2)
            | _, _ => none
          else TArray.get A.KeyQuat
            (GetBonePosition.evenKeys Frame NumFrames Loop A.KeyQuat.length).1) with
        | some p, some q => some (p, q)
        | _, _ => none := by
  have hfast : ¬ ((0 : Nat) = 1 ∨ NumFrames = 1 ∨ Frame = 0) := by
    simp [hNF, hF]
  simp only [GetBonePosition, if_neg hfast, hT, hPT, hQT, List.length_nil, Nat.cast_zero,
    ne_eq, not_true_eq_false, if_false]

/-- Without rounding the block for evenly spaced keys is `GetBonePosition.evenKeys`. -/
theorem GetBonePosition.evenKeysRounded_id (Frame NumFrames : ℚ) (Loop : Bool) (NumKeys : Int) :
    GetBonePosition.evenKeysRounded id Frame NumFrames Loop NumKeys
      = GetBonePosition.evenKeys Frame NumFrames Loop NumKeys := rfl

/-- Without rounding `GetKeyParamsRounded` is `GetKeyParams`. -/
theorem GetKeyParamsRounded_id (KeyTime : List ℚ) (Frame NumFrames : ℚ) (Loop : Bool) :
    GetKeyParamsRounded id KeyTime Frame NumFrames Loop
      = GetKeyParams KeyTime Frame NumFrames Loop := rfl

/-- Without rounding `GetBonePositionRounded` is `GetBonePosition`. -/
theorem GetBonePositionRounded_id {V Q : Type} (Lerp : V → V → ℚ → V) (Slerp : Q → Q → ℚ → Q)
    (A : AnalogTrack V Q) (Frame NumFrames : ℚ) (Loop : Bool) :
    GetBonePositionRounded id Lerp Slerp A Frame NumFrames Loop
      = GetBonePosition Lerp Slerp A Frame NumFrames Loop := rfl

theorem uniformKeyTime_length (N : Nat) (NumFrames : ℚ) :
    (uniformKeyTime N NumFrames).length = N := by
  simp [uniformKeyTime]

theorem uniformKeyTime_getD (N : Nat) (NumFrames : ℚ) (j : Nat) (hj : j < N) :
    (uniformKeyTime N NumFrames).getD j 0 = (j : ℚ) * NumFrames / N := by
  simp [uniformKeyTime, List.getD, List.getElem?_map, List.getElem?_range hj]

theorem uniformKeyTime_sorted (N : Nat) (NumFrames : ℚ) (hNF : 0 < NumFrames) :
    (uniformKeyTime N NumFrames).Sorted (· < ·) := by
  unfold uniformKeyTime List.Sorted
  rw [List.pairwise_map]
  refine List.Pairwise.imp_of_mem ?_ (List.pairwise_lt_range N)
  intro a b ha hb hab
  have hN : (0 : ℚ) < N := by
    have := List.mem_range.mp hb
    exact_mod_cast (show 0 < N by omega)
  have hab2 : (a : ℚ) < b := by exact_mod_cast hab
  exact div_lt_div_of_pos_right (mul_lt_mul_of_pos_right hab2 hNF) hN

/-- With the timestamps `k * NumFrames / N`, `GetKeyParams` computes the bracket of `N`
evenly spaced keys. -/
theorem GetKeyParams_uniformKeyTime (N : Nat) (hN : 2 ≤ N) (Frame NumFrames : ℚ)
    (hNF : 0 < NumFrames) (hF0 : 0 ≤ Frame) (hF1 : Frame < NumFrames) (Loop : Bool) :
    GetKeyParams (uniformKeyTime N NumFrames) Frame NumFrames Loop
      = some (GetBonePosition.evenKeys Frame NumFrames Loop N) := by
  have hNq : (0 : ℚ) < N := by exact_mod_cast (show 0 < N by omega)
  have hlen := uniformKeyTime_length N NumFrames
  have hne : uniformKeyTime N NumFrames ≠ [] := by
    apply List.ne_nil_of_length_pos
    omega
  have hs := uniformKeyTime_sorted N NumFrames hNF
  have hfirst : (uniformKeyTime N NumFrames).getD 0 0 ≤ Frame := by
    rw [uniformKeyTime_getD N NumFrames 0 (by omega)]
    simpa using hF0
  obtain ⟨r, he, hr, hle, hgt⟩ :=
    FindTimeKey_bracket (uniformKeyTime N NumFrames) Frame hne hs hfirst
  rw [hlen] at hr
  rw [uniformKeyTime_getD N NumFrames r hr] at hle
  have hkp := GetKeyParams_of_FindTimeKey (uniformKeyTime N NumFrames) Frame NumFrames Loop r
    (by omega) he
  rw [hlen, uniformKeyTime_getD N NumFrames r hr] at hkp
  obtain ⟨X, Y, F, hev, hfl, hX, hY, _, _, h1, h2⟩ :=
    GetBonePosition.evenKeys_spec Frame NumFrames Loop N (by omega) hNF hF0 hF1
  -- the key found is the floor of the position on the uniform grid
  have hrle : (r : ℚ) ≤ Frame / NumFrames * N := by
    rw [div_mul_eq_mul_div, le_div_iff₀ hNF]
    rw [div_le_iff₀ hNq] at hle
    linarith
  have hrlt : Frame / NumFrames * N < (r : ℚ) + 1 := by
    by_cases hlast : r + 1 < N
    · have hnext := hgt (r + 1) (by omega) (by omega)
      rw [uniformKeyTime_getD N NumFrames (r + 1) hlast] at hnext
      rw [lt_div_iff₀ hNq] at hnext
      rw [div_mul_eq_mul_div, div_lt_iff₀ hNF]
      push_cast at hnext
      linarith
    · have hrN : (r : ℚ) + 1 = N := by
        have : r + 1 = N := by omega
        exact_mod_cast this
      rw [hrN, div_mul_eq_mul_div, div_lt_iff₀ hNF]
      nlinarith
  have hXr : X = r := by
    have : Int.floor (Frame / NumFrames * N) = (r : Int) := by
      rw [Int.floor_eq_iff]
      exact ⟨by exact_mod_cast hrle, by exact_mod_cast hrlt⟩
    omega
  subst hXr
  have hNF' : NumFrames ≠ 0 := ne_of_gt hNF
  have hN' : (N : ℚ) ≠ 0 := ne_of_gt hNq
  rw [hev, hkp]
  by_cases hlast : X + 1 < N
  · obtain ⟨hYe, hFe⟩ := h1 hlast
    rw [if_pos hlast, uniformKeyTime_getD N NumFrames (X + 1) hlast, hYe, hFe]
    have e1 : (Frame - (X : ℚ) * NumFrames / N)
        / (((X + 1 : Nat) : ℚ) * NumFrames / N - (X : ℚ) * NumFrames / N)
        = Frame / NumFrames * N - X := by
      have hd : ((X + 1 : Nat) : ℚ) * NumFrames / N - (X : ℚ) * NumFrames / N
          = NumFrames / N := by
        push_cast
        ring
      rw [hd, div_eq_iff (div_ne_zero hNF' hN')]
      field_simp
      ring
    rw [e1]
    push_cast
    rfl
  · have hXe : X + 1 = N := by omega
    obtain ⟨hYe, hFe⟩ := h2 hXe
    rw [if_neg hlast, hYe, hFe]
    have hXq : (X : ℚ) = N - 1 := by
      have : (X : ℚ) + 1 = N := by exact_mod_cast hXe
      linarith
    cases Loop with
    | true =>
      have e2 : (Frame - (X : ℚ) * NumFrames / N) / (NumFrames - (X : ℚ) * NumFrames / N)
          = Frame / NumFrames * N - X := by
        have hd : NumFrames - (X : ℚ) * NumFrames / N = NumFrames / N := by
          rw [hXq]
          field_simp
          ring
        rw [hd, div_eq_iff (div_ne_zero hNF' hN')]
        field_simp
        ring
      rw [e2]
      simp
    | false =>
      have e3 : ((N - 1 : Nat) : Int) = (X : Int) := by omega
      simp [e3]

/-- Without rounding, for `N ≥ 2` position and `N` orientation keys, `NumFrames > 0`,
`0 ≤ Frame < NumFrames` and either loop flag, the explicit timestamps
`KeyTime[k] = k * NumFrames / N` make `GetKeyParams` select the previous index, next index
and fraction that the code for evenly spaced keys computes from `N`, and `GetBonePosition`
returns the same pose for the track without timestamps and for the track with these
timestamps. -/
theorem GetBonePosition_uniformKeyTime {V Q : Type} (Lerp : V → V → ℚ → V)
    (Slerp : Q → Q → ℚ → Q) (KeyPos : List V) (KeyQuat : List Q) (N : Nat) (hN : 2 ≤ N)
    (hP : KeyPos.length = N) (hQ : KeyQuat.length = N) (Frame NumFrames : ℚ)
    (hNF : 0 < NumFrames) (hF0 : 0 ≤ Frame) (hF1 : Frame < NumFrames) (Loop : Bool) :
    GetKeyParams (uniformKeyTime N NumFrames) Frame NumFrames Loop
        = some (GetBonePosition.evenKeys Frame NumFrames Loop N)
      ∧ ∃ (p : V) (q : Q),
          GetBonePosition Lerp Slerp ⟨KeyQuat, KeyPos, [], [], []⟩ Frame NumFrames Loop
              = some (p, q)
            ∧ GetBonePosition Lerp Slerp ⟨KeyQuat, KeyPos, uniformKeyTime N NumFrames, [], []⟩
                Frame NumFrames Loop = some (p, q) := by
  have hgk := GetKeyParams_uniformKeyTime N hN Frame NumFrames hNF hF0 hF1 Loop
  refine ⟨hgk, ?_⟩
  have hlen := uniformKeyTime_length N NumFrames
  have hP0 : 0 < KeyPos.length := by omega
  have hQ0 : 0 < KeyQuat.length := by omega
  have hp0 : TArray.get KeyPos 0 = some (KeyPos[0]) := by
    simp [TArray.get, List.getElem?_eq_getElem (show 0 < KeyPos.length by omega)]
  have hq0 : TArray.get KeyQuat 0 = some (KeyQuat[0]) := by
    simp [TArray.get, List.getElem?_eq_getElem (show 0 < KeyQuat.length by omega)]
  by_cases hfast : NumFrames = 1 ∨ Frame = 0
  · refine ⟨KeyPos[0], KeyQuat[0], ?_, ?_⟩
    · have h1 : ([] : List ℚ).length = 1 ∨ NumFrames = 1 ∨ Frame = 0 := Or.inr hfast
      simp only [GetBonePosition, if_pos h1, hp0, hq0]
    · have h1 : (uniformKeyTime N NumFrames).length = 1 ∨ NumFrames = 1 ∨ Frame = 0 :=
        Or.inr hfast
      simp only [GetBonePosition, if_pos h1, hp0, hq0]
  · have hNF1 : NumFrames ≠ 1 := fun h => hfast (Or.inl h)
    have hFr : Frame ≠ 0 := fun h => hfast (Or.inr h)
    obtain ⟨X, Y, F, hev, hfl, hX, hY, _, _, _, _⟩ :=
      GetBonePosition.evenKeys_spec Frame NumFrames Loop N (by omega) hNF hF0 hF1
    have hXP : X < KeyPos.length := by omega
    have hYP : Y < KeyPos.length := by omega
    have hXQ : X < KeyQuat.length := by omega
    have hYQ : Y < KeyQuat.length := by omega
    have hpX : TArray.get KeyPos (X : Int) = some (KeyPos[X]) := by
      rw [TArray.get_natCast]; exact List.getElem?_eq_getElem (by omega)
    have hpY : TArray.get KeyPos (Y : Int) = some (KeyPos[Y]) := by
      rw [TArray.get_natCast]; exact List.getElem?_eq_getElem (by omega)
    have hqX : TArray.get KeyQuat (X : Int) = some (KeyQuat[X]) := by
      rw [TArray.get_natCast]; exact List.getElem?_eq_getElem (by omega)
    have hqY : TArray.get KeyQuat (Y : Int) = some (KeyQuat[Y]) := by
      rw [TArray.get_natCast]; exact List.getElem?_eq_getElem (by omega)
    refine ⟨if F > 0 then Lerp (KeyPos[X]) (KeyPos[Y]) F
        else KeyPos[X],
      if F > 0 then Slerp (KeyQuat[X]) (KeyQuat[Y]) F
        else KeyQuat[X], ?_, ?_⟩
    · rw [GetBonePosition_of_evenKeys Lerp Slerp _ Frame NumFrames Loop rfl rfl rfl hNF1 hFr]
      simp only [hP, hQ, hev, hpX, hpY, hqX, hqY]
      by_cases hF : F > 0 <;> simp [hF]
    · have h1 : ¬ ((uniformKeyTime N NumFrames).length = 1 ∨ NumFrames = 1 ∨ Frame = 0) := by
        rw [hlen]
        rintro (h | h | h)
        · omega
        · exact hNF1 h
        · exact hFr h
      have h2 : ((uniformKeyTime N NumFrames).length : Int) ≠ 0 := by rw [hlen]; omega
      have h3 : ¬ ¬ ((KeyPos.length : Int) = 1
          ∨ (KeyPos.length : Int) = ((uniformKeyTime N NumFrames).length : Int)) := by
        rw [hlen, hP]; simp
      have h4 : ¬ ¬ ((KeyQuat.length : Int) = 1
          ∨ (KeyQuat.length : Int) = ((uniformKeyTime N NumFrames).length : Int)) := by
        rw [hlen, hQ]; simp
      have h5 : ¬ ((KeyPos.length : Int) = 1) := by rw [hP]; omega
      have h6 : ¬ ((KeyQuat.length : Int) = 1) := by rw [hQ]; omega
      simp only [GetBonePosition, if_neg h1, if_pos h2, if_neg h3, if_neg h4, hgk, if_neg h5,
        if_neg h6, hev, hpX, hpY, hqX, hqY]
      by_cases hF : F > 0 <;> simp [hF]

/-- When the three operations of the block for evenly spaced keys do not round, the block
returns what it returns without rounding. -/
theorem GetBonePosition.evenKeysRounded_of_exact (fl : ℚ → ℚ) (Frame NumFrames : ℚ)
    (Loop : Bool) (N : Nat)
    (hx1 : fl (Frame / NumFrames) = Frame / NumFrames)
    (hx2 : fl (Frame / NumFrames * N) = Frame / NumFrames * N)
    (hx3 : fl (Frame / NumFrames * N - Int.floor (Frame / NumFrames * N))
      = Frame / NumFrames * N - Int.floor (Frame / NumFrames * N)) :
    GetBonePosition.evenKeysRounded fl Frame NumFrames Loop N
      = GetBonePosition.evenKeys Frame NumFrames Loop N := by
  simp only [GetBonePosition.evenKeysRounded, GetBonePosition.evenKeys, Int.cast_natCast, hx1,
    hx2, hx3]

/-- With the timestamps `k * NumFrames / N`, the key found by `FindTimeKey` is the integer
part of `Frame / NumFrames * N`. -/
theorem FindTimeKey_uniformKeyTime (N : Nat) (hN : 2 ≤ N) (Frame NumFrames : ℚ)
    (hNF : 0 < NumFrames) (hF0 : 0 ≤ Frame) (hF1 : Frame < NumFrames) :
    ∃ r : Nat, FindTimeKey (uniformKeyTime N NumFrames) Frame = some (r : Int) ∧ r < N
      ∧ (r : Int) = Int.floor (Frame / NumFrames * N) := by
  have hNq : (0 : ℚ) < N := by exact_mod_cast (show 0 < N by omega)
  have hlen := uniformKeyTime_length N NumFrames
  have hne : uniformKeyTime N NumFrames ≠ [] := by
    apply List.ne_nil_of_length_pos
    omega
  have hs := uniformKeyTime_sorted N NumFrames hNF
  have hfirst : (uniformKeyTime N NumFrames).getD 0 0 ≤ Frame := by
    rw [uniformKeyTime_getD N NumFrames 0 (by omega)]
    simpa using hF0
  obtain ⟨r, he, hr, hle, hgt⟩ :=
    FindTimeKey_bracket (uniformKeyTime N NumFrames) Frame hne hs hfirst
  rw [hlen] at hr
  rw [uniformKeyTime_getD N NumFrames r hr] at hle
  have hrle : (r : ℚ) ≤ Frame / NumFrames * N := by
    rw [div_mul_eq_mul_div, le_div_iff₀ hNF]
    rw [div_le_iff₀ hNq] at hle
    linarith
  have hrlt : Frame / NumFrames * N < (r : ℚ) + 1 := by
    by_cases hlast : r + 1 < N
    · have hnext := hgt (r + 1) (by omega) (by omega)
      rw [uniformKeyTime_getD N NumFrames (r + 1) hlast] at hnext
      rw [lt_div_iff₀ hNq] at hnext
      rw [div_mul_eq_mul_div, div_lt_iff₀ hNF]
      push_cast at hnext
      linarith
    · have hrN : (r : ℚ) + 1 = N := by
        have : r + 1 = N := by omega
        exact_mod_cast this
      rw [hrN, div_mul_eq_mul_div, div_lt_iff₀ hNF]
      nlinarith
  refine ⟨r, he, hr, ?_⟩
  symm
  rw [Int.floor_eq_iff]
  exact ⟨by exact_mod_cast hrle, by exact_mod_cast hrlt⟩

/-- The result of `GetKeyParamsRounded` in terms of the key found by `FindTimeKey`. -/
theorem GetKeyParamsRounded_of_FindTimeKey (fl : ℚ → ℚ) (KeyTime : List ℚ)
    (Frame NumFrames : ℚ) (Loop : Bool)
    (r : Nat) (hr : r < KeyTime.length) (he : FindTimeKey KeyTime Frame = some (r : Int)) :
    GetKeyParamsRounded fl KeyTime Frame NumFrames Loop
      = if r + 1 < KeyTime.length then
          some ((r : Int), (r : Int) + 1,
            fl (fl (Frame - KeyTime.getD r 0)
              / fl (KeyTime.getD (r + 1) 0 - KeyTime.getD r 0)))
        else if Loop then
          some ((r : Int), 0,
            fl (fl (Frame - KeyTime.getD r 0) / fl (NumFrames - KeyTime.getD r 0)))
        else some ((r : Int), (r : Int), 0) := by
  have hget : TArray.get KeyTime (r : Int) = some (KeyTime.getD r 0) :=
    TArray.get_of_bounds KeyTime r (by omega) (by omega)
  by_cases hY : (r : Int) + 1 ≥ (KeyTime.length : Int)
  · have hn : ¬ (r + 1 < KeyTime.length) := by omega
    cases Loop with
    | false =>
      have hX : (r : Int) = (KeyTime.length : Int) - 1 := by omega
      simp [GetKeyParamsRounded, he, hY, hn, hX]
    | true => simp [GetKeyParamsRounded, he, hY, hn, hget]
  · have hY2 : r + 1 < KeyTime.length := by omega
    have hget2 : TArray.get KeyTime ((r : Int) + 1) = some (KeyTime.getD (r + 1) 0) := by
      rw [TArray.get_of_bounds KeyTime ((r : Int) + 1) (by omega) (by omega)]
      congr 1
    simp only [GetKeyParamsRounded, he, if_neg hY, hget, hget2, if_pos hY2]

/-- With the timestamps `k * NumFrames / N`, `GetKeyParamsRounded` returns what `GetKeyParams`
returns when the two differences and the quotient of the fraction do not round. -/
theorem GetKeyParamsRounded_uniformKeyTime (fl : ℚ → ℚ) (N : Nat) (hN : 2 ≤ N)
    (Frame NumFrames : ℚ) (hNF : 0 < NumFrames) (hF0 : 0 ≤ Frame) (hF1 : Frame < NumFrames)
    (Loop : Bool)
    (hx4 : fl (Frame - Int.floor (Frame / NumFrames * N) * NumFrames / N)
      = Frame - Int.floor (Frame / NumFrames * N) * NumFrames / N)
    (hx5 : fl (NumFrames / N) = NumFrames / N)
    (hx6 : fl ((Frame - Int.floor (Frame / NumFrames * N) * NumFrames / N) / (NumFrames / N))
      = (Frame - Int.floor (Frame / NumFrames * N) * NumFrames / N) / (NumFrames / N)) :
    GetKeyParamsRounded fl (uniformKeyTime N NumFrames) Frame NumFrames Loop
      = GetKeyParams (uniformKeyTime N NumFrames) Frame NumFrames Loop := by
  have hNq : (0 : ℚ) < N := by exact_mod_cast (show 0 < N by omega)
  have hN' : (N : ℚ) ≠ 0 := ne_of_gt hNq
  have hlen := uniformKeyTime_length N NumFrames
  obtain ⟨r, he, hr, hfloor⟩ := FindTimeKey_uniformKeyTime N hN Frame NumFrames hNF hF0 hF1
  rw [← hfloor] at hx4 hx6
  simp only [Int.cast_natCast] at hx4 hx6
  rw [GetKeyParamsRounded_of_FindTimeKey fl _ Frame NumFrames Loop r (by omega) he,
    GetKeyParams_of_FindTimeKey _ Frame NumFrames Loop r (by omega) he, hlen,
    uniformKeyTime_getD N NumFrames r hr]
  by_cases hlast : r + 1 < N
  · have hd : ((r + 1 : Nat) : ℚ) * NumFrames / N - (r : ℚ) * NumFrames / N
        = NumFrames / N := by
      push_cast
      ring
    rw [if_pos hlast, if_pos hlast, uniformKeyTime_getD N NumFrames (r + 1) hlast, hd, hx4,
      hx5, hx6]
  · have hrq : (r : ℚ) = N - 1 := by
      have h1 : r + 1 = N := by omega
      have : (r : ℚ) + 1 = N := by exact_mod_cast h1
      linarith
    have hd : NumFrames - (r : ℚ) * NumFrames / N = NumFrames / N := by
      rw [hrq]
      field_simp
      ring
    rw [if_neg hlast, if_neg hlast, hd, hx4, hx5, hx6]

/-- `GetBonePositionRounded` returns what `GetBonePosition` returns on a track without
per-property timestamps when the brackets it computes are those computed without
rounding. -/
theorem GetBonePositionRounded_of_brackets {V Q : Type} (fl : ℚ → ℚ) (Lerp : V → V → ℚ → V)
    (Slerp : Q → Q → ℚ → Q) (A : AnalogTrack V Q) (Frame NumFrames : ℚ) (Loop : Bool)
    (hPT : A.KeyPosTime = []) (hQT : A.KeyQuatTime = [])
    (hK : A.KeyTime ≠ [] → GetKeyParamsRounded fl A.KeyTime Frame NumFrames Loop
      = GetKeyParams A.KeyTime Frame NumFrames Loop)
    (hEP : A.KeyTime = [] →
      GetBonePosition.evenKeysRounded fl Frame NumFrames Loop A.KeyPos.length
        = GetBonePosition.evenKeys Frame NumFrames Loop A.KeyPos.length)
    (hEQ : A.KeyTime = [] →
      GetBonePosition.evenKeysRounded fl Frame NumFrames Loop A.KeyQuat.length
        = GetBonePosition.evenKeys Frame NumFrames Loop A.KeyQuat.length) :
    GetBonePositionRounded fl Lerp Slerp A Frame NumFrames Loop
      = GetBonePosition Lerp Slerp A Frame NumFrames Loop := by
  by_cases hT : A.KeyTime = []
  · simp only [GetBonePositionRounded, GetBonePosition, hT, hPT, hQT, List.length_nil,
      Nat.cast_zero, ne_eq, not_true_eq_false, if_false, hEP hT, hEQ hT]
  · have hlen : ((A.KeyTime.length : Nat) : Int) ≠ 0 := by
      have := List.length_pos.mpr hT
      omega
    simp only [GetBonePositionRounded, GetBonePosition, ne_eq, hlen, not_false_eq_true, if_true,
      hK hT]

/-- C27 (amended): for `N ≥ 2` position and `N` orientation keys, `NumFrames > 0`,
`0 ≤ Frame < NumFrames`, either loop flag and every rounding `fl` under which none of the
`float` operations of the two computations rounds at this input, the explicit timestamps
`KeyTime[k] = k * NumFrames / N` make `GetKeyParams` select the previous index, next index
and fraction that the code for evenly spaced keys computes from `N`, and `GetBonePosition`
returns the same pose for the track without timestamps and for the track with these
timestamps. -/
theorem GetBonePosition_uniform_eq_explicit {V Q : Type} (fl : ℚ → ℚ) (Lerp : V → V → ℚ → V)
    (Slerp : Q → Q → ℚ → Q) (KeyPos : List V) (KeyQuat : List Q) (N : Nat) (hN : 2 ≤ N)
    (hP : KeyPos.length = N) (hQ : KeyQuat.length = N) (Frame NumFrames : ℚ)
    (hNF : 0 < NumFrames) (hF0 : 0 ≤ Frame) (hF1 : Frame < NumFrames) (Loop : Bool)
    (hx : uniformSamplingExact fl Frame NumFrames N) :
    GetKeyParamsRounded fl (uniformKeyTime N NumFrames) Frame NumFrames Loop
        = some (GetBonePosition.evenKeysRounded fl Frame NumFrames Loop N)
      ∧ ∃ (p : V) (q : Q),
          GetBonePositionRounded fl Lerp Slerp ⟨KeyQuat, KeyPos, [], [], []⟩ Frame NumFrames
              Loop = some (p, q)
            ∧ GetBonePositionRounded fl Lerp Slerp
                ⟨KeyQuat, KeyPos, uniformKeyTime N NumFrames, [], []⟩ Frame NumFrames Loop
              = some (p, q) := by
  obtain ⟨hx1, hx2, hx3, hx4, hx5, hx6⟩ := hx
  have hE := GetBonePosition.evenKeysRounded_of_exact fl Frame NumFrames Loop N hx1 hx2 hx3
  have hK := GetKeyParamsRounded_uniformKeyTime fl N hN Frame NumFrames hNF hF0 hF1 Loop hx4
    hx5 hx6
  obtain ⟨hgk, p, q, hA, hB⟩ := GetBonePosition_uniformKeyTime Lerp Slerp KeyPos KeyQuat N hN
    hP hQ Frame NumFrames hNF hF0 hF1 Loop
  refine ⟨by rw [hK, hE, hgk], p, q, ?_, ?_⟩
  · rw [GetBonePositionRounded_of_brackets fl Lerp Slerp _ Frame NumFrames Loop rfl rfl
      (fun h => absurd rfl h) (fun _ => by simp only [hP]; exact hE)
      (fun _ => by simp only [hQ]; exact hE)]
    exact hA
  · have hne : uniformKeyTime N NumFrames ≠ [] := by
      apply List.ne_nil_of_length_pos
      rw [uniformKeyTime_length]
      omega
    rw [GetBonePositionRounded_of_brackets fl Lerp Slerp _ Frame NumFrames Loop rfl rfl
      (fun _ => hK) (fun h => absurd h hne) (fun h => absurd h hne)]
    exact hB

/-- C27 at a concrete input, in single precision: four keys on an 8-frame looping sequence,
sampled at frame 7; no operation rounds (`7 / 8 * 4 = 3.5`, timestamps 0, 2, 4, 6). -/
theorem GetBonePosition_uniform_eq_explicit_witness :
    GetKeyParamsRounded binary32 (uniformKeyTime 4 8) 7 8 true
        = some (GetBonePosition.evenKeysRounded binary32 7 8 true (4 : Nat))
      ∧ ∃ (p : ℚ) (q : ℚ),
          GetBonePositionRounded binary32 Lerp Lerp ⟨[1, 2, 3, 4], [10, 20, 30, 40], [], [], []⟩
              7 8 true = some (p, q)
            ∧ GetBonePositionRounded binary32 Lerp Lerp
                ⟨[1, 2, 3, 4], [10, 20, 30, 40], uniformKeyTime 4 8, [], []⟩ 7 8 true
              = some (p, q) :=
  GetBonePosition_uniform_eq_explicit binary32 Lerp Lerp [10, 20, 30, 40] [1, 2, 3, 4] 4
    (by decide) rfl rfl 7 8 (by norm_num) (by norm_num) (by norm_num) true
    (by unfold uniformSamplingExact; decide!)

/-- C27 fails as stated in single precision: for 12 keys on a 12-frame sequence the explicit
timestamps are `0, 1, .., 11`. At the `float` `Frame = 14680063 / 2^21` (about 6.9999995) the
search in the timestamps selects the keys 6 and 7 with the fraction `0.9999995`, while the
`float` product `Frame / NumFrames * N` of the evenly spaced keys rounds to `7.0` and selects
the keys 7 and 8 with the fraction 0; the two tracks are sampled to different poses. -/
theorem GetBonePosition_uniform_eq_explicit_counterexample :
    binary32 (14680063 / 2097152) = 14680063 / 2097152
      ∧ (0 : ℚ) ≤ 14680063 / 2097152 ∧ (14680063 / 2097152 : ℚ) < 12
      ∧ uniformKeyTime 12 12 = [0, 1, 2, 3, 4, 5, 6, 7, 8, 9, 10, 11]
      ∧ (uniformKeyTime 12 12).map binary32 = uniformKeyTime 12 12
      ∧ GetKeyParamsRounded binary32 (uniformKeyTime 12 12) (14680063 / 2097152) 12 true
        = some (6, 7, 2097151 / 2097152)
      ∧ GetBonePosition.evenKeysRounded binary32 (14680063 / 2097152) 12 true 12 = (7, 8, 0)
      ∧ GetBonePositionRounded binary32 Lerp Lerp
          ⟨[0, 1, 2, 3, 4, 5, 6, 7, 8, 9, 10, 11],
            [0, 10, 20, 30, 40, 50, 60, 70, 80, 90, 100, 110], [], [], []⟩
          (14680063 / 2097152) 12 true = some (70, 7)
      ∧ GetBonePositionRounded binary32 Lerp Lerp
          ⟨[0, 1, 2, 3, 4, 5, 6, 7, 8, 9, 10, 11],
            [0, 10, 20, 30, 40, 50, 60, 70, 80, 90, 100, 110], uniformKeyTime 12 12, [], []⟩
          (14680063 / 2097152) 12 true
        = some (Lerp 60 70 (2097151 / 2097152), Lerp 6 7 (2097151 / 2097152))
      ∧ Lerp 60 70 (2097151 / 2097152) ≠ 70 := by
  decide!


/-! ## The tween assertion of `UpdateAnimation` -/

/-- C25: channel 0 is set by `PlayAnimInternal("run", 1, 1, 0, false)` (tween time 1, `Time`
0) and then frozen by `FreezeAnimAt(3, 0)`: the channel has `TweenTime = 1` and `Time = 3`,
and the next `UpdateAnimation(1/2)` stops on `assert(Chn->Time == 0)`. Without the freeze,
or frozen at time 0, the same update completes. -/
theorem FreezeAnimAt_during_tween :
    ((PlayAnimInternal (twoChannelInstance 0) (some "run") 1 1 0 false).bind
        (fun inst => FreezeAnimAt inst 3 0)).map (fun inst => inst.Channels[0]?)
        = some (some ⟨0, INDEX_NONE, 3, 0, 1, 0, 0, 1, 0, false⟩)
      ∧ ((PlayAnimInternal (twoChannelInstance 0) (some "run") 1 1 0 false).bind
          (fun inst => FreezeAnimAt inst 3 0)).bind
            (fun inst => UpdateAnimation.advance inst (1 / 2)) = none
      ∧ (((PlayAnimInternal (twoChannelInstance 0) (some "run") 1 1 0 false).bind
          (fun inst => FreezeAnimAt inst 0 0)).bind
            (fun inst => UpdateAnimation.advance inst (1 / 2))).map
              (fun inst => inst.Channels[0]?)
        = some (some ⟨0, INDEX_NONE, 0, 0, 1, 0, 0, 1 / 2, 1 / 2, false⟩)
      ∧ ((PlayAnimInternal (twoChannelInstance 0) (some "run") 1 1 0 false).bind
          (fun inst => UpdateAnimation.advance inst (1 / 2))).map
            (fun inst => inst.Channels[0]?)
        = some (some ⟨0, INDEX_NONE, 0, 0, 1, 0, 1, 1 / 2, 1 / 2, false⟩) := by
  decide!

/-! ## `CheckBoneTree` on arrays in any parent-first order -/

/-- The count of visited bones does not depend on the recursion bound once it covers the
bones after `Index`. -/
theorem CheckBoneTree.visits_fuel {V Q : Type} (Bones : List (FMeshBone V Q)) :
    ∀ (f1 f2 Index : Nat), Bones.length - Index ≤ f1 → Bones.length - Index ≤ f2 →
      CheckBoneTree.visits Bones f1 Index = CheckBoneTree.visits Bones f2 Index := by
  intro f1
  induction f1 with
  | zero =>
    intro f2 Index h1 h2
    cases f2 with
    | zero => rfl
    | succ g =>
      have : Bones.length - (Index + 1) = 0 := by omega
      simp [CheckBoneTree.visits, this]
  | succ f ih =>
    intro f2 Index h1 h2
    cases f2 with
    | zero =>
      have : Bones.length - (Index + 1) = 0 := by omega
      simp [CheckBoneTree.visits, this]
    | succ g =>
      simp only [CheckBoneTree.visits]
      congr 2
      apply List.map_congr_left
      intro i hi
      have hi2 := List.mem_range'_1.mp hi
      cases hB : Bones[i]? with
      | none => rfl
      | some B =>
        simp only
        by_cases hp : B.ParentIndex = Index
        · simp only [if_pos hp]
          exact ih g i (by omega) (by omega)
        · simp only [if_neg hp]

/-- The recurrence of the visit count with the recursion bound `Bones.length - Index`. -/
theorem CheckBoneTree.visits_rec {V Q : Type} (Bones : List (FMeshBone V Q)) (Index : Nat)
    (hI : Index < Bones.length) :
    CheckBoneTree.visits Bones (Bones.length - Index) Index
      = 1 + ((List.range' (Index + 1) (Bones.length - (Index + 1))).map (fun i =>
          match Bones[i]? with
          | some B =>
            if B.ParentIndex = Index then CheckBoneTree.visits Bones (Bones.length - i) i
            else 0
          | none => 0)).sum := by
  have hf : Bones.length - Index = (Bones.length - (Index + 1)) + 1 := by omega
  rw [hf]
  simp only [CheckBoneTree.visits]
  congr 2
  apply List.map_congr_left
  intro i hi
  have hi2 := List.mem_range'_1.mp hi
  cases hB : Bones[i]? with
  | none => rfl
  | some B =>
    simp only
    by_cases hp : B.ParentIndex = Index
    · simp only [if_pos hp]
      exact CheckBoneTree.visits_fuel Bones _ _ i (by omega) (by omega)
    · simp only [if_neg hp]

/-- Counting the bones by the index of their parent: the visit counts of the bones at or
after `m` whose parent is before `m` add up to the number of bones at or after `m`. -/
theorem CheckBoneTree.visits_forest {V Q : Type} (Bones : List (FMeshBone V Q))
    (hpar : ∀ j B, 0 < j → Bones[j]? = some B → B.ParentIndex < j) :
    ∀ (k m : Nat), 1 ≤ m → m + k = Bones.length →
      ((List.range' m k).map (fun i =>
        match Bones[i]? with
        | some B =>
          if B.ParentIndex < m then CheckBoneTree.visits Bones (Bones.length - i) i else 0
        | none => 0)).sum = k := by
  intro k
  induction k with
  | zero => intro m _ _; simp
  | succ k ih =>
    intro m hm hmk
    have hmN : m < Bones.length := by omega
    obtain ⟨B, hB⟩ : ∃ B, Bones[m]? = some B := ⟨Bones[m], List.getElem?_eq_getElem hmN⟩
    have hpm : B.ParentIndex < m := hpar m B (by omega) hB
    have hrec := CheckBoneTree.visits_rec Bones m hmN
    have hk : Bones.length - (m + 1) = k := by omega
    rw [hk] at hrec
    have hnext := ih (m + 1) (by omega) (by omega)
    have hsplit : (List.range' (m + 1) k).map (fun i =>
          match Bones[i]? with
          | some B =>
            if B.ParentIndex < m + 1 then CheckBoneTree.visits Bones (Bones.length - i) i
            else 0
          | none => 0)
        = (List.range' (m + 1) k).map (fun i =>
          (match Bones[i]? with
            | some B =>
              if B.ParentIndex < m then CheckBoneTree.visits Bones (Bones.length - i) i
              else 0
            | none => 0)
          + (match Bones[i]? with
            | some B =>
              if B.ParentIndex = m then CheckBoneTree.visits Bones (Bones.length - i) i
              else 0
            | none => 0)) := by
      apply List.map_congr_left
      intro i _
      cases hBi : Bones[i]? with
      | none => rfl
      | some Bi =>
        simp only
        by_cases h1 : Bi.ParentIndex < m
        · have h2 : Bi.ParentIndex < m + 1 := by omega
          have h3 : ¬ Bi.ParentIndex = m := by omega
          simp only [if_pos h1, if_pos h2, if_neg h3, Nat.add_zero]
        · by_cases h3 : Bi.ParentIndex = m
          · have h2 : Bi.ParentIndex < m + 1 := by omega
            simp only [if_neg h1, if_pos h2, if_pos h3, Nat.zero_add]
          · have h2 : ¬ Bi.ParentIndex < m + 1 := by omega
            simp only [if_neg h1, if_neg h2, if_neg h3]
    rw [hsplit, List.sum_map_add] at hnext
    rw [List.range'_succ, List.map_cons, List.sum_cons, hB]
    simp only [if_pos hpm]
    rw [hrec]
    omega

/-- On a non-empty array with `ParentIndex[i] < i` for every `i > 0`, the traversal from bone
0 visits as many bones as the array has. -/
theorem CheckBoneTree.visits_root {V Q : Type} (Bones : List (FMeshBone V Q))
    (hpar : ∀ j B, 0 < j → Bones[j]? = some B → B.ParentIndex < j)
    (hne : 0 < Bones.length) :
    CheckBoneTree.visits Bones Bones.length 0 = Bones.length := by
  have hrec := CheckBoneTree.visits_rec Bones 0 hne
  have hforest := CheckBoneTree.visits_forest Bones hpar (Bones.length - 1) 1 (le_refl _)
    (by omega)
  have hsame : (List.range' (0 + 1) (Bones.length - (0 + 1))).map (fun i =>
        match Bones[i]? with
        | some B =>
          if B.ParentIndex = 0 then CheckBoneTree.visits Bones (Bones.length - i) i else 0
        | none => 0)
      = (List.range' 1 (Bones.length - 1)).map (fun i =>
        match Bones[i]? with
        | some B =>
          if B.ParentIndex < 1 then CheckBoneTree.visits Bones (Bones.length - i) i else 0
        | none => 0) := by
    apply List.map_congr_left
    intro i _
    cases hBi : Bones[i]? with
    | none => rfl
    | some Bi =>
      simp only
      by_cases h : Bi.ParentIndex = 0
      · have h2 : Bi.ParentIndex < 1 := by omega
        simp only [if_pos h, if_pos h2]
      · have h2 : ¬ Bi.ParentIndex < 1 := by omega
        simp only [if_neg h, if_neg h2]
  rw [hsame, hforest] at hrec
  simp only [Nat.sub_zero] at hrec
  omega

theorem SizesBounded.concat_ranges {a b c : Nat} {S S1 S2 : List Int} (hab : a ≤ b) (hbc : b ≤ c)
    (h1 : SizesBounded a b S S1) (h2 : SizesBounded b c S1 S2) : SizesBounded a c S S2 := by
  obtain ⟨hl1, hin1, hout1⟩ := h1
  obtain ⟨hl2, hin2, hout2⟩ := h2
  refine ⟨by omega, ?_, ?_⟩
  · intro k hk1 hk2
    by_cases hk : k < b
    · obtain ⟨s, hs, hsb⟩ := hin1 k hk1 hk
      exact ⟨s, by rw [hout2 k (Or.inl hk)]; exact hs, by omega⟩
    · exact hin2 k (by omega) hk2
  · intro k hk
    rw [hout2 k (by omega), hout1 k (by omega)]

/-- The child loop of `CheckBoneTree` over the candidate indices `l`, given that the
recursive calls behave as stated for the bones after `Index`. -/
theorem CheckBoneTree.childLoop_general {V Q : Type} (Bones : List (FMeshBone V Q))
    (maxIndices : Nat) (Index : Nat) (count : Nat → Nat)
    (recurse : Nat → List Int × Nat → Option (Int × (List Int × Nat)))
    (hrec : ∀ (i : Nat) (S : List Int) (n : Nat), Index < i → i < Bones.length →
      n + count i ≤ maxIndices → maxIndices ≤ S.length →
      ∃ S', recurse i (S, n) = some ((count i : Int), (S', n + count i))
        ∧ SizesBounded n (n + count i) S S') :
    ∀ (l : List Nat) (t : Int) (S : List Int) (m : Nat),
      (∀ i ∈ l, Index < i ∧ i < Bones.length) →
      m + (l.map (fun i =>
        match Bones[i]? with
        | some B => if B.ParentIndex = Index then count i else 0
        | none => 0)).sum ≤ maxIndices →
      maxIndices ≤ S.length →
      ∃ S', l.foldlM (CheckBoneTree.loopBody Bones Index recurse) (t, (S, m))
          = some (t + ((l.map (fun i =>
              match Bones[i]? with
              | some B => if B.ParentIndex = Index then count i else 0
              | none => 0)).sum : Nat),
            (S', m + (l.map (fun i =>
              match Bones[i]? with
              | some B => if B.ParentIndex = Index then count i else 0
              | none => 0)).sum))
        ∧ SizesBounded m (m + (l.map (fun i =>
              match Bones[i]? with
              | some B => if B.ParentIndex = Index then count i else 0
              | none => 0)).sum) S S' := by
  intro l
  induction l with
  | nil =>
    intro t S m _ _ _
    refine ⟨S, by simp, rfl, ?_, fun _ _ => rfl⟩
    intro k hk1 hk2
    simp at hk2
    omega
  | cons i l ih =>
    intro t S m hl hsum hS
    obtain ⟨hi1, hi2⟩ := hl i (List.mem_cons_self _ _)
    obtain ⟨B, hB⟩ : ∃ B, Bones[i]? = some B := ⟨Bones[i], List.getElem?_eq_getElem hi2⟩
    have hl2 : ∀ j ∈ l, Index < j ∧ j < Bones.length :=
      fun j hj => hl j (List.mem_cons_of_mem _ hj)
    rw [List.foldlM_cons]
    simp only [List.map_cons, List.sum_cons, hB] at hsum ⊢
    by_cases hp : B.ParentIndex = Index
    · simp only [if_pos hp] at hsum ⊢
      obtain ⟨S1, hr, hb1⟩ := hrec i S m hi1 hi2 (by omega) hS
      have hstep : CheckBoneTree.loopBody Bones Index recurse (t, (S, m)) i
          = some (t + (count i : Int), (S1, m + count i)) := by
        simp only [CheckBoneTree.loopBody, hB, if_pos hp, hr]
      rw [hstep]
      obtain ⟨S2, hr2, hb2⟩ := ih (t + (count i : Int)) S1 (m + count i) hl2 (by omega)
        (by rw [hb1.1]; exact hS)
      refine ⟨S2, ?_, ?_⟩
      · simp only [Option.bind_eq_bind, Option.some_bind]
        rw [hr2]
        simp only [Nat.cast_add, Option.some.injEq, Prod.mk.injEq]
        constructor
        · ring
        · constructor
          · trivial
          · omega
      · have := SizesBounded.concat_ranges (Nat.le_add_right _ _) (Nat.le_add_right _ _) hb1 hb2
        rw [Nat.add_assoc] at this
        exact this
    · simp only [if_neg hp, Nat.zero_add] at hsum ⊢
      have hstep : CheckBoneTree.loopBody Bones Index recurse (t, (S, m)) i
          = some (t, (S, m)) := by
        simp only [CheckBoneTree.loopBody, hB, if_neg hp]
      rw [hstep]
      exact ih t S m hl2 hsum hS

/-- On any bone array `CheckBoneTree` started at `Index` with `numIndices = n` visits
`visits Index` bones, provided the counter stays within `maxIndices`: it returns that count,
advances `numIndices` by it, and fills `Sizes[n ..]` with sizes that stay inside the range
visited. -/
theorem CheckBoneTree_general {V Q : Type} (Bones : List (FMeshBone V Q)) (maxIndices : Nat) :
    ∀ (fuel Index : Nat) (S : List Int) (n : Nat), Index < Bones.length →
      Bones.length - Index ≤ fuel →
      n + CheckBoneTree.visits Bones fuel Index ≤ maxIndices → maxIndices ≤ S.length →
      ∃ S', CheckBoneTree Bones maxIndices fuel Index (S, n)
          = some ((CheckBoneTree.visits Bones fuel Index : Int),
              (S', n + CheckBoneTree.visits Bones fuel Index))
        ∧ SizesBounded n (n + CheckBoneTree.visits Bones fuel Index) S S' := by
  intro fuel
  induction fuel with
  | zero => intro Index S n hI hf; omega
  | succ fuel ih =>
    intro Index S n hI hf hmax hS
    simp only [CheckBoneTree.visits] at hmax ⊢
    have hlt : n < maxIndices := by omega
    have key :=
      CheckBoneTree.childLoop_general Bones maxIndices Index
        (CheckBoneTree.visits Bones fuel) (CheckBoneTree Bones maxIndices fuel)
        (fun i S2 n2 h1 h2 h3 h4 => ih i S2 n2 h2 (by omega) h3 h4)
        (List.range' (Index + 1) (Bones.length - (Index + 1))) 0 S (n + 1)
        (by
          intro i hi
          have := List.mem_range'_1.mp hi
          omega)
        (by omega) hS
    generalize hc : (List.map (fun i =>
        match Bones[i]? with
        | some B => if B.ParentIndex = Index then CheckBoneTree.visits Bones fuel i else 0
        | none => 0) (List.range' (Index + 1) (Bones.length - (Index + 1)))).sum = c
      at key hmax ⊢
    obtain ⟨S1, hr1, hl1, hin1, hout1⟩ := key
    refine ⟨S1.set n ((0 : Int) + (c : Int)), ?_, ?_⟩
    · simp only [CheckBoneTree, if_pos hlt, hr1]
      simp only [zero_add, Option.some.injEq, Prod.mk.injEq]
      refine ⟨by push_cast; ring, trivial, by omega⟩
    · refine ⟨by simp [hl1], ?_, ?_⟩
      · intro k hk1 hk2
        by_cases hk : k = n
        · subst hk
          refine ⟨c, ?_, by omega⟩
          rw [List.getElem?_set_self (by omega)]
          simp only [zero_add]
        · obtain ⟨s, hs, hsb⟩ := hin1 k (by omega) (by omega)
          exact ⟨s, by rw [List.getElem?_set_ne (by omega)]; exact hs, by omega⟩
      · intro k hk
        rw [List.getElem?_set_ne (by omega)]
        exact hout1 k (by omega)

/-- On a non-empty array of at most `MAX_MESHBONES` bones with `ParentIndex[i] < i` for
`i > 0`, `CheckBoneTree` from bone 0 ends with `numIndices == NumBones`, the assertion of
`SetMesh` holds, and every stored size `s` at index `k` satisfies `k + s < NumBones`. -/
theorem SetMesh.VerifySkeleton_parent_first {V Q : Type} (Bones : List (FMeshBone V Q))
    (garbage : Nat → Int) (hne : 0 < Bones.length) (hmax : Bones.length ≤ MAX_MESHBONES)
    (hpar : ∀ j B, 0 < j → Bones[j]? = some B → B.ParentIndex < j) :
    ∃ S' : List Int,
      CheckBoneTree Bones MAX_MESHBONES Bones.length 0
          ((List.range MAX_MESHBONES).map garbage, 0)
        = some ((Bones.length : Int), (S', Bones.length))
      ∧ SetMesh.VerifySkeleton Bones garbage = some (S'.take Bones.length)
      ∧ (S'.take Bones.length).length = Bones.length
      ∧ ∀ k, k < Bones.length →
          ∃ s : Nat, (S'.take Bones.length)[k]? = some (s : Int) ∧ k + s < Bones.length := by
  have hroot := CheckBoneTree.visits_root Bones hpar hne
  obtain ⟨S', hr, hlen, hin, _⟩ :=
    CheckBoneTree_general Bones MAX_MESHBONES Bones.length 0
      ((List.range MAX_MESHBONES).map garbage) 0 hne (by omega) (by omega) (by simp)
  rw [hroot] at hr hin
  simp only [Nat.zero_add] at hr hin
  have hlen2 : S'.length = MAX_MESHBONES := by simpa using hlen
  have hN : Bones.length ≠ 0 := by omega
  refine ⟨S', hr, ?_, by simp [hlen2, hmax], ?_⟩
  · simp only [SetMesh.VerifySkeleton, if_pos hN, hr, if_true]
  · intro k hk
    obtain ⟨s, hs, hsb⟩ := hin k (Nat.zero_le _) hk
    exact ⟨s, by rw [List.getElem?_take_of_lt hk]; exact hs, hsb⟩

theorem foldlM_congr_mem {α β : Type} (f g : β → α → Option β) :
    ∀ (l : List α) (b : β), (∀ a ∈ l, ∀ b, f b a = g b a) → l.foldlM f b = l.foldlM g b := by
  intro l
  induction l with
  | nil => intro b _; rfl
  | cons a l ih =>
    intro b h
    simp only [List.foldlM_cons]
    rw [h a (List.mem_cons_self _ _) b]
    cases g b a with
    | none => rfl
    | some b' => exact ih b' (fun x hx => h x (List.mem_cons_of_mem _ hx))

/-- On the signed parent indices of a bone array whose bones other than the root have a
parent index that is not negative, `CheckBoneTree` runs as on the array. -/
theorem CheckBoneTreeSigned_eq {V Q : Type} (Bones : List (FMeshBone V Q))
    (ParentIndex : List Int) (hlen : ParentIndex.length = Bones.length)
    (hagree : ∀ (i : Nat) (B : FMeshBone V Q), 0 < i → Bones[i]? = some B →
      ParentIndex[i]? = some (B.ParentIndex : Int))
    (maxIndices : Nat) :
    ∀ (fuel Index : Nat) (st : List Int × Nat),
      CheckBoneTreeSigned ParentIndex maxIndices fuel Index st
        = CheckBoneTree Bones maxIndices fuel Index st := by
  intro fuel
  induction fuel with
  | zero => intro _ _; rfl
  | succ fuel ih =>
    intro Index st
    obtain ⟨Sizes, numIndices⟩ := st
    have hrec : CheckBoneTreeSigned ParentIndex maxIndices fuel
        = CheckBoneTree Bones maxIndices fuel := by
      funext i s
      exact ih i s
    have hfold : ∀ b,
        (List.range' (Index + 1) (ParentIndex.length - (Index + 1))).foldlM
          (CheckBoneTree.loopBodySigned ParentIndex Index
            (CheckBoneTreeSigned ParentIndex maxIndices fuel)) b
        = (List.range' (Index + 1) (Bones.length - (Index + 1))).foldlM
          (CheckBoneTree.loopBody Bones Index (CheckBoneTree Bones maxIndices fuel)) b := by
      intro b
      rw [hlen, hrec]
      apply foldlM_congr_mem
      intro i hi acc
      rw [List.mem_range'_1] at hi
      have hib : i < Bones.length := by omega
      have hB : Bones[i]? = some (Bones[i]) := List.getElem?_eq_getElem hib
      have hP := hagree i (Bones[i]) (by omega) hB
      simp only [CheckBoneTree.loopBodySigned, CheckBoneTree.loopBody, hB, hP, Nat.cast_inj]
    simp only [CheckBoneTreeSigned, CheckBoneTree, hfold]

/-- C21 (amended): for a non-empty array of at most `MAX_MESHBONES` bones with
`0 ≤ ParentIndex[i] < i` for every `i > 0`, `CheckBoneTree` started at bone 0 terminates with
a returned count and a visit counter `numIndices` both equal to the number of bones, so the
assertion `numIndices == NumBones` of `SetMesh` holds and the sizes are stored. The array is
given by the list of its signed `ParentIndex` fields. -/
theorem SetMesh_VerifySkeleton_visits_every_bone (ParentIndex : List Int)
    (garbage : Nat → Int) (hne : ParentIndex ≠ [])
    (hmax : ParentIndex.length ≤ MAX_MESHBONES)
    (hpar : ∀ (j : Nat) (p : Int), 0 < j → ParentIndex[j]? = some p → 0 ≤ p ∧ p < j) :
    (∃ S' : List Int,
        CheckBoneTreeSigned ParentIndex MAX_MESHBONES ParentIndex.length 0
            ((List.range MAX_MESHBONES).map garbage, 0)
          = some ((ParentIndex.length : Int), (S', ParentIndex.length)))
      ∧ ∃ SubtreeSize : List Int,
          SetMesh.VerifySkeletonSigned ParentIndex garbage = some SubtreeSize
          ∧ SubtreeSize.length = ParentIndex.length := by
  have hlen : ParentIndex.length
      = (ParentIndex.map (fun p => (⟨"", p.toNat, (), ()⟩ : FMeshBone Unit Unit))).length := by
    simp
  have hpos : 0 < ParentIndex.length := List.length_pos.mpr hne
  have hagree : ∀ (i : Nat) (B : FMeshBone Unit Unit), 0 < i →
      (ParentIndex.map (fun p => (⟨"", p.toNat, (), ()⟩ : FMeshBone Unit Unit)))[i]? = some B →
      ParentIndex[i]? = some (B.ParentIndex : Int) := by
    intro i B hi hB
    rw [List.getElem?_map] at hB
    cases hp : ParentIndex[i]? with
    | none => simp [hp] at hB
    | some p =>
      simp only [hp, Option.map_some', Option.some.injEq] at hB
      subst hB
      have h0 := (hpar i p hi hp).1
      simp only [Int.toNat_of_nonneg h0]
  have hparN : ∀ (j : Nat) (B : FMeshBone Unit Unit), 0 < j →
      (ParentIndex.map (fun p => (⟨"", p.toNat, (), ()⟩ : FMeshBone Unit Unit)))[j]? = some B →
      B.ParentIndex < j := by
    intro j B hj hB
    have h1 := hagree j B hj hB
    have h2 := (hpar j _ hj h1).2
    omega
  obtain ⟨S', hr, hv, hl, _⟩ :=
    SetMesh.VerifySkeleton_parent_first
      (ParentIndex.map (fun p => (⟨"", p.toNat, (), ()⟩ : FMeshBone Unit Unit))) garbage
      (by rw [← hlen]; exact hpos) (by rw [← hlen]; exact hmax) hparN
  have heq := CheckBoneTreeSigned_eq
    (ParentIndex.map (fun p => (⟨"", p.toNat, (), ()⟩ : FMeshBone Unit Unit))) ParentIndex hlen
    hagree MAX_MESHBONES
  rw [← hlen] at hr hl
  rw [← heq] at hr
  refine ⟨⟨S', hr⟩, S'.take ParentIndex.length, ?_, hl⟩
  simp only [SetMesh.VerifySkeletonSigned, ne_eq, Nat.pos_iff_ne_zero.mp hpos,
    not_false_eq_true, if_true, hr]

/-- C21 at a concrete input: four bones stored parent-first but not depth-first (the root
with parent index `-1`, two children of the root, and a child of bone 1). -/
theorem SetMesh_VerifySkeleton_visits_every_bone_witness :
    (∃ S' : List Int,
        CheckBoneTreeSigned [-1, 0, 0, 1] MAX_MESHBONES ([-1, 0, 0, 1] : List Int).length 0
            ((List.range MAX_MESHBONES).map (fun _ => 7), 0)
          = some ((([-1, 0, 0, 1] : List Int).length : Int),
              (S', ([-1, 0, 0, 1] : List Int).length)))
      ∧ ∃ SubtreeSize : List Int,
          SetMesh.VerifySkeletonSigned [-1, 0, 0, 1] (fun _ => 7) = some SubtreeSize
          ∧ SubtreeSize.length = ([-1, 0, 0, 1] : List Int).length :=
  SetMesh_VerifySkeleton_visits_every_bone [-1, 0, 0, 1] (fun _ => 7) (by simp) (by decide)
    (by
      intro j p hj hp
      match j, hj, hp with
      | 1, _, hp => cases hp; decide
      | 2, _, hp => cases hp; decide
      | 3, _, hp => cases hp; decide
      | j + 4, _, hp => simp at hp)

/-- C21 fails as stated in two ways, both on arrays of two bones that pass the validation
`ParentIndex[i] ≤ i`. When bone 1 is its own parent (`ParentIndex = 1`), and when bone 1 has
the negative parent index `-1`, the traversal from bone 0 visits bone 0 only
(`numIndices = 1`), and the assertion `numIndices == NumBones` stops `SetMesh`. -/
theorem SetMesh_VerifySkeleton_visits_every_bone_counterexample :
    ((∀ (i : Nat) (p : Int), ([0, 1] : List Int)[i]? = some p → p ≤ i)
      ∧ (CheckBoneTreeSigned [0, 1] MAX_MESHBONES 2 0 ([7, 7], 0)).map
          (fun r => (r.1, r.2.2)) = some (1, 1)
      ∧ SetMesh.VerifySkeletonSigned [0, 1] (fun _ => 7) = none
      ∧ (CheckBoneTree selfParentSkeleton MAX_MESHBONES selfParentSkeleton.length 0
            ([7, 7], 0)).map (fun r => (r.1, r.2.2)) = some (1, 1)
      ∧ SetMesh.VerifySkeleton selfParentSkeleton (fun _ => 7) = none)
    ∧ ((∀ (i : Nat) (p : Int), ([0, -1] : List Int)[i]? = some p → p ≤ i)
      ∧ (CheckBoneTreeSigned [0, -1] MAX_MESHBONES 2 0 ([7, 7], 0)).map
          (fun r => (r.1, r.2.2)) = some (1, 1)
      ∧ SetMesh.VerifySkeletonSigned [0, -1] (fun _ => 7) = none) := by
  refine ⟨⟨?_, by decide, by decide, by decide, by decide⟩, ?_, by decide, by decide⟩
  · intro i p hp
    match i, hp with
    | 0, hp => cases hp; decide
    | 1, hp => cases hp; decide
    | i + 2, hp => simp at hp
  · intro i p hp
    match i, hp with
    | 0, hp => cases hp; decide
    | 1, hp => cases hp; decide
    | i + 2, hp => simp at hp

theorem interleavedSkeleton_parent_first :
    ∀ j B, 0 < j → interleavedSkeleton[j]? = some B → B.ParentIndex < j := by
  intro j B hj hB
  match j, hj, hB with
  | 1, _, hB => cases hB; decide
  | 2, _, hB => cases hB; decide
  | 3, _, hB => cases hB; decide
  | j + 4, _, hB => simp [interleavedSkeleton] at hB

/-- C26: for a bone array with `ParentIndex[i] < i` for every `i > 0`, in depth-first order
or not, the sizes that `SetMesh` stores satisfy `0 ≤ SubtreeSize[i]` and
`i + SubtreeSize[i] < NumBones` at every bone index `i`, so
`lastBone = RootBone + SubtreeSize[RootBone]` passes `assert(lastBone < NumBones)` for every
valid `RootBone`; the sizes are stored whenever the array has at most `MAX_MESHBONES`
bones. -/
theorem SetMesh_SubtreeSize_lastBone_in_range {V Q : Type} (Bones : List (FMeshBone V Q))
    (garbage : Nat → Int)
    (hpar : ∀ j B, 0 < j → Bones[j]? = some B → B.ParentIndex < j) :
    (∀ SubtreeSize : List Int, SetMesh.VerifySkeleton Bones garbage = some SubtreeSize →
        SubtreeSize.length = Bones.length
          ∧ ∀ RootBone : Int, 0 ≤ RootBone → RootBone < Bones.length →
              ∃ s : Int, TArray.get SubtreeSize RootBone = some s ∧ 0 ≤ s
                ∧ RootBone + s < Bones.length)
      ∧ (Bones.length ≤ MAX_MESHBONES →
          ∃ SubtreeSize : List Int, SetMesh.VerifySkeleton Bones garbage = some SubtreeSize) := by
  by_cases hN : Bones.length = 0
  · have hv : SetMesh.VerifySkeleton Bones garbage = some [] := by
      simp [SetMesh.VerifySkeleton, hN]
    refine ⟨?_, fun _ => ⟨[], hv⟩⟩
    intro sizes hs
    rw [hv] at hs
    cases hs
    refine ⟨by simp [hN], ?_⟩
    intro r h0 h1
    omega
  · by_cases hmax : Bones.length ≤ MAX_MESHBONES
    · obtain ⟨S', _, hv, hl, hk⟩ :=
        SetMesh.VerifySkeleton_parent_first Bones garbage (by omega) hmax hpar
      refine ⟨?_, fun _ => ⟨_, hv⟩⟩
      intro sizes hs
      rw [hv] at hs
      cases hs
      refine ⟨hl, ?_⟩
      intro r h0 h1
      obtain ⟨s, hs, hsb⟩ := hk r.toNat (by omega)
      refine ⟨(s : Int), ?_, by omega, by omega⟩
      simp only [TArray.get, if_pos h0, hs]
    · refine ⟨?_, fun h => absurd h hmax⟩
      intro sizes hs
      rw [SetMesh.VerifySkeleton_too_many_bones Bones garbage (by omega)] at hs
      cases hs

/-- C26 at a concrete input: four bones stored parent-first but not depth-first. -/
theorem SetMesh_SubtreeSize_lastBone_in_range_witness :
    (∀ SubtreeSize : List Int,
        SetMesh.VerifySkeleton interleavedSkeleton (fun _ => 7) = some SubtreeSize →
        SubtreeSize.length = interleavedSkeleton.length
          ∧ ∀ RootBone : Int, 0 ≤ RootBone → RootBone < interleavedSkeleton.length →
              ∃ s : Int, TArray.get SubtreeSize RootBone = some s ∧ 0 ≤ s
                ∧ RootBone + s < interleavedSkeleton.length)
      ∧ (interleavedSkeleton.length ≤ MAX_MESHBONES →
          ∃ SubtreeSize : List Int,
            SetMesh.VerifySkeleton interleavedSkeleton (fun _ => 7) = some SubtreeSize) :=
  SetMesh_SubtreeSize_lastBone_in_range interleavedSkeleton (fun _ => 7)
    interleavedSkeleton_parent_first

/-! ## Loops over the bones in parent-first order -/

/-- A loop `for (i = 0; i < N; i++)` over an array of `N` records whose iteration `i` rewrites
element `i` from the element itself and from the element of its parent `par i < i`: after
the loop every element is `F i` of its starting value and of the final value of its
parent. -/
theorem foldlM_parent_first {α : Type} (par : Nat → Nat) (F : Nat → α → α → α)
    (step : List α → Nat → Option (List α)) (N : Nat)
    (hpar : ∀ i, 0 < i → i < N → par i < i) (hpar0 : par 0 = 0)
    (hstep : ∀ (st : List α) (i : Nat) (a p : α), st.length = N → i < N →
      st[i]? = some a → st[par i]? = some p → step st i = some (st.set i (F i a p)))
    (BD : List α) (hBD : BD.length = N) :
    ∃ out, (List.range N).foldlM step BD = some out ∧ out.length = N
      ∧ ∀ i a, BD[i]? = some a →
          ∃ p, (0 < i → out[par i]? = some p) ∧ (i = 0 → p = a)
            ∧ out[i]? = some (F i a p) := by
  have key : ∀ k, k ≤ N →
      ∃ out, (List.range k).foldlM step BD = some out ∧ out.length = N
        ∧ (∀ i, k ≤ i → out[i]? = BD[i]?)
        ∧ ∀ i a, i < k → BD[i]? = some a →
            ∃ p, (0 < i → out[par i]? = some p) ∧ (i = 0 → p = a)
              ∧ out[i]? = some (F i a p) := by
    intro k
    induction k with
    | zero =>
      intro _
      exact ⟨BD, by simp, hBD, fun _ _ => rfl, fun i a hi => absurd hi (by omega)⟩
    | succ k ih =>
      intro hk
      obtain ⟨st, hfold, hlen, hrest, hdone⟩ := ih (by omega)
      have hkN : k < N := by omega
      obtain ⟨a, ha⟩ : ∃ a, BD[k]? = some a :=
        ⟨BD[k], List.getElem?_eq_getElem (by omega)⟩
      have hsta : st[k]? = some a := by rw [hrest k (le_refl _)]; exact ha
      have hpk : par k < N := by
        by_cases h0 : k = 0
        · subst h0; rw [hpar0]; exact hkN
        · have := hpar k (by omega) hkN
          omega
      obtain ⟨p, hp⟩ : ∃ p, st[par k]? = some p :=
        ⟨st[par k], List.getElem?_eq_getElem (by omega)⟩
      have hs := hstep st k a p hlen hkN hsta hp
      refine ⟨st.set k (F k a p), ?_, by simp [hlen], ?_, ?_⟩
      · rw [List.range_succ, List.foldlM_append, hfold]
        simp [hs]
      · intro i hi
        rw [List.getElem?_set_ne (by omega)]
        exact hrest i (by omega)
      · intro i b hi hb
        by_cases hik : i = k
        · subst hik
          rw [ha] at hb
          cases hb
          refine ⟨p, ?_, ?_, ?_⟩
          · intro h0
            have := hpar i h0 hkN
            rw [List.getElem?_set_ne (by omega)]
            exact hp
          · intro h0
            subst h0
            rw [hpar0, hsta] at hp
            cases hp
            rfl
          · rw [List.getElem?_set_self (by omega)]
        · have hlt : i < k := by omega
          obtain ⟨q, hq1, hq2, hq3⟩ := hdone i b hlt hb
          refine ⟨q, ?_, hq2, ?_⟩
          · intro h0
            have := hpar i h0 (by omega)
            rw [List.getElem?_set_ne (by omega)]
            exact hq1 h0
          · rw [List.getElem?_set_ne (by omega)]
            exact hq3
  obtain ⟨out, h1, h2, _, h4⟩ := key N (le_refl _)
  refine ⟨out, h1, h2, ?_⟩
  intro i a ha
  exact h4 i a (by rw [← hBD]; exact lt_length_of_getElem?_eq_some BD i a ha) ha

/-! ## Reference frames and the hierarchy composition pass -/

/-- The parent of bone `i` as the bone loops read it: bone 0 reads no parent. -/
theorem parentIndex_lt {V Q : Type} (RefSkeleton : List (FMeshBone V Q))
    (hpar : ∀ j B, 0 < j → RefSkeleton[j]? = some B → B.ParentIndex < j) :
    (∀ i, 0 < i → i < RefSkeleton.length →
        (fun i => if i = 0 then 0 else ((RefSkeleton[i]?).map (fun B => B.ParentIndex)).getD 0) i
          < i)
      ∧ (fun i => if i = 0 then 0
          else ((RefSkeleton[i]?).map (fun B => B.ParentIndex)).getD 0) 0 = 0 := by
  refine ⟨?_, rfl⟩
  intro i h0 hi
  have hB : RefSkeleton[i]? = some (RefSkeleton[i]) := List.getElem?_eq_getElem hi
  have := hpar i _ h0 hB
  simp only [if_neg (Nat.pos_iff_ne_zero.mp h0), hB, Option.map_some', Option.getD_some]
  exact this

/-- The composition pass on an array in parent-first order: it completes, and every bone
gets the frame computed from its own data and the final frame of its parent, and the
transform computed from that frame; no other field changes. -/
theorem UpdateSkeleton.compose_spec {V Q : Type} (M : CoordsMath V Q)
    (RefSkeleton : List (FMeshBone V Q)) (BaseTransformScaled : CCoords V)
    (BoneData : List (CMeshBoneData V Q (CCoords V)))
    (hpar : ∀ j B, 0 < j → RefSkeleton[j]? = some B → B.ParentIndex < j)
    (hlen : BoneData.length = RefSkeleton.length) :
    ∃ out, UpdateSkeleton.compose M RefSkeleton BaseTransformScaled BoneData = some out
      ∧ out.length = RefSkeleton.length
      ∧ ∀ i B d, RefSkeleton[i]? = some B → BoneData[i]? = some d →
          ∃ p, (0 < i → out[B.ParentIndex]? = some p) ∧ (i = 0 → p = d)
            ∧ out[i]? = some { d with
                Coords := UpdateSkeleton.boneCoords M BaseTransformScaled i d p.Coords,
                Transform := M.UnTransformCoords
                  (UpdateSkeleton.boneCoords M BaseTransformScaled i d p.Coords)
                  d.RefCoordsInv } := by
  obtain ⟨hp1, hp0⟩ := parentIndex_lt RefSkeleton hpar
  obtain ⟨out, h1, h2, h3⟩ := foldlM_parent_first
    (fun i => if i = 0 then 0 else ((RefSkeleton[i]?).map (fun B => B.ParentIndex)).getD 0)
    (fun i d p => { d with
      Coords := UpdateSkeleton.boneCoords M BaseTransformScaled i d p.Coords,
      Transform := M.UnTransformCoords
        (UpdateSkeleton.boneCoords M BaseTransformScaled i d p.Coords) d.RefCoordsInv })
    (UpdateSkeleton.composeBone M RefSkeleton BaseTransformScaled) RefSkeleton.length
    hp1 hp0
    (by
      intro st i a p hst hi ha hp
      have hB : RefSkeleton[i]? = some (RefSkeleton[i]) := List.getElem?_eq_getElem hi
      by_cases h0 : i = 0
      · subst h0
        simp only [if_true] at hp
        rw [ha] at hp
        cases hp
        simp only [UpdateSkeleton.composeBone, hB, ha, if_true, List.set_set]
        simp [UpdateSkeleton.boneCoords]
      · have hlt := hp1 i (Nat.pos_of_ne_zero h0) hi
        simp only [if_neg h0, hB, Option.map_some', Option.getD_some] at hp hlt
        have hne : i ≠ (RefSkeleton[i]).ParentIndex := by omega
        simp only [UpdateSkeleton.composeBone, hB, ha, if_neg h0,
          List.getElem?_set_ne hne, hp, List.set_set])
    BoneData hlen
  refine ⟨out, h1, h2, ?_⟩
  intro i B d hB hd
  obtain ⟨p, hq1, hq2, hq3⟩ := h3 i d hd
  refine ⟨p, ?_, hq2, hq3⟩
  intro h0
  have := hq1 h0
  simpa only [if_neg (Nat.pos_iff_ne_zero.mp h0), hB, Option.map_some', Option.getD_some]
    using this

/-- The bone loop of `SetMesh` on an array in parent-first order: it completes, and every
bone gets the reference frame computed from its reference pose and the final reference frame
of its parent, the inverse of that frame, and the scale 1. -/
theorem SetMesh.boneLoop_spec {V Q : Type} (M : CoordsMath V Q)
    (RefSkeleton : List (FMeshBone V Q)) (Anim : Option (UMeshAnimation V Q))
    (BoneData : List (CMeshBoneData V Q (CCoords V)))
    (hpar : ∀ j B, 0 < j → RefSkeleton[j]? = some B → B.ParentIndex < j)
    (hroot : ∀ B, RefSkeleton[0]? = some B → B.ParentIndex = 0)
    (hlen : BoneData.length = RefSkeleton.length) :
    ∃ out, SetMesh.boneLoop M RefSkeleton Anim BoneData = some out
      ∧ out.length = RefSkeleton.length
      ∧ ∀ i B, RefSkeleton[i]? = some B →
          ∃ p o, (0 < i → out[B.ParentIndex]? = some p) ∧ out[i]? = some o
            ∧ o.RefCoords = SetMesh.refCoords M i B p.RefCoords
            ∧ o.RefCoordsInv = M.InvertCoords o.RefCoords ∧ o.Scale = 1 := by
  obtain ⟨hp1, hp0⟩ := parentIndex_lt RefSkeleton hpar
  obtain ⟨out, h1, h2, h3⟩ := foldlM_parent_first
    (fun i => if i = 0 then 0 else ((RefSkeleton[i]?).map (fun B => B.ParentIndex)).getD 0)
    (fun i d p =>
      match RefSkeleton[i]? with
      | none => d
      | some B => { d with
          BoneMap := (match Anim with
            | none => INDEX_NONE
            | some Anim => SetMesh.findRefBone B.Name Anim.RefBones 0),
          RefCoords := SetMesh.refCoords M i B p.RefCoords,
          RefCoordsInv := M.InvertCoords (SetMesh.refCoords M i B p.RefCoords),
          Scale := 1 })
    (SetMesh.boneLoopBody M RefSkeleton Anim) RefSkeleton.length
    hp1 hp0
    (by
      intro st i a p hst hi ha hp
      have hB : RefSkeleton[i]? = some (RefSkeleton[i]) := List.getElem?_eq_getElem hi
      by_cases h0 : i = 0
      · subst h0
        have hle : (RefSkeleton[0]).ParentIndex ≤ 0 := le_of_eq (hroot _ hB)
        simp only [SetMesh.boneLoopBody, hB, ha, if_true, List.set_set, if_pos hle]
        simp [SetMesh.refCoords]
      · have hlt := hp1 i (Nat.pos_of_ne_zero h0) hi
        simp only [if_neg h0, hB, Option.map_some', Option.getD_some] at hp hlt
        have hne : i ≠ (RefSkeleton[i]).ParentIndex := by omega
        have hle : (RefSkeleton[i]).ParentIndex ≤ i := by omega
        simp only [SetMesh.boneLoopBody, hB, ha, if_neg h0, if_pos hle,
          List.getElem?_set_ne hne, hp, List.set_set])
    BoneData hlen
  refine ⟨out, h1, h2, ?_⟩
  intro i B hB
  have hi : i < BoneData.length := by
    rw [hlen]; exact lt_length_of_getElem?_eq_some RefSkeleton i B hB
  obtain ⟨p, hq1, hq2, hq3⟩ := h3 i (BoneData[i]) (List.getElem?_eq_getElem hi)
  refine ⟨p, _, ?_, hq3, ?_, ?_, ?_⟩
  · intro h0
    have := hq1 h0
    simpa only [if_neg (Nat.pos_iff_ne_zero.mp h0), hB, Option.map_some', Option.getD_some]
      using this
  · simp only [hB]
  · simp only [hB]
  · simp only [hB]

/-- A completed bone loop of `SetMesh` has passed `assert(B.ParentIndex <= i)` for the root:
the parent index of bone 0 is 0. -/
theorem SetMesh.boneLoop_root {V Q : Type} (M : CoordsMath V Q)
    (RefSkeleton : List (FMeshBone V Q)) (Anim : Option (UMeshAnimation V Q))
    (BoneData out : List (CMeshBoneData V Q (CCoords V)))
    (h : SetMesh.boneLoop M RefSkeleton Anim BoneData = some out) :
    ∀ B, RefSkeleton[0]? = some B → B.ParentIndex = 0 := by
  intro B hB
  have hlen : 0 < RefSkeleton.length := lt_length_of_getElem?_eq_some RefSkeleton 0 B hB
  obtain ⟨n, hn⟩ : ∃ n, RefSkeleton.length = n + 1 := ⟨RefSkeleton.length - 1, by omega⟩
  unfold SetMesh.boneLoop at h
  rw [hn, List.range_succ_eq_map, List.foldlM_cons] at h
  by_contra hne
  have hgt : ¬ B.ParentIndex ≤ 0 := by omega
  have hstep : SetMesh.boneLoopBody M RefSkeleton Anim BoneData 0 = none := by
    unfold SetMesh.boneLoopBody
    rw [hB]
    cases BoneData[0]? with
    | none => rfl
    | some d => simp only [if_neg hgt]
  rw [hstep] at h
  simp at h

/-- C24: for a skeleton with `ParentIndex[i] < i` for `i > 0` whose bones hold their
reference pose (root orientation conjugated) with scale 1, and a base transform that is the
identity, the composition pass of `UpdateSkeleton` completes, gives every bone `Coords`
equal to the `RefCoords` computed by `SetMesh` and a `Transform` equal to the identity
frame, and the weighted sum that skinning computes for a vertex whose weights sum to 1 is
the reference vertex. -/
theorem UpdateSkeleton_reference_pose_identity {V Q : Type} [AddCommMonoid V] [Module ℚ V]
    (M : CoordsMath V Q) (RefSkeleton : List (FMeshBone V Q))
    (Anim : Option (UMeshAnimation V Q)) (BaseTransformScaled identity : CCoords V)
    (UnTransformPoint : CCoords V → V → V)
    (BoneData0 BoneData1 BoneData : List (CMeshBoneData V Q (CCoords V)))
    (hpar : ∀ j B, 0 < j → RefSkeleton[j]? = some B → B.ParentIndex < j)
    (hlen0 : BoneData0.length = RefSkeleton.length)
    (hset : SetMesh.boneLoop M RefSkeleton Anim BoneData0 = some BoneData1)
    (hlaws : IdentityLaws M BaseTransformScaled identity UnTransformPoint
      (BoneData1.map (fun d => d.RefCoords)))
    (hlen : BoneData.length = RefSkeleton.length)
    (hpose : ∀ (i : Nat) (B : FMeshBone V Q) (d1 d : CMeshBoneData V Q (CCoords V)),
      RefSkeleton[i]? = some B → BoneData1[i]? = some d1 →
      BoneData[i]? = some d →
      d.RefCoordsInv = d1.RefCoordsInv ∧ d.Scale = 1 ∧ d.Pos = B.Position
        ∧ d.Quat = (if i = 0 then M.Conjugate B.Orientation else B.Orientation)) :
    ∃ out, UpdateSkeleton.compose M RefSkeleton BaseTransformScaled BoneData = some out
      ∧ out.length = RefSkeleton.length
      ∧ (∀ (i : Nat) (d1 o : CMeshBoneData V Q (CCoords V)),
          BoneData1[i]? = some d1 → out[i]? = some o →
          o.Coords = d1.RefCoords ∧ o.Transform = identity)
      ∧ ∀ (Infs : List FVertInfluences) (v : V) (p : Nat),
          (∀ Infl ∈ Infs, Infl.PointIndex = p → Infl.BoneIndex < RefSkeleton.length) →
          weightSum Infs p = 1 →
          skinnedPosition UnTransformPoint out Infs v p = v := by
  have hroot := SetMesh.boneLoop_root M RefSkeleton Anim BoneData0 BoneData1 hset
  obtain ⟨out1, hs1, hl1, hc1⟩ :=
    SetMesh.boneLoop_spec M RefSkeleton Anim BoneData0 hpar hroot hlen0
  rw [hset] at hs1
  cases hs1
  obtain ⟨out, hs2, hl2, hc2⟩ :=
    UpdateSkeleton.compose_spec M RefSkeleton BaseTransformScaled BoneData hpar hlen
  have main : ∀ (n i : Nat), i < n → ∀ (d1 o : CMeshBoneData V Q (CCoords V)),
      BoneData1[i]? = some d1 → out[i]? = some o →
      o.Coords = d1.RefCoords ∧ o.Transform = identity := by
    intro n
    induction n with
    | zero => intro i hi; omega
    | succ n ih =>
      intro i hi d1 o hd1 ho
      have hiN : i < RefSkeleton.length := by
        rw [← hl1]; exact lt_length_of_getElem?_eq_some _ i d1 hd1
      have hB : RefSkeleton[i]? = some (RefSkeleton[i]) := List.getElem?_eq_getElem hiN
      have hiB : i < BoneData.length := by omega
      have hd : BoneData[i]? = some (BoneData[i]) := List.getElem?_eq_getElem hiB
      obtain ⟨p2, hp2, hp20, ho2⟩ := hc2 i _ _ hB hd
      obtain ⟨p1, o1, hp1, ho1, hr1, hr2, _⟩ := hc1 i _ hB
      rw [hd1] at ho1
      cases ho1
      rw [ho] at ho2
      cases ho2
      obtain ⟨hf1, hf2, hf3, hf4⟩ := hpose i _ d1 _ hB hd1 hd
      have hcoords : UpdateSkeleton.boneCoords M BaseTransformScaled i (BoneData[i]) p2.Coords
          = d1.RefCoords := by
        rw [hr1]
        by_cases h0 : i = 0
        · subst h0
          simp [UpdateSkeleton.boneCoords, SetMesh.refCoords, hf2, hf3, hf4, hlaws.base]
        · have hpos : 0 < i := Nat.pos_of_ne_zero h0
          have hlt := hpar i _ hpos hB
          have hih := ih (RefSkeleton[i]).ParentIndex (by omega) p1 p2 (hp1 hpos) (hp2 hpos)
          simp [UpdateSkeleton.boneCoords, SetMesh.refCoords, hf2, hf3, hf4, h0, hih.1]
      refine ⟨hcoords, ?_⟩
      simp only [hcoords, hf1, hr2]
      exact hlaws.inverse _ (List.mem_map.mpr ⟨d1, List.getElem?_mem hd1, rfl⟩)
  refine ⟨out, hs2, hl2, fun i d1 o h1 h2 => main (i + 1) i (by omega) d1 o h1 h2, ?_⟩
  intro Infs v p hidx hsum
  rw [skinnedPosition_same_transform UnTransformPoint out v p identity Infs, hsum,
    hlaws.point, one_smul]
  intro Infl hI hp
  have hb := hidx Infl hI hp
  have ho : out[Infl.BoneIndex]? = some (out[Infl.BoneIndex]) :=
    List.getElem?_eq_getElem (by omega)
  have hd1 : BoneData1[Infl.BoneIndex]? = some (BoneData1[Infl.BoneIndex]) :=
    List.getElem?_eq_getElem (by omega)
  exact ⟨_, ho, (main (Infl.BoneIndex + 1) Infl.BoneIndex (by omega) _ _ hd1 ho).2⟩

/-- C28: for a skeleton with `ParentIndex[i] < i` for `i > 0` and a bone `b`, two runs of the
composition pass of `UpdateSkeleton` on bone arrays that differ in the record of `b` only
(its pose, its scale) both complete and leave the same record, `Coords` and `Transform`
included, in every bone that is neither `b` nor a descendant of `b`. -/
theorem UpdateSkeleton_compose_frame {V Q : Type} (M : CoordsMath V Q)
    (RefSkeleton : List (FMeshBone V Q)) (BaseTransformScaled : CCoords V)
    (BoneData BoneData' : List (CMeshBoneData V Q (CCoords V))) (b : Nat)
    (hpar : ∀ j B, 0 < j → RefSkeleton[j]? = some B → B.ParentIndex < j)
    (hlen : BoneData.length = RefSkeleton.length)
    (hlen' : BoneData'.length = RefSkeleton.length)
    (hother : ∀ i, i ≠ b → BoneData'[i]? = BoneData[i]?) :
    ∃ out out', UpdateSkeleton.compose M RefSkeleton BaseTransformScaled BoneData = some out
      ∧ UpdateSkeleton.compose M RefSkeleton BaseTransformScaled BoneData' = some out'
      ∧ ∀ i, i ≠ b → ¬ Descendant RefSkeleton b i → out'[i]? = out[i]? := by
  obtain ⟨out, hs, hl, hc⟩ :=
    UpdateSkeleton.compose_spec M RefSkeleton BaseTransformScaled BoneData hpar hlen
  obtain ⟨out', hs', hl', hc'⟩ :=
    UpdateSkeleton.compose_spec M RefSkeleton BaseTransformScaled BoneData' hpar hlen'
  refine ⟨out, out', hs, hs', ?_⟩
  have main : ∀ n i, i < n → i ≠ b → ¬ Descendant RefSkeleton b i → out'[i]? = out[i]? := by
    intro n
    induction n with
    | zero => intro i hi; omega
    | succ n ih =>
      intro i hi hib hnd
      by_cases hiN : i < RefSkeleton.length
      · have hB : RefSkeleton[i]? = some (RefSkeleton[i]) := List.getElem?_eq_getElem hiN
        have hiB : i < BoneData.length := by omega
        have hd : BoneData[i]? = some (BoneData[i]) := List.getElem?_eq_getElem hiB
        have hd' : BoneData'[i]? = some (BoneData[i]) := by rw [hother i hib]; exact hd
        obtain ⟨p, hp, hp0, ho⟩ := hc i _ _ hB hd
        obtain ⟨p', hp', hp0', ho'⟩ := hc' i _ _ hB hd'
        rw [ho, ho']
        by_cases h0 : i = 0
        · rw [hp0 h0, hp0' h0]
        · have hpos : 0 < i := Nat.pos_of_ne_zero h0
          have hlt := hpar i _ hpos hB
          have hPb : (RefSkeleton[i]).ParentIndex ≠ b :=
            fun h => hnd (Descendant.child i _ hpos hB h)
          have hPd : ¬ Descendant RefSkeleton b (RefSkeleton[i]).ParentIndex :=
            fun h => hnd (Descendant.step i _ hpos hB h)
          have hih := ih (RefSkeleton[i]).ParentIndex (by omega) hPb hPd
          rw [hp hpos, hp' hpos] at hih
          cases hih
          rfl
      · rw [List.getElem?_eq_none (by omega), List.getElem?_eq_none (by omega)]
  intro i hib hnd
  exact main (i + 1) i (by omega) hib hnd

theorem branchSkeleton_parent_first :
    ∀ j B, 0 < j → branchSkeleton[j]? = some B → B.ParentIndex < j := by
  intro j B hj hB
  match j, hj, hB with
  | 1, _, hB => cases hB; decide
  | 2, _, hB => cases hB; decide
  | j + 3, _, hB => simp [branchSkeleton] at hB

/-- C24 at a concrete input: the three-bone skeleton `branchSkeleton` in its reference pose,
with the coordinate routines on one-dimensional frames. -/
theorem UpdateSkeleton_reference_pose_identity_witness :
    ∃ out, UpdateSkeleton.compose affineMath branchSkeleton affineIdentity branchBoneData
        = some out
      ∧ out.length = branchSkeleton.length
      ∧ (∀ (i : Nat) (d1 o : CMeshBoneData ℚ ℚ (CCoords ℚ)),
          branchBoneData1[i]? = some d1 → out[i]? = some o →
          o.Coords = d1.RefCoords ∧ o.Transform = affineIdentity)
      ∧ ∀ (Infs : List FVertInfluences) (v : ℚ) (p : Nat),
          (∀ Infl ∈ Infs, Infl.PointIndex = p → Infl.BoneIndex < branchSkeleton.length) →
          weightSum Infs p = 1 →
          skinnedPosition affineUnTransformPoint out Infs v p = v :=
  UpdateSkeleton_reference_pose_identity affineMath branchSkeleton none affineIdentity
    affineIdentity affineUnTransformPoint branchBoneData0 branchBoneData1 branchBoneData
    branchSkeleton_parent_first rfl (by decide!)
    ⟨by
        intro X
        obtain ⟨o, a, b, c⟩ := X
        simp [affineMath, affineIdentity],
      by decide!,
      by intro v; simp [affineUnTransformPoint, affineIdentity]⟩
    rfl
    (by
      intro i B d1 d hB hd1 hd
      match i, hB, hd1, hd with
      | 0, hB, hd1, hd => cases hB; cases hd1; cases hd; decide!
      | 1, hB, hd1, hd => cases hB; cases hd1; cases hd; decide!
      | 2, hB, hd1, hd => cases hB; cases hd1; cases hd; decide!
      | i + 3, hB, _, _ => simp [branchSkeleton] at hB)

/-- C28 at a concrete input: in `branchSkeleton` the pose and the scale of bone 1 are
changed; bones 0 and 2 are neither bone 1 nor descendants of it. -/
theorem UpdateSkeleton_compose_frame_witness :
    ∃ out out',
      UpdateSkeleton.compose affineMath branchSkeleton affineIdentity branchBoneData = some out
      ∧ UpdateSkeleton.compose affineMath branchSkeleton affineIdentity branchBoneDataMoved
        = some out'
      ∧ ∀ i, i ≠ 1 → ¬ Descendant branchSkeleton 1 i → out'[i]? = out[i]? :=
  UpdateSkeleton_compose_frame affineMath branchSkeleton affineIdentity branchBoneData
    branchBoneDataMoved 1 branchSkeleton_parent_first rfl rfl
    (by
      intro i hi
      match i, hi with
      | 0, _ => rfl
      | 1, hi => exact absurd rfl hi
      | 2, _ => rfl
      | i + 3, _ => rfl)

end UEViewer
